import Mathlib

/-!
# Matam ordered map (`map.c`): embedding and verification

The map of `map.c` is a sorted singly linked chain of `(key, data)` nodes with a
live count, one cursor and five client callbacks.  The embedding below keeps the
shape of the C code:

* the nodes reachable from `first_node` are a `List (KeyData K V)`, in chain order;
* `iterator` is a `Cursor`: `NULL`, the node at a position of the chain, or a pointer
  to a node that is not part of the chain any more (freed or cut off);
* a `NULL` pointer argument or result is `none`;
* `size` is the C `int` field, kept as an `Int`: it moves by one per call, and a run in
  which it would leave the range of `int` is undefined in C;
* every allocation attempt (`malloc`, `copyKey`, `copyData`) consumes one entry of a
  fault schedule `List Bool`, `true` meaning that this attempt returns `NULL`; past
  the end of the schedule every attempt succeeds;
* a run that dereferences `NULL`, or reads through a cursor that points outside the
  chain, has no result in the model: the function returns `none`;
* `mapDestroy` is not modelled: it leaves no map state behind.
-/

namespace Matam

/-- Modelled from the spec: the `MapResult` codes declared in `map.h`, which is not among the
sources. The constructors are the four codes that `map.c` and its callers use (spec, error
handling design: Success, OutOfMemory, NullArgument, ItemDoesNotExist). -/
inductive MapResult where
  | MAP_SUCCESS
  | MAP_OUT_OF_MEMORY
  | MAP_NULL_ARGUMENT
  | MAP_ITEM_DOES_NOT_EXIST
  deriving DecidableEq, Repr

/-- Node of the chain, `struct Key_Data_t`; the `next` field is the rest of the list. -/
structure KeyData (K V : Type) where
  key : K
  data : V
  deriving DecidableEq, Repr

/-- Value of the `iterator` field: `null` is NULL, `node i` points to the node at position `i`
of the chain (the head is position 0), `stale` points to a node that is no longer reachable
from `first_node`. -/
inductive Cursor where
  | null
  | node (i : Nat)
  | stale
  deriving DecidableEq, Repr

/-- The map, `struct Map_t`. `first_node` holds the whole chain reachable from the head.
`copyData` and `copyKey` give the value of a copy that succeeds (whether a call succeeds is
decided by the fault schedule); the two free callbacks return nothing. -/
structure Map (K V : Type) where
  size : Int
  first_node : List (KeyData K V)
  iterator : Cursor
  copyData : V → V
  copyKey : K → K
  freeData : V → Unit
  freeKey : K → Unit
  compareKeys : K → K → Int

/-- `malloc`: one allocation attempt; the flag tells whether it succeeded. -/
def malloc : List Bool → Bool × List Bool
  | [] => (true, [])
  | b :: rest => (!b, rest)

/-- Call of a copy callback: one allocation attempt, `none` (NULL) when it fails. -/
def callCopy {α : Type} (copy : α → α) (x : α) (faults : List Bool) : Option α × List Bool :=
  match malloc faults with
  | (true, rest) => (some (copy x), rest)
  | (false, rest) => (none, rest)

/-- `mapCreate` (map.c 46-66). -/
def mapCreate {K V : Type} (copyDataElement : Option (V → V)) (copyKeyElement : Option (K → K))
    (freeDataElement : Option (V → Unit)) (freeKeyElement : Option (K → Unit))
    (compareKeyElements : Option (K → K → Int)) (faults : List Bool) :
    Option (Map K V) × List Bool :=
  match copyDataElement, freeDataElement, compareKeyElements, copyKeyElement, freeKeyElement with
  | some cd, some fd, some cmp, some ck, some fk =>
    match malloc faults with
    | (false, rest) => (none, rest)
    | (true, rest) =>
      (some { size := 0, first_node := [], iterator := Cursor.null, copyData := cd, copyKey := ck,
              freeData := fd, freeKey := fk, compareKeys := cmp }, rest)
  | _, _, _, _, _ => (none, faults)

/-- `mapGetSize` (map.c 128-132). -/
def mapGetSize {K V : Type} (map : Option (Map K V)) : Int :=
  match map with
  | none => -1
  | some m => m.size

/-- Loop of `mapContains` (map.c 141-145), `ptr` running over the chain. -/
def containsLoop {K V : Type} (compareKeys : K → K → Int) (element : K) : List (KeyData K V) → Bool
  | [] => false
  | ptr :: next => if compareKeys ptr.key element = 0 then true
                   else containsLoop compareKeys element next

/-- `mapContains` (map.c 135-148). -/
def mapContains {K V : Type} (map : Option (Map K V)) (element : Option K) : Bool :=
  match map, element with
  | some m, some e =>
    match m.first_node with
    | [] => false
    | ptr :: next => containsLoop m.compareKeys e (ptr :: next)
  | _, _ => false

/-- Loop of `mapGet` (map.c 217-225), `ptr` running over the chain. -/
def getLoop {K V : Type} (compareKeys : K → K → Int) (keyElement : K) : List (KeyData K V) → Option V
  | [] => none
  | ptr :: next =>
    if compareKeys ptr.key keyElement = 0 then some ptr.data
    else if compareKeys ptr.key keyElement > 0 then none
    else getLoop compareKeys keyElement next

/-- `mapGet` (map.c 211-228). -/
def mapGet {K V : Type} (map : Option (Map K V)) (keyElement : Option K) : Option V :=
  match map, keyElement with
  | some m, some k =>
    match m.first_node with
    | [] => none
    | ptr :: next => getLoop m.compareKeys k (ptr :: next)
  | _, _ => none

/-- Linking part of `addNode` (map.c 347-361): the new node `tmp` goes in as the only node
when `size == 0`, in front of the head when the head key is larger, and otherwise right after
the cursor; `size` is incremented. -/
def linkNode {K V : Type} (map : Map K V) (tmp : KeyData K V) : Option (Map K V) :=
  if map.size = 0 then
    -- the previous chain, if any, is cut off from the head
    some { map with first_node := [tmp], size := map.size + 1,
                    iterator := match map.iterator with
                                | Cursor.node _ => Cursor.stale
                                | c => c }
  else
    match map.first_node with
    | [] => none
    | first :: _ =>
      if map.compareKeys first.key tmp.key > 0 then
        some { map with first_node := tmp :: map.first_node, size := map.size + 1,
                        iterator := match map.iterator with
                                    | Cursor.node i => Cursor.node (i + 1)
                                    | c => c }
      else
        match map.iterator with
        | Cursor.node i =>
          if i < map.first_node.length then
            some { map with first_node :=
                              map.first_node.take (i + 1) ++ tmp :: map.first_node.drop (i + 1),
                            size := map.size + 1 }
          else none
        | _ => none

/-- `addNode` (map.c 327-363): allocation of the node and of the two copies (map.c 329-346),
then the linking. -/
def addNode {K V : Type} (map : Map K V) (key_element : K) (data_element : V)
    (faults : List Bool) : Option (MapResult × Map K V × List Bool) :=
  match malloc faults with
  | (false, f1) => some (MapResult.MAP_OUT_OF_MEMORY, map, f1)
  | (true, f1) =>
    match callCopy map.copyKey key_element f1 with
    | (none, f2) => some (MapResult.MAP_OUT_OF_MEMORY, map, f2)
    | (some key, f2) =>
      match callCopy map.copyData data_element f2 with
      | (none, f3) => some (MapResult.MAP_OUT_OF_MEMORY, map, f3)
      | (some data, f3) =>
        match linkNode map { key := key, data := data } with
        | none => none
        | some m1 => some (MapResult.MAP_SUCCESS, m1, f3)

/-- Scan of `mapPut` (map.c 184-186): the first argument is the chain hanging from
`iterator->next`, the second the position of `iterator`; the result is the position of
`iterator` when the loop stops. -/
def putScan {K V : Type} (compareKeys : K → K → Int) (keyElement : K) :
    List (KeyData K V) → Nat → Nat
  | [], i => i
  | next :: rest, i =>
    if compareKeys next.key keyElement < 0 then putScan compareKeys keyElement rest (i + 1) else i

/-- Last block of `mapPut` (map.c 196-207): update of the node after the cursor when its key
compares equal. -/
def putUpdate {K V : Type} (map : Map K V) (keyElement : K) (dataElement : V)
    (faults : List Bool) : Option (MapResult × Map K V × List Bool) :=
  match map.iterator with
  | Cursor.node i =>
    match map.first_node[i]?, map.first_node[i + 1]? with
    | some _, some next =>
      if map.compareKeys next.key keyElement = 0 then
        match callCopy map.copyData dataElement faults with
        | (none, rest) =>
          some (MapResult.MAP_OUT_OF_MEMORY, { map with iterator := Cursor.node (i + 1) }, rest)
        | (some tmp, rest) =>
          some (MapResult.MAP_SUCCESS,
            { map with iterator := Cursor.node (i + 1),
                       first_node := map.first_node.set (i + 1) { next with data := tmp } }, rest)
      else some (MapResult.MAP_SUCCESS, map, faults)
    | _, _ => none
  | _ => none

/-- Block of `mapPut` at map.c 188-207 when the condition of line 188 holds: `addNode`, then the
update block, which the code falls into after a successful `addNode`. -/
def putInsert {K V : Type} (map : Map K V) (keyElement : K) (dataElement : V)
    (faults : List Bool) : Option (MapResult × Option (Map K V) × List Bool) :=
  match addNode map keyElement dataElement faults with
  | none => none
  | some (result, m3, f) =>
    if result ≠ MapResult.MAP_SUCCESS then some (MapResult.MAP_OUT_OF_MEMORY, some m3, f)
    else
      match putUpdate m3 keyElement dataElement f with
      | none => none
      | some (r, m4, f4) => some (r, some m4, f4)

/-- `mapPut` (map.c 151-208). -/
def mapPut {K V : Type} (map : Option (Map K V)) (keyElement : Option K) (dataElement : Option V)
    (faults : List Bool) : Option (MapResult × Option (Map K V) × List Bool) :=
  match map, keyElement, dataElement with
  | some m, some k, some d =>
    match m.first_node with
    | [] =>
      match addNode m k d faults with
      | none => none
      | some (result, m1, f) =>
        if result ≠ MapResult.MAP_SUCCESS then some (MapResult.MAP_OUT_OF_MEMORY, some m1, f)
        else some (MapResult.MAP_SUCCESS, some m1, f)
    | first :: rest =>
      let m0 : Map K V := { m with iterator := Cursor.node 0 }
      if m.compareKeys first.key k > 0 then
        match addNode m0 k d faults with
        | none => none
        | some (result, m1, f) =>
          if result ≠ MapResult.MAP_SUCCESS then some (MapResult.MAP_OUT_OF_MEMORY, some m1, f)
          else some (MapResult.MAP_SUCCESS, some m1, f)
      else if m.compareKeys first.key k = 0 then
        match callCopy m.copyData d faults with
        | (none, f) => some (MapResult.MAP_OUT_OF_MEMORY, some m0, f)
        | (some tmp, f) =>
          some (MapResult.MAP_SUCCESS,
            some { m0 with first_node := { first with data := tmp } :: rest }, f)
      else
        let m2 : Map K V := { m with iterator := Cursor.node (putScan m.compareKeys k rest 0) }
        match m.first_node[putScan m.compareKeys k rest 0 + 1]? with
        | none => putInsert m2 k d faults
        | some next =>
          if m.compareKeys next.key k > 0 then putInsert m2 k d faults
          else
            match putUpdate m2 k d faults with
            | none => none
            | some (r, m4, f4) => some (r, some m4, f4)
  | _, _, _ => some (MapResult.MAP_NULL_ARGUMENT, map, faults)

/-- Loop of `mapRemove` (map.c 253-270): `it` is the node under `iterator`, the list is the
chain hanging from `iterator->next`, `i` the position of `iterator`. The result tells whether
the node after the cursor matched, and where the cursor stands. -/
def removeScan {K V : Type} (compareKeys : K → K → Int) (keyElement : K) :
    KeyData K V → List (KeyData K V) → Nat → Bool × Nat
  | _, [], i => (false, i)
  | it, next :: rest, i =>
    if compareKeys next.key keyElement = 0 then (true, i)
    else if compareKeys it.key keyElement > 0 then (false, i)
    else removeScan compareKeys keyElement next rest (i + 1)

/-- New value of `iterator->next` at map.c 256:
`(iterator->next->next == NULL) ? iterator->next->next : NULL`, the argument being the chain
hanging from `iterator->next->next`. -/
def relink {K V : Type} (nextNext : List (KeyData K V)) : List (KeyData K V) :=
  match nextNext with
  | [] => nextNext
  | _ :: _ => []

/-- `mapRemove` (map.c 231-273). -/
def mapRemove {K V : Type} (map : Option (Map K V)) (keyElement : Option K) :
    MapResult × Option (Map K V) :=
  match map, keyElement with
  | some m, some k =>
    match m.first_node with
    | [] => (MapResult.MAP_ITEM_DOES_NOT_EXIST, some m)
    | first :: rest =>
      if m.compareKeys first.key k = 0 then
        (MapResult.MAP_SUCCESS,
          some { m with first_node := rest, size := m.size - 1,
                        iterator := match m.iterator with
                                    | Cursor.node 0 => Cursor.stale
                                    | Cursor.node (j + 1) => Cursor.node j
                                    | c => c })
      else
        match removeScan m.compareKeys k first rest 0 with
        | (true, i) =>
          (MapResult.MAP_SUCCESS,
            some { m with first_node := m.first_node.take (i + 1) ++ relink (m.first_node.drop (i + 2)),
                          size := m.size - 1, iterator := Cursor.node i })
        | (false, i) =>
          (MapResult.MAP_ITEM_DOES_NOT_EXIST, some { m with iterator := Cursor.node i })
  | _, _ => (MapResult.MAP_NULL_ARGUMENT, map)

/-- `mapClear` (map.c 304-324). -/
def mapClear {K V : Type} (map : Option (Map K V)) : MapResult × Option (Map K V) :=
  match map with
  | none => (MapResult.MAP_NULL_ARGUMENT, none)
  | some m =>
    match m.first_node with
    | [] => (MapResult.MAP_SUCCESS, some m)
    | _ :: _ =>
      (MapResult.MAP_SUCCESS, some { m with first_node := [], size := 0, iterator := Cursor.null })

/-- `mapGetFirst` (map.c 275-286): the key returned, the map afterwards, the schedule left. -/
def mapGetFirst {K V : Type} (map : Option (Map K V)) (faults : List Bool) :
    Option K × Option (Map K V) × List Bool :=
  match map with
  | none => (none, none, faults)
  | some m =>
    match m.first_node with
    | [] => (none, some m, faults)
    | first :: _ =>
      match callCopy m.copyKey first.key faults with
      | (first_key, rest) => (first_key, some { m with iterator := Cursor.node 0 }, rest)

/-- `mapGetNext` (map.c 289-301): the key returned, the map afterwards, the schedule left.
Reading `iterator->next` through a cursor that points outside the chain has no result. -/
def mapGetNext {K V : Type} (map : Option (Map K V)) (faults : List Bool) :
    Option (Option K × Option (Map K V) × List Bool) :=
  match map with
  | none => some (none, none, faults)
  | some m =>
    match m.iterator with
    | Cursor.null => some (none, some m, faults)
    | Cursor.stale => none
    | Cursor.node i =>
      match m.first_node[i]? with
      | none => none
      | some _ =>
        match m.first_node[i + 1]? with
        | none => some (none, some { m with iterator := Cursor.null }, faults)
        | some next =>
          match callCopy m.copyKey next.key faults with
          | (next_key, rest) => some (next_key, some { m with iterator := Cursor.node (i + 1) }, rest)

/-- Loop of `mapCopy` (map.c 98-118): the list is the chain hanging from `map->iterator`,
`i` the position of `map->iterator`. The result is the new map when every node was copied
(NULL when a copy or the inner `mapPut` failed and the new map was destroyed), the value of
`map->iterator` at exit and the schedule left. -/
def copyLoop {K V : Type} (map : Map K V) :
    Map K V → List (KeyData K V) → Nat → List Bool →
      Option (Option (Map K V) × Cursor × List Bool)
  | new_map, [], _, faults => some (some new_map, Cursor.null, faults)
  | new_map, node :: next, i, faults =>
    match callCopy map.copyKey node.key faults with
    | (none, f1) => some (none, Cursor.node i, f1)
    | (some key, f1) =>
      match callCopy map.copyData node.data f1 with
      | (none, f2) => some (none, Cursor.node i, f2)
      | (some data, f2) =>
        match mapPut (some new_map) (some key) (some data) f2 with
        | none => none
        | some (result, new_map1, f3) =>
          if result = MapResult.MAP_OUT_OF_MEMORY then some (none, Cursor.node i, f3)
          else
            match new_map1 with
            | none => none
            | some nm => copyLoop map nm next (i + 1) f3

/-- `mapCopy` (map.c 81-125): the map returned (NULL on failure), the source map afterwards
and the schedule left. -/
def mapCopy {K V : Type} (map : Option (Map K V)) (faults : List Bool) :
    Option (Option (Map K V) × Option (Map K V) × List Bool) :=
  match map with
  | none => some (none, none, faults)
  | some m =>
    match mapCreate (some m.copyData) (some m.copyKey) (some m.freeData) (some m.freeKey)
        (some m.compareKeys) faults with
    | (none, f) => some (none, some m, f)
    | (some new_map, f) =>
      match m.first_node with
      | [] => some (some { new_map with first_node := [] },
                    some { m with iterator := Cursor.null }, f)
      | first :: rest =>
        match copyLoop m new_map (first :: rest) 0 f with
        | none => none
        | some (none, it, f1) => some (none, some { m with iterator := it }, f1)
        | some (some nm, it, f1) =>
          some (some { nm with iterator := Cursor.null, size := m.size },
                some { m with iterator := it }, f1)

/-- One public call that can change a map state, made on a non-NULL map. For `mapCopy` the
sequence of calls goes on either with the source map (`copySource`) or with the map that the
call returned (`copyResult`). -/
inductive MapOp (K V : Type) where
  | put (keyElement : Option K) (dataElement : Option V) (faults : List Bool)
  | remove (keyElement : Option K)
  | clear
  | getFirst (faults : List Bool)
  | getNext (faults : List Bool)
  | copySource (faults : List Bool)
  | copyResult (faults : List Bool)

/-- State of the map after one call; `none` when the call has no result (or, for
`copyResult`, returned NULL). -/
def applyOp {K V : Type} (m : Map K V) : MapOp K V → Option (Map K V)
  | MapOp.put k d faults =>
    match mapPut (some m) k d faults with
    | some (_, some m1, _) => some m1
    | _ => none
  | MapOp.remove k => (mapRemove (some m) k).2
  | MapOp.clear => (mapClear (some m)).2
  | MapOp.getFirst faults => (mapGetFirst (some m) faults).2.1
  | MapOp.getNext faults =>
    match mapGetNext (some m) faults with
    | some (_, some m1, _) => some m1
    | _ => none
  | MapOp.copySource faults =>
    match mapCopy (some m) faults with
    | some (_, some m1, _) => some m1
    | _ => none
  | MapOp.copyResult faults =>
    match mapCopy (some m) faults with
    | some (some c, _, _) => some c
    | _ => none

/-- State of the map after a sequence of calls. -/
def runOps {K V : Type} (m : Map K V) : List (MapOp K V) → Option (Map K V)
  | [] => some m
  | op :: ops =>
    match applyOp m op with
    | none => none
    | some m1 => runOps m1 ops

/-- States that `mapCreate` followed by finitely many public calls (`mapPut`, `mapRemove`,
`mapClear`, `mapGetFirst`, `mapGetNext`, `mapCopy`) can produce. -/
def Reachable {K V : Type} (m : Map K V) : Prop :=
  ∃ cd ck fd fk cmp faults ops m0,
    (mapCreate cd ck fd fk cmp faults).1 = some m0 ∧ runOps m0 ops = some m

/-- Keys strictly ascending along the chain. -/
def Ascending {K V : Type} (compareKeys : K → K → Int) (chain : List (KeyData K V)) : Prop :=
  chain.Pairwise (fun a b => compareKeys a.key b.key < 0)

/-- Well-formed map: the chain is strictly ascending and `size` counts its nodes. -/
def WellFormed {K V : Type} (m : Map K V) : Prop :=
  Ascending m.compareKeys m.first_node ∧ m.size = m.first_node.length

/-- Comparator that is a total order with `== 0` as its equality (spec, external
interfaces): the sign flips when the arguments are swapped, and `<= 0` is transitive. -/
structure TotalOrder {K : Type} (compareKeys : K → K → Int) : Prop where
  antisymm : ∀ a b, compareKeys a b < 0 ↔ 0 < compareKeys b a
  trans : ∀ a b c, compareKeys a b ≤ 0 → compareKeys b c ≤ 0 → compareKeys a c ≤ 0

/-- Contract of the callbacks (spec, external interfaces): `compareKeys` is a total order
and a copied key compares like the key it was copied from. -/
structure Contract {K : Type} (compareKeys : K → K → Int) (copyKey : K → K) : Prop where
  order : TotalOrder compareKeys
  copy_left : ∀ a b, compareKeys (copyKey a) b = compareKeys a b
  copy_right : ∀ a b, compareKeys a (copyKey b) = compareKeys a b

/-- The five callbacks of two map states are the same. -/
def SameCallbacks {K V : Type} (m m1 : Map K V) : Prop :=
  m1.copyData = m.copyData ∧ m1.copyKey = m.copyKey ∧ m1.freeData = m.freeData ∧
    m1.freeKey = m.freeKey ∧ m1.compareKeys = m.compareKeys

/-- No allocation attempt of the schedule fails. -/
def NoFault (faults : List Bool) : Prop := ∀ b ∈ faults, b = false

/-- Effect of one `mapPut` with non-NULL arguments on a sorted chain, by the position of the
key: the chain splits into the nodes with smaller keys and the rest. Either no node has an
equal key, and the call leaves the map as it was (out of memory) or splices the new node
between the two parts; or the first node of the rest has an equal key, and the call leaves the
map as it was (out of memory) or replaces the data of that node. -/
def PutEffect {K V : Type} (m : Map K V) (k : K) (d : V) (faults : List Bool) (r : MapResult)
    (m1 : Map K V) : Prop :=
  SameCallbacks m m1 ∧ ∃ pre post, m.first_node = pre ++ post ∧
    (∀ n ∈ pre, m.compareKeys n.key k < 0) ∧
    (((∀ n ∈ post, 0 < m.compareKeys n.key k) ∧
        ((r = MapResult.MAP_OUT_OF_MEMORY ∧ m1.first_node = m.first_node ∧ m1.size = m.size) ∨
         ((r = MapResult.MAP_OUT_OF_MEMORY ∨ r = MapResult.MAP_SUCCESS) ∧
           m1.first_node = pre ++ { key := m.copyKey k, data := m.copyData d } :: post ∧
           m1.size = m.size + 1)) ∧
        (NoFault faults → r = MapResult.MAP_SUCCESS)) ∨
     (∃ nxt rest, post = nxt :: rest ∧ m.compareKeys nxt.key k = 0 ∧
        (∀ n ∈ rest, 0 < m.compareKeys n.key k) ∧
        ((r = MapResult.MAP_OUT_OF_MEMORY ∧ m1.first_node = m.first_node ∧ m1.size = m.size ∧
            (malloc faults).1 = false) ∨
         (r = MapResult.MAP_SUCCESS ∧
            m1.first_node = pre ++ { key := nxt.key, data := m.copyData d } :: rest ∧
            m1.size = m.size ∧ (malloc faults).1 = true))))

/-- Keys that successive `mapGetNext` calls return until one of them returns NULL, with at
most `fuel` calls; `none` when a call has no result or the calls are used up. -/
def nextKeys {K V : Type} : Nat → Map K V → List Bool → Option (List K)
  | 0, _, _ => none
  | fuel + 1, m, faults =>
    match mapGetNext (some m) faults with
    | some (none, _, _) => some []
    | some (some key, some m1, rest) =>
      match nextKeys fuel m1 rest with
      | none => none
      | some keys => some (key :: keys)
    | _ => none

/-- Traversal of a map: `mapGetFirst`, then `mapGetNext` until NULL comes back (at most `fuel`
calls of `mapGetNext`). -/
def iterateKeys {K V : Type} (fuel : Nat) (m : Map K V) (faults : List Bool) : Option (List K) :=
  match mapGetFirst (some m) faults with
  | (none, _, _) => some []
  | (some key, some m1, rest) =>
    match nextKeys fuel m1 rest with
    | none => none
    | some keys => some (key :: keys)
  | _ => none

/-- The cursor is NULL or stands on a node of the chain. -/
def CursorOk {K V : Type} (m : Map K V) : Prop :=
  match m.iterator with
  | Cursor.null => True
  | Cursor.node i => i < m.first_node.length
  | Cursor.stale => False

/-- The call is a `mapRemove` that deletes the head node while the cursor stands on it. -/
def hitsCursor {K V : Type} (m : Map K V) : MapOp K V → Bool
  | MapOp.remove (some k) =>
    match m.iterator, m.first_node with
    | Cursor.node 0, first :: _ => decide (m.compareKeys first.key k = 0)
    | _, _ => false
  | _ => false

/-- Along the sequence of calls no `mapRemove` deletes the node the cursor stands on. -/
def sparesCursor {K V : Type} (m : Map K V) : List (MapOp K V) → Bool
  | [] => true
  | op :: ops =>
    !hitsCursor m op &&
      match applyOp m op with
      | none => true
      | some m1 => sparesCursor m1 ops

/-- The schedule `rest` is what is left of `faults` after some attempts. -/
def Spent (faults rest : List Bool) : Prop := ∃ used, faults = used ++ rest

/-- The schedule `rest` is what is left of `faults` after attempts that all succeeded. -/
def SpentOk (faults rest : List Bool) : Prop := ∃ used, faults = used ++ rest ∧ NoFault used

/-- What a caller can observe of the chain: size, chain and cursor. -/
def Map.view {K V : Type} (m : Map K V) : Int × List (KeyData K V) × Cursor :=
  (m.size, m.first_node, m.iterator)

/-- Sample map over `int` keys, with the chain and size given. -/
def intMap (size : Int) (chain : List (KeyData Int String)) : Map Int String :=
  { size := size, first_node := chain, iterator := Cursor.null, copyData := fun d => d,
    copyKey := fun k => k, freeData := fun _ => (), freeKey := fun _ => (),
    compareKeys := fun a b => a - b }

/-! ## The consumer layer (`chessSystem.c`) -/

/-- Value of a C `int` expression after wrapping into the 32-bit two's complement range. -/
def wrap32 (x : Int) : Int := (x + 2147483648) % 4294967296 - 2147483648

/-- `compareInts` (chessSystem.c 113-115): the difference of the two keys, as an `int`. -/
def compareInts (n1 n2 : Int) : Int := wrap32 (n1 - n2)

/-- `CAPITAL_A` (chessSystem.c 10). -/
def CAPITAL_A : Char := 'A'

/-- `CAPITAL_Z` (chessSystem.c 11). -/
def CAPITAL_Z : Char := 'Z'

/-- `SMALL_A` (chessSystem.c 12). -/
def SMALL_A : Char := 'a'

/-- `SMALL_Z` (chessSystem.c 13). -/
def SMALL_Z : Char := 'z'

/-- `SPACE` (chessSystem.c 14). -/
def SPACE : Char := ' '

/-- `NOT_TAKEN` (chessSystem.c 20). -/
def NOT_TAKEN : Int := -1

/-- Loop of `badLocationName` (chessSystem.c 715-718) with `fuel` rounds: a C string is the
list of its characters before the terminating NUL, so reading `location[i]` past the list is
reading the NUL. The body never changes `i`. `none` when the rounds are used up. -/
def badLocationLoop (location : List Char) (i : Nat) : Nat → Option Bool
  | 0 => none
  | fuel + 1 =>
    match location[i]? with
    | none => some false
    | some c =>
      if (c < SMALL_A ∨ c > SMALL_Z) ∧ c ≠ SPACE then some true
      else badLocationLoop location i fuel

/-- `badLocationName` (chessSystem.c 704-721), its loop given `fuel` rounds. -/
def badLocationName (fuel : Nat) (location : List Char) : Option Bool :=
  match location with
  | [] => some true
  | first :: _ =>
    if first < CAPITAL_A ∨ first > CAPITAL_Z then some true
    else badLocationLoop location 1 fuel

/-- Loop of `playerWritten` (chessSystem.c 762-765): `i` is the loop counter, the last
argument the number of rounds left before `i` reaches `size`. Reading `taken_ids[i]` outside
the array has no result. -/
def playerWrittenLoop (taken_ids : List Int) (current_id : Int) : Nat → Nat → Option Bool
  | _, 0 => some false
  | i, rounds + 1 =>
    match taken_ids[i]? with
    | none => none
    | some taken =>
      if current_id = taken then some true
      else playerWrittenLoop taken_ids current_id (i + 1) rounds

/-- `playerWritten` (chessSystem.c 759-767). -/
def playerWritten (taken_ids : List Int) (current_id : Int) (size : Int) : Option Bool :=
  if current_id = NOT_TAKEN then some false
  else playerWrittenLoop taken_ids current_id 0 size.toNat

/-- Modelled from the spec: the `ChessResult` codes declared in `chessSystem.h`, which is not
among the sources. The constructors are the codes that `chessSystem.c` names. -/
inductive ChessResult where
  | CHESS_OUT_OF_MEMORY
  | CHESS_NULL_ARGUMENT
  | CHESS_INVALID_ID
  | CHESS_INVALID_LOCATION
  | CHESS_INVALID_MAX_GAMES
  | CHESS_TOURNAMENT_ALREADY_EXISTS
  | CHESS_TOURNAMENT_NOT_EXIST
  | CHESS_GAME_ALREADY_EXISTS
  | CHESS_INVALID_PLAY_TIME
  | CHESS_EXCEEDED_GAMES
  | CHESS_PLAYER_NOT_EXIST
  | CHESS_TOURNAMENT_ENDED
  | CHESS_NO_TOURNAMENTS_ENDED
  | CHESS_NO_GAMES
  | CHESS_SAVE_FAILURE
  | CHESS_SUCCESS
  deriving DecidableEq, Repr

/-- The chess system, `struct chess_system_t` (chessSystem.c 30-33): two maps keyed by `int`
ids, over the tournament type `T` and the player type `P` of the headers that are not among
the sources. -/
structure ChessSystem (T P : Type) where
  tournaments : Map Int T
  players : Map Int P

/-- `chessAddTournament` (chessSystem.c 217-254): the result code and the chess system
afterwards (NULL once `chessDestroy` has run). `tournamentCreate` belongs to
`chessTournament.h`, which is not among the sources, and is a parameter; `fuel` bounds the
rounds of the loop of `badLocationName`. -/
def chessAddTournament {T P : Type} (tournamentCreate : List Char → Int → Option T)
    (fuel : Nat) (chess : Option (ChessSystem T P)) (tournament_id : Int)
    (max_games_per_player : Int) (tournament_location : Option (List Char))
    (faults : List Bool) : Option (ChessResult × Option (ChessSystem T P)) :=
  match chess, tournament_location with
  | some c, some location =>
    if tournament_id < 0 then some (ChessResult.CHESS_INVALID_ID, chess)
    else if mapContains (some c.tournaments) (some tournament_id) then
      some (ChessResult.CHESS_TOURNAMENT_ALREADY_EXISTS, chess)
    else
      match badLocationName fuel location with
      | none => none
      | some true => some (ChessResult.CHESS_INVALID_LOCATION, chess)
      | some false =>
        if max_games_per_player ≤ 0 then some (ChessResult.CHESS_INVALID_MAX_GAMES, chess)
        else
          match tournamentCreate location max_games_per_player with
          | none => some (ChessResult.CHESS_OUT_OF_MEMORY, none)
          | some new_tournament =>
            match mapPut (some c.tournaments) (some tournament_id) (some new_tournament)
                faults with
            | none => none
            | some (MapResult.MAP_OUT_OF_MEMORY, _, _) =>
              some (ChessResult.CHESS_OUT_OF_MEMORY, none)
            | some (MapResult.MAP_NULL_ARGUMENT, some tournaments, _) =>
              some (ChessResult.CHESS_NULL_ARGUMENT, some { c with tournaments := tournaments })
            | some (_, some tournaments, _) =>
              some (ChessResult.CHESS_SUCCESS, some { c with tournaments := tournaments })
            | some (_, none, _) => none
  | _, _ => some (ChessResult.CHESS_NULL_ARGUMENT, chess)

/-- `checkErrorsAddGame` (chessSystem.c 351-375). `hasTournamentEnded` and `sameGame` belong
to `chessTournament.h`, and the values `FIRST_PLAYER` and `DRAW` of the `Winner` enumeration
to `chessSystem.h`; these headers are not among the sources, so the four are parameters. -/
def checkErrorsAddGame {T P : Type} (hasTournamentEnded : T → Bool)
    (sameGame : T → Int → Int → Bool) (FIRST_PLAYER DRAW : Int)
    (chess : Option (ChessSystem T P)) (tournament_id first_player second_player : Int)
    (winner : Int) (play_time : Int) : ChessResult :=
  match chess with
  | none => ChessResult.CHESS_NULL_ARGUMENT
  | some c =>
    if tournament_id ≤ 0 ∨ first_player ≤ 0 ∨ second_player ≤ 0 ∨ first_player = second_player
        ∨ winner > DRAW ∨ winner < FIRST_PLAYER then ChessResult.CHESS_INVALID_ID
    else
      match mapGet (some c.tournaments) (some tournament_id) with
      | none => ChessResult.CHESS_TOURNAMENT_NOT_EXIST
      | some tournament =>
        if hasTournamentEnded tournament then ChessResult.CHESS_TOURNAMENT_ENDED
        else if sameGame tournament first_player second_player then
          ChessResult.CHESS_GAME_ALREADY_EXISTS
        else if play_time ≤ 0 then ChessResult.CHESS_INVALID_PLAY_TIME
        else ChessResult.CHESS_SUCCESS

/-- Sample chess system: the tournament map holds the tournaments given (a tournament is
its location here), the player map is empty; both maps compare ids with `compareInts`. -/
def sampleChess (tournaments : List (KeyData Int (List Char))) :
    ChessSystem (List Char) (List Char) :=
  { tournaments :=
      { size := tournaments.length, first_node := tournaments, iterator := Cursor.null,
        copyData := fun d => d, copyKey := fun k => k, freeData := fun _ => (),
        freeKey := fun _ => (), compareKeys := compareInts },
    players :=
      { size := 0, first_node := [], iterator := Cursor.null, copyData := fun d => d,
        copyKey := fun k => k, freeData := fun _ => (), freeKey := fun _ => (),
        compareKeys := compareInts } }

/-! ## Specification-side definitions for the last claims -/

/-- The chain a successful `mapPut` is to produce, told from the keys alone: the pair goes
in front of the first node with a larger key, or replaces the data of the node with an equal
key. -/
def putSpec {K V : Type} (compareKeys : K → K → Int) (copyKey : K → K) (copyData : V → V)
    (k : K) (d : V) : List (KeyData K V) → List (KeyData K V)
  | [] => [{ key := copyKey k, data := copyData d }]
  | x :: xs =>
    if compareKeys x.key k < 0 then x :: putSpec compareKeys copyKey copyData k d xs
    else if compareKeys x.key k = 0 then { key := x.key, data := copyData d } :: xs
    else { key := copyKey k, data := copyData d } :: x :: xs

/-- The copy of one node in the loop of `mapCopy` (map.c 99-116) fails: `copyKey` returns
NULL, or `copyData` returns NULL, or the inner `mapPut` into the new map `new_map` returns
`MAP_OUT_OF_MEMORY`. -/
def CopyFails {K V : Type} (map new_map : Map K V) (node : KeyData K V) (faults : List Bool) :
    Prop :=
  (callCopy map.copyKey node.key faults).1 = none ∨
  ∃ key f1, callCopy map.copyKey node.key faults = (some key, f1) ∧
    ((callCopy map.copyData node.data f1).1 = none ∨
     ∃ data f2, callCopy map.copyData node.data f1 = (some data, f2) ∧
       ∃ new_map1 f3, mapPut (some new_map) (some key) (some data) f2
         = some (MapResult.MAP_OUT_OF_MEMORY, new_map1, f3))

/-! ## The bodies of the query functions, statement by statement

`mapGet`, `mapContains` and `mapGetSize` are embedded above as functions of the map. To say
what their bodies do to the map, the bodies are written out once more below, statement by
statement, in a small statement language with an interpreter that threads the state: the
interpreter knows stores through `map` as well as assignments to the local `ptr`. -/

/-- Value that a `return` statement of a query function gives back. -/
inductive QueryValue (V : Type) where
  | bool (b : Bool)
  | int (n : Int)
  | data (d : Option V)

/-- What the statements of a query function read and write: the struct that the argument `map`
points to (`none` for a NULL `map`), the key argument (`none` for NULL), and the local
variable `ptr`, a pointer to a node: the part of the chain that starts at that node, `[]`
for NULL. -/
structure Env (K V : Type) where
  map : Option (Map K V)
  key : Option K
  ptr : List (KeyData K V)

/-- Statements of the bodies. The expressions are functions of the state, with no value when
they read through a NULL pointer.
* `ptrAssign e` is `ptr = e;`
* `mapStore e` is any assignment whose target lies in the map, a field of `*map` or of one of
  its nodes; `e` gives the struct afterwards
* `ret e` is `return e;`
* `ifThen c s` is `if (c) s`
* `whileLoop c body` is `while (c) body`
* `seq s t` is `s t`. -/
inductive Stmt (K V : Type) where
  | ptrAssign (e : Env K V → Option (List (KeyData K V)))
  | mapStore (e : Env K V → Option (Map K V))
  | ret (e : Env K V → Option (QueryValue V))
  | ifThen (c : Env K V → Option Bool) (s : Stmt K V)
  | whileLoop (c : Env K V → Option Bool) (body : Stmt K V)
  | seq (s t : Stmt K V)

/-- Rounds of a `while` loop with condition `c`, at most `fuel` tests of the condition: `none`
when the tests are used up or a round has no result; otherwise the value returned from inside
the loop, if any, and the state. -/
def runLoop {K V : Type} (c : Env K V → Option Bool)
    (body : Env K V → Option (Option (QueryValue V) × Env K V)) :
    Nat → Env K V → Option (Option (QueryValue V) × Env K V)
  | 0, _ => none
  | fuel + 1, env =>
    match c env with
    | none => none
    | some false => some (none, env)
    | some true =>
      match body env with
      | none => none
      | some (some v, env1) => some (some v, env1)
      | some (none, env1) => runLoop c body fuel env1

/-- Run of a statement: the value returned, if the statement returned, and the state
afterwards; `none` when an expression has no value or a loop uses up its `fuel`. -/
def exec {K V : Type} (fuel : Nat) :
    Stmt K V → Env K V → Option (Option (QueryValue V) × Env K V)
  | Stmt.ptrAssign e, env =>
    match e env with
    | none => none
    | some p => some (none, { env with ptr := p })
  | Stmt.mapStore e, env =>
    match e env with
    | none => none
    | some m => some (none, { env with map := some m })
  | Stmt.ret e, env =>
    match e env with
    | none => none
    | some v => some (some v, env)
  | Stmt.ifThen c s, env =>
    match c env with
    | none => none
    | some true => exec fuel s env
    | some false => some (none, env)
  | Stmt.whileLoop c body, env => runLoop c (exec fuel body) fuel env
  | Stmt.seq s t, env =>
    match exec fuel s env with
    | none => none
    | some (some v, env1) => some (some v, env1)
    | some (none, env1) => exec fuel t env1

/-- No statement of the program stores through `map`. -/
def Stmt.storesNothing {K V : Type} : Stmt K V → Bool
  | Stmt.ptrAssign _ => true
  | Stmt.mapStore _ => false
  | Stmt.ret _ => true
  | Stmt.ifThen _ s => s.storesNothing
  | Stmt.whileLoop _ body => body.storesNothing
  | Stmt.seq s t => s.storesNothing && t.storesNothing

/-- The expression `map->compareKeys(ptr->key, key)` of `mapGet` and `mapContains`. -/
def compareAtPtr {K V : Type} (env : Env K V) : Option Int :=
  match env.map, env.ptr, env.key with
  | some m, node :: _, some k => some (m.compareKeys node.key k)
  | _, _, _ => none

/-- The condition `ptr != NULL` of the two loops. -/
def ptrNotNull {K V : Type} (env : Env K V) : Option Bool :=
  some (!env.ptr.isEmpty)

/-- Body of `mapGetSize` (map.c 128-132). -/
def mapGetSizeCode {K V : Type} : Stmt K V :=
  Stmt.seq
    (Stmt.ifThen (fun env => some env.map.isNone)
      (Stmt.ret (fun _ => some (QueryValue.int (-1)))))
    (Stmt.ret (fun env => env.map.map (fun m => QueryValue.int m.size)))

/-- Body of the loop of `mapContains` (map.c 142-144). -/
def mapContainsRound {K V : Type} : Stmt K V :=
  Stmt.seq
    (Stmt.ifThen (fun env => (compareAtPtr env).map (fun r => decide (r = 0)))
      (Stmt.ret (fun _ => some (QueryValue.bool true))))
    (Stmt.ptrAssign (fun env => env.ptr.tail?))

/-- Body of `mapContains` (map.c 135-148). -/
def mapContainsCode {K V : Type} : Stmt K V :=
  Stmt.seq
    (Stmt.ifThen (fun env => some (env.map.isNone || env.key.isNone))
      (Stmt.ret (fun _ => some (QueryValue.bool false))))
  (Stmt.seq
    (Stmt.ptrAssign (fun env => env.map.map (fun m => m.first_node)))
  (Stmt.seq
    (Stmt.ifThen (fun env => some env.ptr.isEmpty)
      (Stmt.ret (fun _ => some (QueryValue.bool false))))
  (Stmt.seq
    (Stmt.whileLoop ptrNotNull mapContainsRound)
    (Stmt.ret (fun _ => some (QueryValue.bool false))))))

/-- Body of the loop of `mapGet` (map.c 218-224). -/
def mapGetRound {K V : Type} : Stmt K V :=
  Stmt.seq
    (Stmt.ifThen (fun env => (compareAtPtr env).map (fun r => decide (r = 0)))
      (Stmt.ret (fun env => env.ptr.head?.map (fun node => QueryValue.data (some node.data)))))
  (Stmt.seq
    (Stmt.ifThen (fun env => (compareAtPtr env).map (fun r => decide (r > 0)))
      (Stmt.ret (fun _ => some (QueryValue.data none))))
    (Stmt.ptrAssign (fun env => env.ptr.tail?)))

/-- Body of `mapGet` (map.c 211-228). -/
def mapGetCode {K V : Type} : Stmt K V :=
  Stmt.seq
    (Stmt.ifThen (fun env => some (env.map.isNone || env.key.isNone))
      (Stmt.ret (fun _ => some (QueryValue.data none))))
  (Stmt.seq
    (Stmt.ptrAssign (fun env => env.map.map (fun m => m.first_node)))
  (Stmt.seq
    (Stmt.ifThen (fun env => some env.ptr.isEmpty)
      (Stmt.ret (fun _ => some (QueryValue.data none))))
  (Stmt.seq
    (Stmt.whileLoop ptrNotNull mapGetRound)
    (Stmt.ret (fun _ => some (QueryValue.data none))))))

/-! ## Consequences of the callback contract -/

section OrderLemmas

variable {K : Type} {cmp : K → K → Int}

theorem TotalOrder.eq_symm (hc : TotalOrder cmp) {a b : K} (h : cmp a b = 0) : cmp b a = 0 := by
  have h1 := hc.antisymm a b
  have h2 := hc.antisymm b a
  omega

theorem TotalOrder.refl (hc : TotalOrder cmp) (a : K) : cmp a a = 0 := by
  have h1 := hc.antisymm a a
  omega

theorem TotalOrder.lt_of_le_of_lt (hc : TotalOrder cmp) {a b c : K} (h1 : cmp a b ≤ 0)
    (h2 : cmp b c < 0) : cmp a c < 0 := by
  have h3 := hc.trans a b c h1 (by omega)
  by_contra hn
  have h4 : cmp a c = 0 := by omega
  have h5 := hc.eq_symm h4
  have h6 := hc.trans c a b (by omega) h1
  have h7 := (hc.antisymm b c).1 h2
  omega

theorem TotalOrder.lt_of_lt_of_le (hc : TotalOrder cmp) {a b c : K} (h1 : cmp a b < 0)
    (h2 : cmp b c ≤ 0) : cmp a c < 0 := by
  have h3 := hc.trans a b c (by omega) h2
  by_contra hn
  have h4 : cmp a c = 0 := by omega
  have h5 := hc.eq_symm h4
  have h6 := hc.trans b c a h2 (by omega)
  have h7 := (hc.antisymm a b).1 h1
  omega

theorem TotalOrder.ge_swap (hc : TotalOrder cmp) {a b : K} (h : 0 ≤ cmp a b) : cmp b a ≤ 0 := by
  by_contra hn
  have h5 : cmp a b < 0 := (hc.antisymm a b).2 (by omega)
  omega

theorem TotalOrder.gt_of_gt_of_ge (hc : TotalOrder cmp) {a b c : K} (h1 : 0 < cmp a b)
    (h2 : 0 ≤ cmp b c) : 0 < cmp a c :=
  (hc.antisymm c a).1 (hc.lt_of_le_of_lt (hc.ge_swap h2) ((hc.antisymm b a).2 h1))

/-- The comparator of the sample map is a total order. -/
theorem intOrder : TotalOrder (fun a b : Int => a - b) :=
  ⟨fun a b => by constructor <;> intro h <;> omega, fun a b c h1 h2 => by omega⟩

/-- The callbacks of the sample map meet the contract. -/
theorem intContract : Contract (fun a b : Int => a - b) (fun k : Int => k) :=
  ⟨intOrder, fun _ _ => rfl, fun _ _ => rfl⟩

end OrderLemmas

/-! ## Lookups -/

section Lookups

variable {K V : Type}

theorem containsLoop_iff (cmp : K → K → Int) (e : K) (l : List (KeyData K V)) :
    containsLoop cmp e l = true ↔ ∃ n ∈ l, cmp n.key e = 0 := by
  induction l with
  | nil => simp [containsLoop]
  | cons x xs ih =>
    by_cases hx : cmp x.key e = 0
    · simp [containsLoop, hx]
    · simp [containsLoop, hx, ih]

theorem getLoop_found {cmp : K → K → Int} (ho : TotalOrder cmp) (k : K) :
    ∀ (l : List (KeyData K V)), Ascending cmp l → ∀ n ∈ l, cmp n.key k = 0 →
      getLoop cmp k l = some n.data := by
  intro l
  induction l with
  | nil => intro _ n hn; simp at hn
  | cons x xs ih =>
    intro hs n hn hk
    rw [Ascending, List.pairwise_cons] at hs
    rcases List.mem_cons.1 hn with rfl | hmem
    · simp [getLoop, hk]
    · have hlt : cmp x.key k < 0 := ho.lt_of_lt_of_le (hs.1 n hmem) (by omega)
      have h1 : ¬ cmp x.key k = 0 := by omega
      have h2 : ¬ cmp x.key k > 0 := by omega
      simp only [getLoop, h1, h2, if_false]
      exact ih hs.2 n hmem hk

theorem getLoop_absent (cmp : K → K → Int) (k : K) :
    ∀ (l : List (KeyData K V)), (∀ n ∈ l, cmp n.key k ≠ 0) → getLoop cmp k l = none := by
  intro l
  induction l with
  | nil => intro _; rfl
  | cons x xs ih =>
    intro h
    have h1 : ¬ cmp x.key k = 0 := h x (List.mem_cons_self _ _)
    by_cases h2 : cmp x.key k > 0
    · simp [getLoop, h1, h2]
    · simp only [getLoop, h1, h2, if_false]
      exact ih (fun n hn => h n (List.mem_cons_of_mem _ hn))

theorem mapGet_eq_getLoop (m : Map K V) (k : K) :
    mapGet (some m) (some k) = getLoop m.compareKeys k m.first_node := by
  unfold mapGet
  cases h : m.first_node <;> simp [getLoop, h]

theorem mapContains_eq_containsLoop (m : Map K V) (k : K) :
    mapContains (some m) (some k) = containsLoop m.compareKeys k m.first_node := by
  unfold mapContains
  cases h : m.first_node <;> simp [containsLoop, h]

end Lookups

/-! ## `mapPut` -/

section PutLemmas
variable {K V : Type}

theorem getElem?_mid {α : Type} (pre : List α) (x : α) (post : List α) :
    (pre ++ x :: post)[pre.length]? = some x := by
  induction pre with
  | nil => simp
  | cons a as ih => simpa using ih

theorem set_mid {α : Type} (pre : List α) (x y : α) (post : List α) :
    (pre ++ x :: post).set pre.length y = pre ++ y :: post := by
  induction pre with
  | nil => rfl
  | cons a as ih => simp [ih]

theorem putScan_spec (cmp : K → K → Int) (k : K) : ∀ (l : List (KeyData K V)) (j : Nat),
    ∃ pre post, l = pre ++ post ∧ putScan cmp k l j = j + pre.length ∧
      (∀ n ∈ pre, cmp n.key k < 0) ∧ (∀ n, post.head? = some n → ¬ cmp n.key k < 0) := by
  intro l
  induction l with
  | nil => intro j; exact ⟨[], [], rfl, rfl, by simp, by simp⟩
  | cons x xs ih =>
    intro j
    by_cases hx : cmp x.key k < 0
    · obtain ⟨pre, post, h1, h2, h3, h4⟩ := ih (j + 1)
      refine ⟨x :: pre, post, by simp [h1], ?_, ?_, h4⟩
      · simp only [putScan, hx, if_true, h2, List.length_cons]; omega
      · intro n hn
        rcases List.mem_cons.1 hn with rfl | hm
        · exact hx
        · exact h3 n hm
    · refine ⟨[], x :: xs, rfl, by simp [putScan, hx], by simp, ?_⟩
      intro n hn
      simp at hn
      subst hn
      exact hx

theorem addNode_cases (m : Map K V) (k : K) (d : V) (faults : List Bool) :
    (∃ f1, addNode m k d faults = some (MapResult.MAP_OUT_OF_MEMORY, m, f1) ∧ ¬ NoFault faults) ∨
    (∃ f1, addNode m k d faults =
        (match linkNode m { key := m.copyKey k, data := m.copyData d } with
         | none => none
         | some m1 => some (MapResult.MAP_SUCCESS, m1, f1)) ∧
      (NoFault faults → NoFault f1)) := by
  rcases faults with _ | ⟨b1, _ | ⟨b2, _ | ⟨b3, f⟩⟩⟩
  · right; exact ⟨[], by simp [addNode, malloc, callCopy], fun h => h⟩
  · cases b1
    · right; exact ⟨[], by simp [addNode, malloc, callCopy], fun _ => by simp [NoFault]⟩
    · left; exact ⟨[], by simp [addNode, malloc, callCopy], by simp [NoFault]⟩
  · cases b1
    · cases b2
      · right; exact ⟨[], by simp [addNode, malloc, callCopy], fun _ => by simp [NoFault]⟩
      · left; exact ⟨[], by simp [addNode, malloc, callCopy], by simp [NoFault]⟩
    · left; exact ⟨[b2], by simp [addNode, malloc, callCopy], by simp [NoFault]⟩
  · cases b1
    · cases b2
      · cases b3
        · right; exact ⟨f, by simp [addNode, malloc, callCopy],
            fun h => fun b hb => h b (by simp [hb])⟩
        · left; exact ⟨f, by simp [addNode, malloc, callCopy], by simp [NoFault]⟩
      · left; exact ⟨b3 :: f, by simp [addNode, malloc, callCopy], by simp [NoFault]⟩
    · left; exact ⟨b2 :: b3 :: f, by simp [addNode, malloc, callCopy], by simp [NoFault]⟩

theorem callCopy_cases {α : Type} (copy : α → α) (x : α) (faults : List Bool) :
    (∃ f1, callCopy copy x faults = (none, f1) ∧ (malloc faults).1 = false ∧ ¬ NoFault faults) ∨
    (∃ f1, callCopy copy x faults = (some (copy x), f1) ∧ (malloc faults).1 = true) := by
  rcases faults with _ | ⟨b, f⟩
  · right; exact ⟨[], rfl, rfl⟩
  · cases b
    · right; exact ⟨f, rfl, rfl⟩
    · left; exact ⟨f, rfl, rfl, by simp [NoFault]⟩

theorem putUpdate_eq (m : Map K V) (k : K) (d : V) (faults : List Bool)
    (pre : List (KeyData K V)) (nxt : KeyData K V) (post : List (KeyData K V)) (i : Nat)
    (hchain : m.first_node = pre ++ nxt :: post) (hit : m.iterator = Cursor.node i)
    (hlen : pre.length = i + 1) :
    putUpdate m k d faults =
      if m.compareKeys nxt.key k = 0 then
        match callCopy m.copyData d faults with
        | (none, rest) =>
          some (MapResult.MAP_OUT_OF_MEMORY, { m with iterator := Cursor.node (i + 1) }, rest)
        | (some tmp, rest) =>
          some (MapResult.MAP_SUCCESS,
            { m with iterator := Cursor.node (i + 1),
                     first_node := pre ++ { nxt with data := tmp } :: post }, rest)
      else some (MapResult.MAP_SUCCESS, m, faults) := by
  have h1 : m.first_node[i + 1]? = some nxt := by
    rw [hchain, ← hlen]; exact getElem?_mid pre nxt post
  have h0 : i < m.first_node.length := by
    rw [hchain, List.length_append]; omega
  have h2 : m.first_node[i]? = some m.first_node[i] := List.getElem?_eq_getElem h0
  have h3 : ∀ y, m.first_node.set (i + 1) y = pre ++ y :: post := by
    intro y; rw [hchain, ← hlen]; exact set_mid pre nxt y post
  unfold putUpdate
  rw [hit]
  simp only [h1, h2, h3]


theorem linkNode_after (m : Map K V) (tmp first : KeyData K V) (pre post : List (KeyData K V))
    (hchain : m.first_node = first :: (pre ++ post)) (hit : m.iterator = Cursor.node pre.length)
    (hsz : m.size ≠ 0) (hfirst : ¬ m.compareKeys first.key tmp.key > 0) :
    linkNode m tmp =
      some { m with first_node := first :: (pre ++ tmp :: post), size := m.size + 1 } := by
  unfold linkNode
  simp only [hsz, if_false, hchain, hit, hfirst]
  simp
  omega

theorem putInsert_spec (m : Map K V) (k : K) (d : V) (faults : List Bool)
    (first : KeyData K V) (pre post : List (KeyData K V))
    (hchain : m.first_node = first :: (pre ++ post)) (hit : m.iterator = Cursor.node pre.length)
    (hsz : m.size ≠ 0) (hfirst : ¬ m.compareKeys first.key (m.copyKey k) > 0)
    (heq : m.compareKeys (m.copyKey k) k = 0) :
    ∃ r m1 f1, putInsert m k d faults = some (r, some m1, f1) ∧ SameCallbacks m m1 ∧
      ((r = MapResult.MAP_OUT_OF_MEMORY ∧ m1.first_node = m.first_node ∧ m1.size = m.size) ∨
       ((r = MapResult.MAP_OUT_OF_MEMORY ∨ r = MapResult.MAP_SUCCESS) ∧
         m1.first_node = first :: (pre ++ { key := m.copyKey k, data := m.copyData d } :: post) ∧
         m1.size = m.size + 1)) ∧
      (NoFault faults → r = MapResult.MAP_SUCCESS) := by
  have hlink := linkNode_after m { key := m.copyKey k, data := m.copyData d } first pre post
    hchain hit hsz hfirst
  rcases addNode_cases m k d faults with ⟨f1, h1, hnf⟩ | ⟨f1, h1, hnf⟩
  · refine ⟨MapResult.MAP_OUT_OF_MEMORY, m, f1, ?_, ⟨rfl, rfl, rfl, rfl, rfl⟩,
      Or.inl ⟨rfl, rfl, rfl⟩, fun h => absurd h hnf⟩
    simp [putInsert, h1]
  · rw [hlink] at h1
    simp only at h1
    have hup := putUpdate_eq
      { m with first_node := first :: (pre ++ { key := m.copyKey k, data := m.copyData d } :: post),
               size := m.size + 1 } k d f1 (first :: pre)
      { key := m.copyKey k, data := m.copyData d } post pre.length (by simp) hit (by simp)
    simp only [heq, if_true] at hup
    rcases callCopy_cases m.copyData d f1 with ⟨f2, h2, _, hnf2⟩ | ⟨f2, h2, _⟩
    · rw [h2] at hup
      simp only at hup
      refine ⟨MapResult.MAP_OUT_OF_MEMORY,
        { m with first_node := first :: (pre ++ { key := m.copyKey k, data := m.copyData d } :: post),
                 size := m.size + 1, iterator := Cursor.node (pre.length + 1) },
        f2, ?_, ⟨rfl, rfl, rfl, rfl, rfl⟩,
        Or.inr ⟨Or.inl rfl, rfl, rfl⟩, fun h => absurd (hnf h) hnf2⟩
      simp [putInsert, h1, hup]
    · rw [h2] at hup
      simp only at hup
      refine ⟨MapResult.MAP_SUCCESS,
        { m with first_node := first :: (pre ++ { key := m.copyKey k, data := m.copyData d } :: post),
                 size := m.size + 1, iterator := Cursor.node (pre.length + 1) },
        f2, ?_, ⟨rfl, rfl, rfl, rfl, rfl⟩,
        Or.inr ⟨Or.inr rfl, rfl, rfl⟩, fun _ => rfl⟩
      simp [putInsert, h1, hup]


theorem mapPut_empty (m : Map K V) (k : K) (d : V) (faults : List Bool)
    (hm : m.first_node = []) (hsz : m.size = 0) :
    ∃ r m1 f1, mapPut (some m) (some k) (some d) faults = some (r, some m1, f1) ∧
      PutEffect m k d faults r m1 := by
  have hlink : linkNode m { key := m.copyKey k, data := m.copyData d } =
      some { m with first_node := [{ key := m.copyKey k, data := m.copyData d }],
                    size := m.size + 1,
                    iterator := match m.iterator with
                                | Cursor.node _ => Cursor.stale
                                | c => c } := by
    simp [linkNode, hsz]
  rcases addNode_cases m k d faults with ⟨f1, h1, hnf⟩ | ⟨f1, h1, hnf⟩
  · refine ⟨MapResult.MAP_OUT_OF_MEMORY, m, f1, ?_, ⟨rfl, rfl, rfl, rfl, rfl⟩, [], [],
      by simp [hm], by simp, Or.inl ⟨by simp, Or.inl ⟨rfl, rfl, rfl⟩, fun h => absurd h hnf⟩⟩
    simp [mapPut, hm, h1]
  · rw [hlink] at h1
    simp only at h1
    refine ⟨MapResult.MAP_SUCCESS,
      { m with first_node := [{ key := m.copyKey k, data := m.copyData d }],
               size := m.size + 1,
               iterator := match m.iterator with
                           | Cursor.node _ => Cursor.stale
                           | c => c },
      f1, ?_, ⟨rfl, rfl, rfl, rfl, rfl⟩, [], [],
      by simp [hm], by simp, Or.inl ⟨by simp, Or.inr ⟨Or.inr rfl, rfl, rfl⟩, fun _ => rfl⟩⟩
    simp [mapPut, hm, h1]


theorem mapPut_nonempty (m : Map K V) (k : K) (d : V) (faults : List Bool)
    (hc : Contract m.compareKeys m.copyKey) (hs : Ascending m.compareKeys m.first_node)
    (hm : m.first_node ≠ []) (hsz : m.size ≠ 0) :
    ∃ r m1 f1, mapPut (some m) (some k) (some d) faults = some (r, some m1, f1) ∧
      PutEffect m k d faults r m1 := by
  obtain ⟨size, chain, it, cd, ck, fd, fk, cmp⟩ := m
  simp only at hc hs hm hsz
  have ho := hc.order
  rcases chain with _ | ⟨first, rest⟩
  · exact absurd rfl hm
  rw [Ascending, List.pairwise_cons] at hs
  obtain ⟨hfirst, hrest⟩ := hs
  have hgt : ∀ (x : KeyData K V) (l : List (KeyData K V)),
      (∀ n ∈ l, cmp x.key n.key < 0) → 0 ≤ cmp x.key k → ∀ n ∈ l, 0 < cmp n.key k :=
    fun x l hx h0 n hn => ho.gt_of_gt_of_ge ((ho.antisymm _ _).1 (hx n hn)) h0
  by_cases h1 : cmp first.key k > 0
  · -- the key goes in front of the head
    have hlink : linkNode (Map.mk size (first :: rest) (Cursor.node 0) cd ck fd fk cmp)
        { key := ck k, data := cd d } =
        some (Map.mk (size + 1) ({ key := ck k, data := cd d } :: first :: rest) (Cursor.node 1)
          cd ck fd fk cmp) := by
      simp [linkNode, hsz, hc.copy_right, h1]
    have hpost : ∀ n ∈ first :: rest, 0 < cmp n.key k := by
      intro n hn
      rcases List.mem_cons.1 hn with rfl | hmem
      · exact h1
      · exact hgt first rest hfirst (by omega) n hmem
    rcases addNode_cases (Map.mk size (first :: rest) (Cursor.node 0) cd ck fd fk cmp) k d faults
      with ⟨f1, h2, hnf⟩ | ⟨f1, h2, hnf⟩
    · refine ⟨MapResult.MAP_OUT_OF_MEMORY,
        Map.mk size (first :: rest) (Cursor.node 0) cd ck fd fk cmp, f1, ?_,
        ⟨rfl, rfl, rfl, rfl, rfl⟩, [], first :: rest, by simp, by simp,
        Or.inl ⟨hpost, Or.inl ⟨rfl, rfl, rfl⟩, fun h => absurd h hnf⟩⟩
      simp [mapPut, h1, h2]
    · rw [hlink] at h2
      simp only at h2
      refine ⟨MapResult.MAP_SUCCESS,
        Map.mk (size + 1) ({ key := ck k, data := cd d } :: first :: rest) (Cursor.node 1)
          cd ck fd fk cmp, f1, ?_,
        ⟨rfl, rfl, rfl, rfl, rfl⟩, [], first :: rest, by simp, by simp,
        Or.inl ⟨hpost, Or.inr ⟨Or.inr rfl, by simp, rfl⟩, fun _ => rfl⟩⟩
      simp [mapPut, h1, h2]
  by_cases h2 : cmp first.key k = 0
  · -- the head has the key
    have hpost : ∀ n ∈ rest, 0 < cmp n.key k := hgt first rest hfirst (by omega)
    rcases callCopy_cases cd d faults with ⟨f1, h3, h4, _⟩ | ⟨f1, h3, h4⟩
    · refine ⟨MapResult.MAP_OUT_OF_MEMORY,
        Map.mk size (first :: rest) (Cursor.node 0) cd ck fd fk cmp, f1, ?_,
        ⟨rfl, rfl, rfl, rfl, rfl⟩, [], first :: rest, by simp, by simp,
        Or.inr ⟨first, rest, rfl, h2, hpost, Or.inl ⟨rfl, rfl, rfl, h4⟩⟩⟩
      simp [mapPut, h1, h2, h3]
    · refine ⟨MapResult.MAP_SUCCESS,
        Map.mk size ({ key := first.key, data := cd d } :: rest) (Cursor.node 0) cd ck fd fk cmp,
        f1, ?_,
        ⟨rfl, rfl, rfl, rfl, rfl⟩, [], first :: rest, by simp, by simp,
        Or.inr ⟨first, rest, rfl, h2, hpost, Or.inr ⟨rfl, rfl, rfl, h4⟩⟩⟩
      simp [mapPut, h1, h2, h3]
  -- the key lies after the head
  have hlt : cmp first.key k < 0 := by omega
  obtain ⟨pre, post, hl, hi, hpre, hstop⟩ := putScan_spec cmp k rest 0
  have hi1 : putScan cmp k rest 0 = pre.length := by omega
  have hnext : (first :: rest)[pre.length + 1]? = post.head? := by
    rw [hl, List.getElem?_cons_succ]
    cases post with
    | nil => simp
    | cons x xs => rw [getElem?_mid]; rfl
  have hpre1 : ∀ n ∈ first :: pre, cmp n.key k < 0 := by
    intro n hn
    rcases List.mem_cons.1 hn with rfl | hmem
    · exact hlt
    · exact hpre n hmem
  have hsplit : first :: rest = (first :: pre) ++ post := by simp [hl]
  have hins : (post = [] ∨ ∃ nxt tl, post = nxt :: tl ∧ 0 < cmp nxt.key k) →
      ∃ r m1 f1, mapPut (some (Map.mk size (first :: rest) it cd ck fd fk cmp)) (some k) (some d)
          faults = some (r, some m1, f1) ∧
        PutEffect (Map.mk size (first :: rest) it cd ck fd fk cmp) k d faults r m1 := by
    intro hp
    obtain ⟨r, m1, f1, hput, hcb, heff, hnf⟩ :=
      putInsert_spec (Map.mk size (first :: rest) (Cursor.node pre.length) cd ck fd fk cmp)
        k d faults first pre post
        (by simp [hl]) rfl hsz (by simp only [hc.copy_right]; omega)
        (by simp only [hc.copy_left]; exact ho.refl k)
    have hpost : ∀ n ∈ post, 0 < cmp n.key k := by
      rcases hp with rfl | ⟨nxt, tl, rfl, hn⟩
      · simp
      · intro n hmem
        rcases List.mem_cons.1 hmem with rfl | hmem
        · exact hn
        · have hp2 : List.Pairwise (fun a b => cmp a.key b.key < 0) (pre ++ nxt :: tl) :=
            hl ▸ hrest
          have hp3 := (List.pairwise_append.1 hp2).2.1
          rw [List.pairwise_cons] at hp3
          exact hgt _ tl hp3.1 (by omega) n hmem
    refine ⟨r, m1, f1, ?_, hcb, first :: pre, post, hsplit, hpre1,
      Or.inl ⟨hpost, ?_, hnf⟩⟩
    · rw [← hput]
      rcases hp with rfl | ⟨nxt, tl, rfl, hn⟩
      · simp [mapPut, h1, h2, hi1, hnext]
      · simp [mapPut, h1, h2, hi1, hnext, hn]
    · simpa using heff
  rcases post with _ | ⟨nxt, tl⟩
  · exact hins (Or.inl rfl)
  by_cases h3 : 0 < cmp nxt.key k
  · exact hins (Or.inr ⟨nxt, tl, rfl, h3⟩)
  -- the node after the cursor has the key
  have h4 : cmp nxt.key k = 0 := by
    have := hstop nxt rfl
    omega
  have hp2 : List.Pairwise (fun a b => cmp a.key b.key < 0) (pre ++ nxt :: tl) :=
    hl ▸ hrest
  have hp3 := (List.pairwise_append.1 hp2).2.1
  rw [List.pairwise_cons] at hp3
  have htl : ∀ n ∈ tl, 0 < cmp n.key k := hgt nxt tl hp3.1 (by omega)
  have hup := putUpdate_eq (Map.mk size (first :: rest) (Cursor.node pre.length) cd ck fd fk cmp)
    k d faults (first :: pre) nxt tl pre.length (by simp [hl]) rfl (by simp)
  simp only [h4, if_true] at hup
  rcases callCopy_cases cd d faults with ⟨f1, h5, h6, _⟩ | ⟨f1, h5, h6⟩
  · rw [h5] at hup
    simp only at hup
    refine ⟨MapResult.MAP_OUT_OF_MEMORY,
      Map.mk size (first :: rest) (Cursor.node (pre.length + 1)) cd ck fd fk cmp, f1,
      ?_, ⟨rfl, rfl, rfl, rfl, rfl⟩, first :: pre, nxt :: tl, hsplit, hpre1,
      Or.inr ⟨nxt, tl, rfl, h4, htl, Or.inl ⟨rfl, rfl, rfl, h6⟩⟩⟩
    simp [mapPut, h1, h2, hi1, hnext, h3, hup]
  · rw [h5] at hup
    simp only at hup
    refine ⟨MapResult.MAP_SUCCESS,
      Map.mk size ((first :: pre) ++ { key := nxt.key, data := cd d } :: tl)
        (Cursor.node (pre.length + 1)) cd ck fd fk cmp,
      f1, ?_, ⟨rfl, rfl, rfl, rfl, rfl⟩, first :: pre, nxt :: tl, hsplit,
      hpre1, Or.inr ⟨nxt, tl, rfl, h4, htl, Or.inr ⟨rfl, rfl, rfl, h6⟩⟩⟩
    simp [mapPut, h1, h2, hi1, hnext, h3, hup]

end PutLemmas

/-! ## `mapRemove` -/

section RemoveLemmas
variable {K V : Type}

theorem relink_eq_nil (l : List (KeyData K V)) : relink l = [] := by
  cases l <;> rfl

theorem removeScan_found (cmp : K → K → Int) (k : K) (x : KeyData K V)
    (post : List (KeyData K V)) (hx : cmp x.key k = 0) :
    ∀ (pre : List (KeyData K V)) (it : KeyData K V) (i : Nat),
      ¬ cmp it.key k > 0 → (∀ n ∈ pre, cmp n.key k < 0) →
      removeScan cmp k it (pre ++ x :: post) i = (true, i + pre.length) := by
  intro pre
  induction pre with
  | nil => intro it i _ _; simp [removeScan, hx]
  | cons a as ih =>
    intro it i hit hpre
    have ha : cmp a.key k < 0 := hpre a (List.mem_cons_self _ _)
    have h1 : ¬ cmp a.key k = 0 := by omega
    have h2 : ¬ 0 < cmp it.key k := hit
    have hrec := ih a (i + 1) (by omega) (fun n hn => hpre n (List.mem_cons_of_mem _ hn))
    show removeScan cmp k it (a :: (as ++ x :: post)) i = (true, i + (a :: as).length)
    simp only [removeScan, h1, h2, if_false, gt_iff_lt, hrec, List.length_cons]
    congr 1
    omega

theorem removeScan_bound (cmp : K → K → Int) (k : K) :
    ∀ (l : List (KeyData K V)) (it : KeyData K V) (i : Nat),
      (removeScan cmp k it l i).1 = true → (removeScan cmp k it l i).2 < i + l.length := by
  intro l
  induction l with
  | nil => intro it i h; simp [removeScan] at h
  | cons a as ih =>
    intro it i h
    by_cases h1 : cmp a.key k = 0
    · simp [removeScan, h1]
    · by_cases h2 : cmp it.key k > 0
      · simp [removeScan, h1, h2] at h
      · simp only [removeScan, h1, h2, if_false] at h ⊢
        have := ih a (i + 1) h
        simp only [List.length_cons]
        omega

/-- Removal of a node whose key compares equal, the nodes before it having smaller keys. -/
theorem mapRemove_present (m : Map K V) (k : K) (pre : List (KeyData K V)) (x : KeyData K V)
    (post : List (KeyData K V)) (hchain : m.first_node = pre ++ x :: post)
    (hpre : ∀ n ∈ pre, m.compareKeys n.key k < 0) (hx : m.compareKeys x.key k = 0) :
    ∃ m1, mapRemove (some m) (some k) = (MapResult.MAP_SUCCESS, some m1) ∧ SameCallbacks m m1 ∧
      m1.size = m.size - 1 ∧ (m1.first_node = post ∨ m1.first_node = pre) := by
  obtain ⟨size, chain, it, cd, ck, fd, fk, cmp⟩ := m
  simp only at hchain hpre hx
  subst hchain
  rcases pre with _ | ⟨first, pre⟩
  · exact ⟨Map.mk (size - 1) post (match it with
        | Cursor.node 0 => Cursor.stale
        | Cursor.node (j + 1) => Cursor.node j
        | c => c) cd ck fd fk cmp, by simp [mapRemove, hx], ⟨rfl, rfl, rfl, rfl, rfl⟩, rfl,
      Or.inl rfl⟩
  · have hf : cmp first.key k < 0 := hpre first (List.mem_cons_self _ _)
    have h1 : ¬ cmp first.key k = 0 := by omega
    have hscan := removeScan_found cmp k x post hx pre first 0 (by omega)
      (fun n hn => hpre n (List.mem_cons_of_mem _ hn))
    refine ⟨Map.mk (size - 1) (first :: pre) (Cursor.node pre.length) cd ck fd fk cmp, ?_,
      ⟨rfl, rfl, rfl, rfl, rfl⟩, rfl, Or.inr rfl⟩
    simp [mapRemove, h1, hscan, relink_eq_nil]

/-- What any `mapRemove` does to the chain and the size. -/
theorem mapRemove_effect (m : Map K V) (key : Option K) :
    ∃ m1, (mapRemove (some m) key).2 = some m1 ∧ SameCallbacks m m1 ∧
      List.Sublist m1.first_node m.first_node ∧
      ((m1.size = m.size ∧ m1.first_node = m.first_node) ∨
       (m1.size = m.size - 1 ∧ m1.first_node.length + 1 ≤ m.first_node.length)) := by
  obtain ⟨size, chain, it, cd, ck, fd, fk, cmp⟩ := m
  rcases key with _ | k
  · exact ⟨_, rfl, ⟨rfl, rfl, rfl, rfl, rfl⟩, List.Sublist.refl _, Or.inl ⟨rfl, rfl⟩⟩
  rcases chain with _ | ⟨first, rest⟩
  · exact ⟨_, rfl, ⟨rfl, rfl, rfl, rfl, rfl⟩, List.Sublist.refl _, Or.inl ⟨rfl, rfl⟩⟩
  by_cases h1 : cmp first.key k = 0
  · refine ⟨Map.mk (size - 1) rest (match it with
        | Cursor.node 0 => Cursor.stale
        | Cursor.node (j + 1) => Cursor.node j
        | c => c) cd ck fd fk cmp, by simp [mapRemove, h1],
      ⟨rfl, rfl, rfl, rfl, rfl⟩, List.sublist_cons_self _ _, Or.inr ⟨rfl, by simp⟩⟩
  · rcases hscan : removeScan cmp k first rest 0 with ⟨b, i⟩
    cases b
    · exact ⟨Map.mk size (first :: rest) (Cursor.node i) cd ck fd fk cmp,
        by simp [mapRemove, h1, hscan], ⟨rfl, rfl, rfl, rfl, rfl⟩, List.Sublist.refl _,
        Or.inl ⟨rfl, rfl⟩⟩
    · have hb := removeScan_bound cmp k rest first 0 (by rw [hscan])
      rw [hscan] at hb
      simp only at hb
      refine ⟨Map.mk (size - 1) ((first :: rest).take (i + 1)) (Cursor.node i) cd ck fd fk cmp,
        by simp [mapRemove, h1, hscan, relink_eq_nil], ⟨rfl, rfl, rfl, rfl, rfl⟩,
        List.take_sublist _ _, Or.inr ⟨rfl, ?_⟩⟩
      simp only [List.length_take, List.length_cons]
      omega

end RemoveLemmas

/-! ## Consequences of `PutEffect` -/

section EffectLemmas
variable {K V : Type}

theorem getLoop_at (cmp : K → K → Int) (k : K) (x : KeyData K V) (post : List (KeyData K V))
    (hx : cmp x.key k = 0) :
    ∀ (pre : List (KeyData K V)), (∀ n ∈ pre, cmp n.key k < 0) →
      getLoop cmp k (pre ++ x :: post) = some x.data := by
  intro pre
  induction pre with
  | nil => intro _; simp [getLoop, hx]
  | cons a as ih =>
    intro hpre
    have ha : cmp a.key k < 0 := hpre a (List.mem_cons_self _ _)
    have h1 : ¬ cmp a.key k = 0 := by omega
    have h2 : ¬ cmp a.key k > 0 := by omega
    show getLoop cmp k (a :: (as ++ x :: post)) = some x.data
    simp only [getLoop, h1, h2, if_false]
    exact ih (fun n hn => hpre n (List.mem_cons_of_mem _ hn))

/-- A `mapPut` that follows `PutEffect` keeps the chain ascending and moves `size` and the
number of nodes together. -/
theorem PutEffect.preserves {m : Map K V} {k : K} {d : V} {faults : List Bool} {r : MapResult}
    {m1 : Map K V} (h : PutEffect m k d faults r m1) (hc : Contract m.compareKeys m.copyKey)
    (hs : Ascending m.compareKeys m.first_node) :
    Ascending m1.compareKeys m1.first_node ∧
      m1.size - (m1.first_node.length : Int) = m.size - (m.first_node.length : Int) := by
  obtain ⟨hcb, pre, post, hsplit, hpre, hcase⟩ := h
  have ho := hc.order
  rw [hcb.2.2.2.2]
  rw [hsplit] at hs
  unfold Ascending at hs ⊢
  have hs2 := List.pairwise_append.1 hs
  rcases hcase with ⟨hpost, hres, _⟩ | ⟨nxt, rest, rfl, hx, hrest, hres⟩
  · rcases hres with ⟨_, h1, h2⟩ | ⟨_, h1, h2⟩
    · rw [h1, h2, hsplit]
      exact ⟨hs, rfl⟩
    · rw [h1, h2, hsplit]
      refine ⟨List.pairwise_append.2 ⟨hs2.1, List.pairwise_cons.2 ⟨?_, hs2.2.1⟩, ?_⟩, ?_⟩
      · intro n hn
        show m.compareKeys (m.copyKey k) n.key < 0
        rw [hc.copy_left]
        exact (ho.antisymm _ _).2 (hpost n hn)
      · intro a ha b hb
        rcases List.mem_cons.1 hb with rfl | hmem
        · show m.compareKeys a.key (m.copyKey k) < 0
          rw [hc.copy_right]
          exact hpre a ha
        · exact hs2.2.2 a ha b hmem
      · simp only [List.length_append, List.length_cons]
        push_cast
        omega
  · rcases hres with ⟨_, h1, h2, _⟩ | ⟨_, h1, h2, _⟩
    · rw [h1, h2, hsplit]
      exact ⟨hs, rfl⟩
    · rw [h1, h2, hsplit]
      have hs3 := List.pairwise_cons.1 hs2.2.1
      refine ⟨List.pairwise_append.2 ⟨hs2.1, List.pairwise_cons.2 ⟨hs3.1, hs3.2⟩, ?_⟩, ?_⟩
      · intro a ha b hb
        rcases List.mem_cons.1 hb with rfl | hmem
        · exact hs2.2.2 a ha nxt (List.mem_cons_self _ _)
        · exact hs2.2.2 a ha b (List.mem_cons_of_mem _ hmem)
      · simp only [List.length_append, List.length_cons]

/-- After a successful `mapPut` the chain holds one node with an equal key, carrying the copy
of the data, between the nodes with smaller keys and the nodes with larger keys. -/
theorem PutEffect.stored {m : Map K V} {k : K} {d : V} {faults : List Bool}
    {m1 : Map K V} (h : PutEffect m k d faults MapResult.MAP_SUCCESS m1)
    (hc : Contract m.compareKeys m.copyKey) :
    ∃ pre x post, m1.first_node = pre ++ x :: post ∧ x.data = m.copyData d ∧
      m1.compareKeys x.key k = 0 ∧ (∀ n ∈ pre, m1.compareKeys n.key k < 0) ∧
      (∀ n ∈ post, 0 < m1.compareKeys n.key k) := by
  obtain ⟨hcb, pre, post, hsplit, hpre, hcase⟩ := h
  rw [hcb.2.2.2.2]
  rcases hcase with ⟨hpost, hres, _⟩ | ⟨nxt, rest, rfl, hx, hrest, hres⟩
  · rcases hres with ⟨h0, _⟩ | ⟨_, h1, _⟩
    · cases h0
    · refine ⟨pre, _, post, h1, rfl, ?_, hpre, hpost⟩
      show m.compareKeys (m.copyKey k) k = 0
      rw [hc.copy_left]
      exact hc.order.refl k
  · rcases hres with ⟨h0, _⟩ | ⟨_, h1, _⟩
    · cases h0
    · exact ⟨pre, _, rest, h1, rfl, hx, hpre, hrest⟩

/-- Both cases of `mapPut` on a well-formed map. -/
theorem mapPut_wellFormed (m : Map K V) (k : K) (d : V) (faults : List Bool)
    (hwf : WellFormed m) (hc : Contract m.compareKeys m.copyKey) :
    ∃ r m1 f1, mapPut (some m) (some k) (some d) faults = some (r, some m1, f1) ∧
      PutEffect m k d faults r m1 := by
  by_cases hm : m.first_node = []
  · exact mapPut_empty m k d faults hm (by rw [hwf.2, hm]; rfl)
  · refine mapPut_nonempty m k d faults hc hwf.1 hm ?_
    rw [hwf.2]
    intro h0
    exact hm (List.length_eq_zero.1 (by exact_mod_cast h0))

theorem PutEffect.wellFormed {m : Map K V} {k : K} {d : V} {faults : List Bool} {r : MapResult}
    {m1 : Map K V} (h : PutEffect m k d faults r m1) (hc : Contract m.compareKeys m.copyKey)
    (hwf : WellFormed m) : WellFormed m1 := by
  have hp := h.preserves hc hwf.1
  refine ⟨hp.1, ?_⟩
  have := hwf.2
  omega

end EffectLemmas

/-! ## Frame of `mapPut`: callbacks, size, cursor and schedule -/

section Frame
variable {K V : Type}

theorem Spent.here (f : List Bool) : Spent f f := ⟨[], rfl⟩

theorem SpentOk.hereOk (f : List Bool) : SpentOk f f := ⟨[], rfl, fun _ hb => by cases hb⟩

theorem Spent.chain {a b c : List Bool} (h1 : Spent a b) (h2 : Spent b c) : Spent a c := by
  obtain ⟨u1, rfl⟩ := h1
  obtain ⟨u2, rfl⟩ := h2
  exact ⟨u1 ++ u2, by simp⟩

theorem SpentOk.chainOk {a b c : List Bool} (h1 : SpentOk a b) (h2 : SpentOk b c) :
    SpentOk a c := by
  obtain ⟨u1, rfl, n1⟩ := h1
  obtain ⟨u2, rfl, n2⟩ := h2
  refine ⟨u1 ++ u2, by simp, ?_⟩
  intro b hb
  rcases List.mem_append.1 hb with h | h
  · exact n1 b h
  · exact n2 b h

theorem SpentOk.spent {a b : List Bool} (h : SpentOk a b) : Spent a b := by
  obtain ⟨u, hu, _⟩ := h
  exact ⟨u, hu⟩

theorem Spent.noFault {a b : List Bool} (h : Spent a b) (hn : NoFault a) : NoFault b := by
  obtain ⟨u, rfl⟩ := h
  exact fun x hx => hn x (List.mem_append_right _ hx)

theorem malloc_spent (faults : List Bool) :
    Spent faults (malloc faults).2 ∧ ((malloc faults).1 = true → SpentOk faults (malloc faults).2) := by
  rcases faults with _ | ⟨b, f⟩
  · exact ⟨Spent.here _, fun _ => SpentOk.hereOk _⟩
  · refine ⟨⟨[b], rfl⟩, ?_⟩
    intro h
    cases b
    · exact ⟨[false], rfl, by simp [NoFault]⟩
    · simp [malloc] at h

theorem callCopy_spent {α : Type} (copy : α → α) (x : α) (faults : List Bool) :
    Spent faults (callCopy copy x faults).2 ∧
      (∀ y, (callCopy copy x faults).1 = some y →
        y = copy x ∧ SpentOk faults (callCopy copy x faults).2) := by
  rcases faults with _ | ⟨b, f⟩
  · exact ⟨Spent.here _, fun y hy => ⟨by simpa [callCopy, malloc] using hy.symm, SpentOk.hereOk _⟩⟩
  · cases b
    · exact ⟨⟨[false], rfl⟩, fun y hy =>
        ⟨by simpa [callCopy, malloc] using hy.symm, ⟨[false], rfl, by simp [NoFault]⟩⟩⟩
    · exact ⟨⟨[true], rfl⟩, fun y hy => by simp [callCopy, malloc] at hy⟩

theorem callCopy_noFault {α : Type} (copy : α → α) (x : α) {faults : List Bool}
    (h : NoFault faults) :
    ∃ rest, callCopy copy x faults = (some (copy x), rest) ∧ NoFault rest := by
  rcases callCopy_cases copy x faults with ⟨f1, _, _, hn⟩ | ⟨f1, h1, _⟩
  · exact absurd h hn
  · refine ⟨f1, h1, ?_⟩
    have := (callCopy_spent copy x faults).1
    rw [h1] at this
    exact this.noFault h

theorem linkNode_frame (m : Map K V) (tmp : KeyData K V) (m1 : Map K V)
    (h : linkNode m tmp = some m1) (hsz : m.first_node ≠ [] → m.size ≠ 0) :
    SameCallbacks m m1 ∧ m1.size = m.size + 1 ∧
      m1.first_node.length = m.first_node.length + 1 ∧ (CursorOk m → CursorOk m1) := by
  obtain ⟨size, chain, it, cd, ck, fd, fk, cmp⟩ := m
  simp only at hsz
  unfold linkNode at h
  by_cases h0 : size = 0
  · have hch : chain = [] := by
      by_contra hne
      exact hsz hne h0
    subst hch
    simp only [h0, if_true, Option.some.injEq] at h
    subst h
    refine ⟨⟨rfl, rfl, rfl, rfl, rfl⟩, by simp [h0], rfl, ?_⟩
    intro hcur
    cases it with
    | null => trivial
    | node i => simp [CursorOk] at hcur
    | stale => simp [CursorOk] at hcur
  · simp only [h0, if_false] at h
    rcases chain with _ | ⟨first, rest⟩
    · simp at h
    · simp only at h
      by_cases h1 : cmp first.key tmp.key > 0
      · simp only [h1, if_true, Option.some.injEq] at h
        subst h
        refine ⟨⟨rfl, rfl, rfl, rfl, rfl⟩, rfl, rfl, ?_⟩
        intro hcur
        cases it with
        | null => trivial
        | node i => simp only [CursorOk, List.length_cons] at hcur ⊢; omega
        | stale => simp [CursorOk] at hcur
      · simp only [h1, if_false] at h
        cases it with
        | null => simp at h
        | stale => simp at h
        | node i =>
          simp only at h
          by_cases h2 : i < (first :: rest).length
          · simp only [h2, if_true, Option.some.injEq] at h
            subst h
            refine ⟨⟨rfl, rfl, rfl, rfl, rfl⟩, rfl, ?_, ?_⟩
            · simp only [List.length_append, List.length_take, List.length_cons,
                List.length_drop] at h2 ⊢
              omega
            · intro _
              simp only [CursorOk, List.length_append, List.length_take, List.length_cons,
                List.length_drop] at h2 ⊢
              omega
          · exfalso
            simp only [List.length_cons] at h2
            simp at h
            omega

theorem putUpdate_frame (m : Map K V) (k : K) (d : V) (faults : List Bool) (r : MapResult)
    (m1 : Map K V) (f : List Bool) (h : putUpdate m k d faults = some (r, m1, f)) :
    SameCallbacks m m1 ∧ m1.size = m.size ∧ m1.first_node.length = m.first_node.length ∧
      CursorOk m1 ∧ Spent faults f ∧ (r = MapResult.MAP_SUCCESS → SpentOk faults f) ∧
      (r = MapResult.MAP_SUCCESS ∨ r = MapResult.MAP_OUT_OF_MEMORY) := by
  obtain ⟨size, chain, it, cd, ck, fd, fk, cmp⟩ := m
  unfold putUpdate at h
  cases it with
  | null => simp at h
  | stale => simp at h
  | node i =>
    simp only at h
    rcases h0 : chain[i]? with _ | x
    · simp [h0] at h
    rcases h1 : chain[i + 1]? with _ | nxt
    · simp [h0, h1] at h
    have hi : i + 1 < chain.length := (List.getElem?_eq_some.1 h1).1
    simp only [h0, h1] at h
    by_cases h2 : cmp nxt.key k = 0
    · simp only [h2, if_true] at h
      have hsp := callCopy_spent cd d faults
      rcases hc : callCopy cd d faults with ⟨res, rest⟩
      rw [hc] at h hsp
      cases res with
      | none =>
        simp only [Option.some.injEq, Prod.mk.injEq] at h
        obtain ⟨rfl, rfl, rfl⟩ := h
        exact ⟨⟨rfl, rfl, rfl, rfl, rfl⟩, rfl, rfl, hi, hsp.1, (fun h => by cases h), Or.inr rfl⟩
      | some tmp =>
        simp only [Option.some.injEq, Prod.mk.injEq] at h
        obtain ⟨rfl, rfl, rfl⟩ := h
        exact ⟨⟨rfl, rfl, rfl, rfl, rfl⟩, rfl, by simp, by simpa [CursorOk] using hi, hsp.1,
          fun _ => (hsp.2 tmp rfl).2, Or.inl rfl⟩
    · simp only [h2, if_false, Option.some.injEq, Prod.mk.injEq] at h
      obtain ⟨rfl, rfl, rfl⟩ := h
      exact ⟨⟨rfl, rfl, rfl, rfl, rfl⟩, rfl, rfl, by simp only [CursorOk]; omega, Spent.here _,
        fun _ => SpentOk.hereOk _, Or.inl rfl⟩


theorem addNode_frame (m : Map K V) (k : K) (d : V) (faults : List Bool) (r : MapResult)
    (m1 : Map K V) (f : List Bool) (h : addNode m k d faults = some (r, m1, f))
    (hsz : m.first_node ≠ [] → m.size ≠ 0) :
    SameCallbacks m m1 ∧ Spent faults f ∧
      ((r = MapResult.MAP_OUT_OF_MEMORY ∧ m1 = m) ∨
       (r = MapResult.MAP_SUCCESS ∧ SpentOk faults f ∧ m1.size = m.size + 1 ∧
         m1.first_node.length = m.first_node.length + 1 ∧ (CursorOk m → CursorOk m1))) := by
  have hms := malloc_spent faults
  rcases hm : malloc faults with ⟨b, f1⟩
  rw [hm] at hms
  unfold addNode at h
  rw [hm] at h
  cases b with
  | false =>
    simp only [Option.some.injEq, Prod.mk.injEq] at h
    obtain ⟨rfl, rfl, rfl⟩ := h
    exact ⟨⟨rfl, rfl, rfl, rfl, rfl⟩, hms.1, Or.inl ⟨rfl, rfl⟩⟩
  | true =>
    simp only at h
    have hks := callCopy_spent m.copyKey k f1
    rcases hk : callCopy m.copyKey k f1 with ⟨rk, f2⟩
    rw [hk] at hks h
    cases rk with
    | none =>
      simp only [Option.some.injEq, Prod.mk.injEq] at h
      obtain ⟨rfl, rfl, rfl⟩ := h
      exact ⟨⟨rfl, rfl, rfl, rfl, rfl⟩, hms.1.chain hks.1, Or.inl ⟨rfl, rfl⟩⟩
    | some key =>
      simp only at h
      have hds := callCopy_spent m.copyData d f2
      rcases hd : callCopy m.copyData d f2 with ⟨rd, f3⟩
      rw [hd] at hds h
      cases rd with
      | none =>
        simp only [Option.some.injEq, Prod.mk.injEq] at h
        obtain ⟨rfl, rfl, rfl⟩ := h
        exact ⟨⟨rfl, rfl, rfl, rfl, rfl⟩, (hms.1.chain hks.1).chain hds.1, Or.inl ⟨rfl, rfl⟩⟩
      | some data =>
        simp only at h
        rcases hl : linkNode m { key := key, data := data } with _ | m2
        · rw [hl] at h
          simp at h
        · rw [hl] at h
          simp only [Option.some.injEq, Prod.mk.injEq] at h
          obtain ⟨rfl, rfl, rfl⟩ := h
          obtain ⟨hcb, h1, h2, h3⟩ := linkNode_frame m _ m2 hl hsz
          exact ⟨hcb, (hms.1.chain hks.1).chain hds.1,
            Or.inr ⟨rfl, ((hms.2 rfl).chainOk (hks.2 key rfl).2).chainOk (hds.2 data rfl).2,
              h1, h2, h3⟩⟩

theorem putInsert_frame (m : Map K V) (k : K) (d : V) (faults : List Bool) (r : MapResult)
    (m1 : Map K V) (f : List Bool) (h : putInsert m k d faults = some (r, some m1, f))
    (hsz : m.first_node ≠ [] → m.size ≠ 0) (hcur : CursorOk m) :
    SameCallbacks m m1 ∧
      m1.size - (m1.first_node.length : Int) = m.size - (m.first_node.length : Int) ∧
      m1.first_node.length ≤ m.first_node.length + 1 ∧ CursorOk m1 ∧ Spent faults f ∧
      (r = MapResult.MAP_SUCCESS → SpentOk faults f) ∧
      (r = MapResult.MAP_SUCCESS ∨ r = MapResult.MAP_OUT_OF_MEMORY) := by
  unfold putInsert at h
  rcases ha : addNode m k d faults with _ | ⟨r0, m3, f0⟩
  · rw [ha] at h
    simp at h
  rw [ha] at h
  obtain ⟨hcb, hsp, hcase⟩ := addNode_frame m k d faults r0 m3 f0 ha hsz
  rcases hcase with ⟨rfl, rfl⟩ | ⟨rfl, hok, h1, h2, h3⟩
  · simp only [ne_eq, reduceCtorEq, not_false_eq_true, if_true, Option.some.injEq,
      Prod.mk.injEq] at h
    obtain ⟨rfl, rfl, rfl⟩ := h
    exact ⟨hcb, rfl, by omega, hcur, hsp, (fun h => by cases h), Or.inr rfl⟩
  · simp only [ne_eq, not_true_eq_false, if_false] at h
    rcases hu : putUpdate m3 k d f0 with _ | ⟨r4, m4, f4⟩
    · rw [hu] at h
      simp at h
    rw [hu] at h
    simp only [Option.some.injEq, Prod.mk.injEq] at h
    obtain ⟨rfl, rfl, rfl⟩ := h
    obtain ⟨hcb2, g1, g2, g3, g4, g5, g6⟩ := putUpdate_frame m3 k d f0 r4 m4 f4 hu
    refine ⟨?_, ?_, ?_, g3, hsp.chain g4, fun hr => hok.chainOk (g5 hr), g6⟩
    · obtain ⟨a1, a2, a3, a4, a5⟩ := hcb
      obtain ⟨b1, b2, b3, b4, b5⟩ := hcb2
      exact ⟨b1.trans a1, b2.trans a2, b3.trans a3, b4.trans a4, b5.trans a5⟩
    · rw [g1, g2, h1, h2]
      push_cast
      omega
    · omega


/-- What any `mapPut` with non-NULL arguments does to the callbacks, the size, the number of
nodes, the cursor and the schedule, whatever the comparator. -/
theorem mapPut_frame (m : Map K V) (k : K) (d : V) (faults : List Bool) (r : MapResult)
    (m1 : Map K V) (f : List Bool)
    (h : mapPut (some m) (some k) (some d) faults = some (r, some m1, f))
    (hlen : (m.first_node.length : Int) ≤ m.size) :
    SameCallbacks m m1 ∧
      m1.size - (m1.first_node.length : Int) = m.size - (m.first_node.length : Int) ∧
      m1.first_node.length ≤ m.first_node.length + 1 ∧ (CursorOk m → CursorOk m1) ∧
      Spent faults f ∧ (r = MapResult.MAP_SUCCESS → SpentOk faults f) ∧
      (r = MapResult.MAP_SUCCESS ∨ r = MapResult.MAP_OUT_OF_MEMORY) := by
  have hsz : m.first_node ≠ [] → m.size ≠ 0 := by
    intro hne h0
    rw [h0] at hlen
    exact hne (List.length_eq_zero.1 (by omega))
  obtain ⟨size, chain, it, cd, ck, fd, fk, cmp⟩ := m
  simp only at hlen hsz
  have hadd : ∀ (m0 : Map K V), (m0.first_node ≠ [] → m0.size ≠ 0) →
      (match addNode m0 k d faults with
        | none => none
        | some (result, m1, f) =>
          if result ≠ MapResult.MAP_SUCCESS then some (MapResult.MAP_OUT_OF_MEMORY, some m1, f)
          else some (MapResult.MAP_SUCCESS, some m1, f)) = some (r, some m1, f) →
      SameCallbacks m0 m1 ∧
        m1.size - (m1.first_node.length : Int) = m0.size - (m0.first_node.length : Int) ∧
        m1.first_node.length ≤ m0.first_node.length + 1 ∧ (CursorOk m0 → CursorOk m1) ∧
        Spent faults f ∧ (r = MapResult.MAP_SUCCESS → SpentOk faults f) ∧
        (r = MapResult.MAP_SUCCESS ∨ r = MapResult.MAP_OUT_OF_MEMORY) := by
    intro m0 hsz0 h0
    rcases ha : addNode m0 k d faults with _ | ⟨r0, m3, f0⟩
    · rw [ha] at h0
      simp at h0
    rw [ha] at h0
    obtain ⟨hcb, hsp, hcase⟩ := addNode_frame m0 k d faults r0 m3 f0 ha hsz0
    rcases hcase with ⟨rfl, rfl⟩ | ⟨rfl, hok, h1, h2, h3⟩
    · simp only [ne_eq, reduceCtorEq, not_false_eq_true, if_true, Option.some.injEq,
        Prod.mk.injEq] at h0
      obtain ⟨rfl, rfl, rfl⟩ := h0
      exact ⟨hcb, rfl, by omega, fun hc => hc, hsp, (fun h => by cases h), Or.inr rfl⟩
    · simp only [ne_eq, not_true_eq_false, if_false, Option.some.injEq, Prod.mk.injEq] at h0
      obtain ⟨rfl, rfl, rfl⟩ := h0
      exact ⟨hcb, by rw [h1, h2]; push_cast; omega, by omega, h3, hsp, fun _ => hok, Or.inl rfl⟩
  rcases chain with _ | ⟨first, rest⟩
  · simp only [mapPut] at h
    exact hadd _ hsz h
  · simp only [mapPut] at h
    have hc0 : CursorOk (Map.mk size (first :: rest) (Cursor.node 0) cd ck fd fk cmp) := by
      simp [CursorOk]
    by_cases h1 : cmp first.key k > 0
    · simp only [h1, if_true] at h
      obtain ⟨g1, g2, g3, g4, g5⟩ := hadd (Map.mk size (first :: rest) (Cursor.node 0) cd ck fd fk cmp)
        hsz h
      exact ⟨g1, g2, g3, fun _ => g4 hc0, g5⟩
    simp only [h1, if_false] at h
    by_cases h2 : cmp first.key k = 0
    · simp only [h2, if_true] at h
      have hsp := callCopy_spent cd d faults
      rcases hc : callCopy cd d faults with ⟨res, f1⟩
      rw [hc] at h hsp
      cases res with
      | none =>
        simp only [Option.some.injEq, Prod.mk.injEq] at h
        obtain ⟨rfl, rfl, rfl⟩ := h
        exact ⟨⟨rfl, rfl, rfl, rfl, rfl⟩, rfl, by simp, fun _ => hc0, hsp.1,
          (fun h => by cases h), Or.inr rfl⟩
      | some tmp =>
        simp only [Option.some.injEq, Prod.mk.injEq] at h
        obtain ⟨rfl, rfl, rfl⟩ := h
        exact ⟨⟨rfl, rfl, rfl, rfl, rfl⟩, rfl, by simp, fun _ => by simp [CursorOk], hsp.1,
          fun _ => (hsp.2 tmp rfl).2, Or.inl rfl⟩
    simp only [h2, if_false] at h
    obtain ⟨pre, post, hl, hi, _, _⟩ := putScan_spec cmp k rest 0
    have hi1 : putScan cmp k rest 0 < (first :: rest).length := by
      rw [hi, hl]
      simp only [List.length_cons, List.length_append]
      omega
    have hc2 : CursorOk (Map.mk size (first :: rest) (Cursor.node (putScan cmp k rest 0))
        cd ck fd fk cmp) := hi1
    have hins : putInsert (Map.mk size (first :: rest) (Cursor.node (putScan cmp k rest 0))
          cd ck fd fk cmp) k d faults = some (r, some m1, f) →
        SameCallbacks (Map.mk size (first :: rest) it cd ck fd fk cmp) m1 ∧
        m1.size - (m1.first_node.length : Int) = size - ((first :: rest).length : Int) ∧
        m1.first_node.length ≤ (first :: rest).length + 1 ∧
        (CursorOk (Map.mk size (first :: rest) it cd ck fd fk cmp) → CursorOk m1) ∧
        Spent faults f ∧ (r = MapResult.MAP_SUCCESS → SpentOk faults f) ∧
        (r = MapResult.MAP_SUCCESS ∨ r = MapResult.MAP_OUT_OF_MEMORY) := by
      intro h3
      obtain ⟨g1, g2, g3, g4, g5⟩ := putInsert_frame _ k d faults r m1 f h3 hsz hc2
      exact ⟨g1, g2, g3, fun _ => g4, g5⟩
    have hupd : (match putUpdate (Map.mk size (first :: rest)
          (Cursor.node (putScan cmp k rest 0)) cd ck fd fk cmp) k d faults with
        | none => none
        | some (r, m4, f4) => some (r, some m4, f4)) = some (r, some m1, f) →
        SameCallbacks (Map.mk size (first :: rest) it cd ck fd fk cmp) m1 ∧
        m1.size - (m1.first_node.length : Int) = size - ((first :: rest).length : Int) ∧
        m1.first_node.length ≤ (first :: rest).length + 1 ∧
        (CursorOk (Map.mk size (first :: rest) it cd ck fd fk cmp) → CursorOk m1) ∧
        Spent faults f ∧ (r = MapResult.MAP_SUCCESS → SpentOk faults f) ∧
        (r = MapResult.MAP_SUCCESS ∨ r = MapResult.MAP_OUT_OF_MEMORY) := by
      intro h3
      rcases hu : putUpdate (Map.mk size (first :: rest)
          (Cursor.node (putScan cmp k rest 0)) cd ck fd fk cmp) k d faults with _ | ⟨r4, m4, f4⟩
      · rw [hu] at h3
        simp at h3
      rw [hu] at h3
      simp only [Option.some.injEq, Prod.mk.injEq] at h3
      obtain ⟨rfl, rfl, rfl⟩ := h3
      obtain ⟨g1, g2, g3, g4, g5⟩ := putUpdate_frame _ k d faults r4 m4 f4 hu
      exact ⟨g1, by rw [g2, g3], by rw [g3]; exact Nat.le_succ _, fun _ => g4, g5⟩
    rcases hn : (first :: rest)[putScan cmp k rest 0 + 1]? with _ | nxt
    · rw [hn] at h
      exact hins h
    · rw [hn] at h
      simp only at h
      by_cases h3 : cmp nxt.key k > 0
      · simp only [h3, if_true] at h
        exact hins h
      · simp only [h3, if_false] at h
        exact hupd h

end Frame

/-! ## `mapCopy` -/

section CopyLemmas
variable {K V : Type}

/-- Under the callback contract a `mapPut` keeps the chain ascending, the callbacks, and
`size` at or above the number of nodes. -/
theorem mapPut_preserves (m : Map K V) (k : K) (d : V) (faults : List Bool) (r : MapResult)
    (m1 : Map K V) (f : List Bool) (hc : Contract m.compareKeys m.copyKey)
    (hs : Ascending m.compareKeys m.first_node) (hlen : (m.first_node.length : Int) ≤ m.size)
    (h : mapPut (some m) (some k) (some d) faults = some (r, some m1, f)) :
    SameCallbacks m m1 ∧ Ascending m1.compareKeys m1.first_node ∧
      (m1.first_node.length : Int) ≤ m1.size := by
  obtain ⟨hcb, hsize, _, _⟩ := mapPut_frame m k d faults r m1 f h hlen
  refine ⟨hcb, ?_, by omega⟩
  by_cases hm : m.first_node = []
  · by_cases hsz : m.size = 0
    · obtain ⟨r2, m2, f2, h2, heff⟩ := mapPut_empty m k d faults hm hsz
      rw [h] at h2
      simp only [Option.some.injEq, Prod.mk.injEq] at h2
      obtain ⟨rfl, rfl, rfl⟩ := h2
      exact (heff.preserves hc hs).1
    · have hlink : linkNode m { key := m.copyKey k, data := m.copyData d } = none := by
        simp [linkNode, hsz, hm]
      rcases addNode_cases m k d faults with ⟨f1, h1, _⟩ | ⟨f1, h1, _⟩
      · simp only [mapPut, hm, h1] at h
        simp at h
        obtain ⟨_, rfl, _⟩ := h
        exact hs
      · rw [hlink] at h1
        simp only [mapPut, hm, h1] at h
        simp at h
  · have hsz : m.size ≠ 0 := by
      intro h0
      rw [h0] at hlen
      exact hm (List.length_eq_zero.1 (by omega))
    obtain ⟨r2, m2, f2, h2, heff⟩ := mapPut_nonempty m k d faults hc hs hm hsz
    rw [h] at h2
    simp only [Option.some.injEq, Prod.mk.injEq] at h2
    obtain ⟨rfl, rfl, rfl⟩ := h2
    exact (heff.preserves hc hs).1

/-- A `mapPut` with non-NULL arguments never returns a NULL map. -/
theorem mapPut_some (m : Map K V) (k : K) (d : V) (faults : List Bool) (r : MapResult)
    (mo : Option (Map K V)) (f : List Bool)
    (h : mapPut (some m) (some k) (some d) faults = some (r, mo, f)) : ∃ m1, mo = some m1 := by
  rcases mo with _ | m1
  · exfalso
    unfold mapPut putInsert at h
    simp only at h
    repeat' split at h
    all_goals simp at h
  · exact ⟨m1, rfl⟩

/-- One round of the loop of `mapCopy`: what the loop returns from the node `node` on. -/
theorem copyLoop_cons (map nm : Map K V) (node : KeyData K V) (next : List (KeyData K V))
    (i : Nat) (faults : List Bool) :
    copyLoop map nm (node :: next) i faults =
      match callCopy map.copyKey node.key faults with
      | (none, f1) => some (none, Cursor.node i, f1)
      | (some key, f1) =>
        match callCopy map.copyData node.data f1 with
        | (none, f2) => some (none, Cursor.node i, f2)
        | (some data, f2) =>
          match mapPut (some nm) (some key) (some data) f2 with
          | none => none
          | some (result, new_map1, f3) =>
            if result = MapResult.MAP_OUT_OF_MEMORY then some (none, Cursor.node i, f3)
            else
              match new_map1 with
              | none => none
              | some nm1 => copyLoop map nm1 next (i + 1) f3 := by
  rfl

/-- The loop of `mapCopy`, whatever the comparator: the schedule, the cursor left on the
source, and the new map when there is one. -/
theorem copyLoop_frame (map : Map K V) : ∀ (nodes : List (KeyData K V)) (nm : Map K V) (i : Nat)
    (faults : List Bool) (res : Option (Map K V)) (cur : Cursor) (f : List Bool),
    copyLoop map nm nodes i faults = some (res, cur, f) →
    (nm.first_node.length : Int) ≤ nm.size →
    Spent faults f ∧
      ((res = none ∧ ∃ j, cur = Cursor.node j ∧ i ≤ j ∧ j < i + nodes.length) ∨
       (∃ nm1, res = some nm1 ∧ cur = Cursor.null ∧ SpentOk faults f ∧ SameCallbacks nm nm1 ∧
          nm1.first_node.length ≤ nm.first_node.length + nodes.length)) := by
  intro nodes
  induction nodes with
  | nil =>
    intro nm i faults res cur f h _
    simp only [copyLoop, Option.some.injEq, Prod.mk.injEq] at h
    obtain ⟨rfl, rfl, rfl⟩ := h
    exact ⟨Spent.here _, Or.inr ⟨nm, rfl, rfl, SpentOk.hereOk _, ⟨rfl, rfl, rfl, rfl, rfl⟩, by simp⟩⟩
  | cons node next ih =>
    intro nm i faults res cur f h hlen
    rw [copyLoop_cons] at h
    have hks := callCopy_spent map.copyKey node.key faults
    rcases hk : callCopy map.copyKey node.key faults with ⟨rk, f1⟩
    rw [hk] at h hks
    have hfail : ∀ g, Spent faults g → some ((none : Option (Map K V)), Cursor.node i, g)
        = some (res, cur, f) →
        Spent faults f ∧
        ((res = none ∧ ∃ j, cur = Cursor.node j ∧ i ≤ j ∧ j < i + (node :: next).length) ∨
         (∃ nm1, res = some nm1 ∧ cur = Cursor.null ∧ SpentOk faults f ∧ SameCallbacks nm nm1 ∧
            nm1.first_node.length ≤ nm.first_node.length + (node :: next).length)) := by
      intro g hg hh
      simp only [Option.some.injEq, Prod.mk.injEq] at hh
      obtain ⟨rfl, rfl, rfl⟩ := hh
      exact ⟨hg, Or.inl ⟨rfl, i, rfl, le_refl _, by simp⟩⟩
    cases rk with
    | none => exact hfail f1 hks.1 h
    | some key =>
      simp only at h
      have hds := callCopy_spent map.copyData node.data f1
      rcases hd : callCopy map.copyData node.data f1 with ⟨rd, f2⟩
      rw [hd] at h hds
      cases rd with
      | none => exact hfail f2 (hks.1.chain hds.1) h
      | some data =>
        simp only at h
        rcases hp : mapPut (some nm) (some key) (some data) f2 with _ | ⟨r, mo, f3⟩
        · rw [hp] at h
          simp at h
        rw [hp] at h
        obtain ⟨nm1, rfl⟩ := mapPut_some nm key data f2 r mo f3 hp
        obtain ⟨hcb, hsize, hl1, _, hsp, hok, hres⟩ := mapPut_frame nm key data f2 r nm1 f3 hp hlen
        by_cases hr : r = MapResult.MAP_OUT_OF_MEMORY
        · simp only [hr, if_true] at h
          exact hfail f3 ((hks.1.chain hds.1).chain hsp) h
        · simp only [hr, if_false] at h
          have hrs : r = MapResult.MAP_SUCCESS := by
            rcases hres with h1 | h1
            · exact h1
            · exact absurd h1 hr
          obtain ⟨g1, g2⟩ := ih nm1 (i + 1) f3 res cur f h (by omega)
          refine ⟨((hks.1.chain hds.1).chain hsp).chain g1, ?_⟩
          rcases g2 with ⟨rfl, j, rfl, hj1, hj2⟩ | ⟨nm2, rfl, rfl, hok2, hcb2, hl2⟩
          · exact Or.inl ⟨rfl, j, rfl, by omega, by simp only [List.length_cons]; omega⟩
          · refine Or.inr ⟨nm2, rfl, rfl,
              (((hks.2 key rfl).2.chainOk (hds.2 data rfl).2).chainOk (hok hrs)).chainOk hok2, ?_, ?_⟩
            · obtain ⟨a1, a2, a3, a4, a5⟩ := hcb
              obtain ⟨b1, b2, b3, b4, b5⟩ := hcb2
              exact ⟨b1.trans a1, b2.trans a2, b3.trans a3, b4.trans a4, b5.trans a5⟩
            · simp only [List.length_cons]
              omega


/-- Under the callback contract the loop of `mapCopy` keeps the new chain ascending. -/
theorem copyLoop_ascending (map : Map K V) : ∀ (nodes : List (KeyData K V)) (nm : Map K V)
    (i : Nat) (faults : List Bool) (nm1 : Map K V) (cur : Cursor) (f : List Bool),
    copyLoop map nm nodes i faults = some (some nm1, cur, f) →
    Contract nm.compareKeys nm.copyKey → Ascending nm.compareKeys nm.first_node →
    (nm.first_node.length : Int) ≤ nm.size →
    Ascending nm1.compareKeys nm1.first_node := by
  intro nodes
  induction nodes with
  | nil =>
    intro nm i faults nm1 cur f h _ hs _
    simp only [copyLoop, Option.some.injEq, Prod.mk.injEq] at h
    obtain ⟨rfl, _, _⟩ := h
    exact hs
  | cons node next ih =>
    intro nm i faults nm1 cur f h hc hs hlen
    rw [copyLoop_cons] at h
    rcases hk : callCopy map.copyKey node.key faults with ⟨rk, f1⟩
    rw [hk] at h
    cases rk with
    | none => simp at h
    | some key =>
      simp only at h
      rcases hd : callCopy map.copyData node.data f1 with ⟨rd, f2⟩
      rw [hd] at h
      cases rd with
      | none => simp at h
      | some data =>
        simp only at h
        rcases hp : mapPut (some nm) (some key) (some data) f2 with _ | ⟨r, mo, f3⟩
        · rw [hp] at h
          simp at h
        rw [hp] at h
        obtain ⟨nm2, rfl⟩ := mapPut_some nm key data f2 r mo f3 hp
        by_cases hr : r = MapResult.MAP_OUT_OF_MEMORY
        · simp [hr] at h
        · simp only [hr, if_false] at h
          obtain ⟨hcb, hs2, hlen2⟩ := mapPut_preserves nm key data f2 r nm2 f3 hc hs hlen hp
          have hc2 : Contract nm2.compareKeys nm2.copyKey := by
            rw [hcb.2.2.2.2, hcb.2.1]; exact hc
          exact ih nm2 (i + 1) f3 nm1 cur f h hc2 hs2 hlen2

/-- The loop of `mapCopy` on a sorted rest of the source whose keys are all larger than the
keys already in the new map, with no allocation failing: every node goes to the tail of the
new chain, its key and data copied twice (by `mapCopy` and by the inner `mapPut`). -/
theorem copyLoop_exact (map : Map K V) (hc : Contract map.compareKeys map.copyKey) :
    ∀ (nodes : List (KeyData K V)) (nm : Map K V) (i : Nat) (faults : List Bool),
    SameCallbacks map nm → WellFormed nm → Ascending map.compareKeys nodes →
    (∀ a ∈ nm.first_node, ∀ b ∈ nodes, map.compareKeys a.key b.key < 0) → NoFault faults →
    ∃ nm1 f, copyLoop map nm nodes i faults = some (some nm1, Cursor.null, f) ∧
      nm1.first_node = nm.first_node ++ nodes.map (fun n =>
        { key := map.copyKey (map.copyKey n.key), data := map.copyData (map.copyData n.data) }) ∧
      nm1.size = nm.size + nodes.length ∧ SameCallbacks map nm1 ∧ NoFault f := by
  intro nodes
  induction nodes with
  | nil =>
    intro nm i faults hcb _ _ _ hnf
    exact ⟨nm, faults, rfl, by simp, by simp, hcb, hnf⟩
  | cons node next ih =>
    intro nm i faults hcb hwf hnodes hlt hnf
    obtain ⟨f1, hk, hnf1⟩ := callCopy_noFault map.copyKey node.key hnf
    obtain ⟨f2, hd, hnf2⟩ := callCopy_noFault map.copyData node.data hnf1
    have hcmp : nm.compareKeys = map.compareKeys := hcb.2.2.2.2
    have hck : nm.copyKey = map.copyKey := hcb.2.1
    have hcd : nm.copyData = map.copyData := hcb.1
    have hcn : Contract nm.compareKeys nm.copyKey := by rw [hcmp, hck]; exact hc
    obtain ⟨r, nm2, f3, hput, heff⟩ :=
      mapPut_wellFormed nm (map.copyKey node.key) (map.copyData node.data) f2 hwf hcn
    have hwf2 : WellFormed nm2 := heff.wellFormed hcn hwf
    have hlen : (nm.first_node.length : Int) ≤ nm.size := by rw [hwf.2]
    obtain ⟨_, _, _, _, hsp, _, _⟩ := mapPut_frame nm _ _ f2 r nm2 f3 hput hlen
    have hnf3 : NoFault f3 := hsp.noFault hnf2
    have hsmall : ∀ a ∈ nm.first_node, nm.compareKeys a.key (map.copyKey node.key) < 0 := by
      intro a ha
      rw [hcmp, hc.copy_right]
      exact hlt a ha node (List.mem_cons_self _ _)
    obtain ⟨hcb2, pre, post, hsplit, hpre, hcase⟩ := heff
    have hpost : post = [] := by
      rcases post with _ | ⟨p, ps⟩
      · rfl
      · exfalso
        have hp := hsmall p (by rw [hsplit]; simp)
        rcases hcase with ⟨h1, _, _⟩ | ⟨nxt, rest, h1, h2, _, _⟩
        · have := h1 p (List.mem_cons_self _ _)
          omega
        · simp only [List.cons.injEq] at h1
          obtain ⟨rfl, _⟩ := h1
          omega
    subst hpost
    rw [List.append_nil] at hsplit
    subst hsplit
    rcases hcase with ⟨_, hres, hsucc⟩ | ⟨nxt, rest, h1, _⟩
    · have hr := hsucc hnf2
      subst hr
      rcases hres with ⟨h0, _⟩ | ⟨_, hch, hsize⟩
      · cases h0
      · have hcb3 : SameCallbacks map nm2 := by
          obtain ⟨a1, a2, a3, a4, a5⟩ := hcb
          obtain ⟨b1, b2, b3, b4, b5⟩ := hcb2
          exact ⟨b1.trans a1, b2.trans a2, b3.trans a3, b4.trans a4, b5.trans a5⟩
        rw [Ascending, List.pairwise_cons] at hnodes
        have hlt2 : ∀ a ∈ nm2.first_node, ∀ b ∈ next, map.compareKeys a.key b.key < 0 := by
          intro a ha b hb
          rw [hch] at ha
          rcases List.mem_append.1 ha with h | h
          · exact hlt a h b (List.mem_cons_of_mem _ hb)
          · simp only [List.mem_singleton] at h
            subst h
            show map.compareKeys (nm.copyKey (map.copyKey node.key)) b.key < 0
            rw [hck, hc.copy_left, hc.copy_left]
            exact hnodes.1 b hb
        obtain ⟨nm1, f, hloop, hch1, hsz1, hcb1, hnf4⟩ :=
          ih nm2 (i + 1) f3 hcb3 hwf2 hnodes.2 hlt2 hnf3
        refine ⟨nm1, f, ?_, ?_, ?_, hcb1, hnf4⟩
        · rw [copyLoop_cons, hk]
          simp only [hd, hput]
          simpa using hloop
        · rw [hch1, hch, hck, hcd]
          simp
        · rw [hsz1, hsize]
          simp only [List.length_cons]
          push_cast
          omega
    · cases h1


theorem mapCreate_some (cd : V → V) (ck : K → K) (fd : V → Unit) (fk : K → Unit)
    (cmp : K → K → Int) (faults : List Bool) :
    mapCreate (some cd) (some ck) (some fd) (some fk) (some cmp) faults =
      (if (malloc faults).1 = true then some (Map.mk 0 [] Cursor.null cd ck fd fk cmp) else none,
        (malloc faults).2) := by
  unfold mapCreate
  rcases hm : malloc faults with ⟨b, rest⟩
  cases b <;> simp

/-- What any `mapCopy` of a non-NULL map does, whatever the comparator: the source keeps its
size, chain and callbacks; on failure its cursor is untouched (no new map could be allocated)
or stands on the node whose copy failed; on success both cursors are NULL. -/
theorem mapCopy_frame (m : Map K V) (faults : List Bool) (res src : Option (Map K V))
    (f : List Bool) (h : mapCopy (some m) faults = some (res, src, f)) :
    Spent faults f ∧ ∃ m1, src = some m1 ∧ m1.size = m.size ∧ m1.first_node = m.first_node ∧
      SameCallbacks m m1 ∧
      ((res = none ∧ (m1.iterator = m.iterator ∨
          ∃ j, m1.iterator = Cursor.node j ∧ j < m.first_node.length)) ∨
       (∃ c, res = some c ∧ m1.iterator = Cursor.null ∧ c.iterator = Cursor.null ∧
          SameCallbacks m c ∧ SpentOk faults f ∧
          c.first_node.length ≤ m.first_node.length ∧
          (m.first_node = [] → c.size = 0) ∧ (m.first_node ≠ [] → c.size = m.size))) := by
  obtain ⟨size, chain, it, cd, ck, fd, fk, cmp⟩ := m
  unfold mapCopy at h
  simp only [mapCreate_some] at h
  have hms := malloc_spent faults
  rcases hm : malloc faults with ⟨b, f0⟩
  rw [hm] at h hms
  cases b with
  | false =>
    simp only [Bool.false_eq_true, if_false, Option.some.injEq, Prod.mk.injEq] at h
    obtain ⟨rfl, rfl, rfl⟩ := h
    exact ⟨hms.1, _, rfl, rfl, rfl, ⟨rfl, rfl, rfl, rfl, rfl⟩, Or.inl ⟨rfl, Or.inl rfl⟩⟩
  | true =>
    simp only [if_true] at h
    rcases chain with _ | ⟨first, rest⟩
    · simp only [Option.some.injEq, Prod.mk.injEq] at h
      obtain ⟨rfl, rfl, rfl⟩ := h
      exact ⟨hms.1, _, rfl, rfl, rfl, ⟨rfl, rfl, rfl, rfl, rfl⟩,
        Or.inr ⟨_, rfl, rfl, rfl, ⟨rfl, rfl, rfl, rfl, rfl⟩, hms.2 rfl, le_refl _,
          fun _ => rfl, fun hne => absurd rfl hne⟩⟩
    · simp only at h
      rcases hl : copyLoop (Map.mk size (first :: rest) it cd ck fd fk cmp)
          (Map.mk 0 [] Cursor.null cd ck fd fk cmp) (first :: rest) 0 f0 with _ | ⟨r, cur, f1⟩
      · rw [hl] at h
        simp at h
      rw [hl] at h
      obtain ⟨hsp, hcase⟩ := copyLoop_frame _ (first :: rest) _ 0 f0 r cur f1 hl (by simp)
      rcases hcase with ⟨rfl, j, rfl, _, hj⟩ | ⟨nm1, rfl, rfl, hok, hcb, hlen⟩
      · simp only [Option.some.injEq, Prod.mk.injEq] at h
        obtain ⟨rfl, rfl, rfl⟩ := h
        exact ⟨hms.1.chain hsp, _, rfl, rfl, rfl, ⟨rfl, rfl, rfl, rfl, rfl⟩,
          Or.inl ⟨rfl, Or.inr ⟨j, rfl, by simpa using hj⟩⟩⟩
      · simp only [Option.some.injEq, Prod.mk.injEq] at h
        obtain ⟨rfl, rfl, rfl⟩ := h
        exact ⟨hms.1.chain hsp, _, rfl, rfl, rfl, ⟨rfl, rfl, rfl, rfl, rfl⟩,
          Or.inr ⟨_, rfl, rfl, rfl, hcb, (hms.2 rfl).chainOk hok, by simpa using hlen,
            (fun hnil => by cases hnil), fun _ => rfl⟩⟩

/-- Under the callback contract the chain of a map that `mapCopy` returns is ascending. -/
theorem mapCopy_ascending (m : Map K V) (faults : List Bool) (c : Map K V)
    (src : Option (Map K V)) (f : List Bool) (hc : Contract m.compareKeys m.copyKey)
    (h : mapCopy (some m) faults = some (some c, src, f)) :
    Ascending c.compareKeys c.first_node := by
  obtain ⟨size, chain, it, cd, ck, fd, fk, cmp⟩ := m
  unfold mapCopy at h
  simp only [mapCreate_some] at h
  rcases hm : malloc faults with ⟨b, f0⟩
  rw [hm] at h
  cases b with
  | false => simp at h
  | true =>
    simp only [if_true] at h
    rcases chain with _ | ⟨first, rest⟩
    · simp only [Option.some.injEq, Prod.mk.injEq] at h
      obtain ⟨rfl, _, _⟩ := h
      exact List.Pairwise.nil
    · simp only at h
      rcases hl : copyLoop (Map.mk size (first :: rest) it cd ck fd fk cmp)
          (Map.mk 0 [] Cursor.null cd ck fd fk cmp) (first :: rest) 0 f0 with _ | ⟨r, cur, f1⟩
      · rw [hl] at h
        simp at h
      rw [hl] at h
      cases r with
      | none => simp at h
      | some nm1 =>
        simp only [Option.some.injEq, Prod.mk.injEq] at h
        obtain ⟨rfl, _, _⟩ := h
        exact copyLoop_ascending _ (first :: rest) _ 0 f0 nm1 cur f1 hl hc List.Pairwise.nil
          (by simp)

/-- A `mapCopy` of a well-formed map with no allocation failing. -/
theorem mapCopy_exact (m : Map K V) (faults : List Bool) (hwf : WellFormed m)
    (hc : Contract m.compareKeys m.copyKey) (hnf : NoFault faults) :
    ∃ c src f, mapCopy (some m) faults = some (some c, some src, f) ∧ SameCallbacks m c ∧
      c.size = m.size ∧
      c.first_node = m.first_node.map (fun n =>
        { key := m.copyKey (m.copyKey n.key), data := m.copyData (m.copyData n.data) }) ∧
      src.size = m.size ∧ src.first_node = m.first_node ∧ SameCallbacks m src := by
  obtain ⟨size, chain, it, cd, ck, fd, fk, cmp⟩ := m
  have hms := malloc_spent faults
  rcases hm : malloc faults with ⟨b, f0⟩
  rw [hm] at hms
  have hb : b = true := by
    rcases faults with _ | ⟨x, xs⟩
    · simp [malloc] at hm
      exact hm.1
    · have hx := hnf x (List.mem_cons_self _ _)
      subst hx
      simp [malloc] at hm
      exact hm.1
  subst hb
  have hnf0 : NoFault f0 := hms.1.noFault hnf
  rcases chain with _ | ⟨first, rest⟩
  · refine ⟨Map.mk 0 [] Cursor.null cd ck fd fk cmp,
      Map.mk size [] Cursor.null cd ck fd fk cmp, f0, ?_, ⟨rfl, rfl, rfl, rfl, rfl⟩, ?_, rfl,
      rfl, rfl, ⟨rfl, rfl, rfl, rfl, rfl⟩⟩
    · simp [mapCopy, mapCreate_some, hm]
    · have := hwf.2
      simpa using this.symm
  · obtain ⟨nm1, f, hloop, hch, _, hcb, _⟩ :=
      copyLoop_exact (Map.mk size (first :: rest) it cd ck fd fk cmp) hc (first :: rest)
        (Map.mk 0 [] Cursor.null cd ck fd fk cmp) 0 f0 ⟨rfl, rfl, rfl, rfl, rfl⟩
        ⟨List.Pairwise.nil, rfl⟩ hwf.1 (by simp) hnf0
    refine ⟨{ nm1 with iterator := Cursor.null, size := size },
      Map.mk size (first :: rest) Cursor.null cd ck fd fk cmp, f, ?_, hcb, rfl, ?_,
      rfl, rfl, ⟨rfl, rfl, rfl, rfl, rfl⟩⟩
    · simp [mapCopy, mapCreate_some, hm, hloop]
    · simpa using hch

end CopyLemmas

/-! ## Iteration -/

section IterationLemmas
variable {K V : Type}

/-- What `mapGetFirst` does to a non-NULL map: only the cursor moves, to the head. -/
theorem mapGetFirst_frame (m : Map K V) (faults : List Bool) :
    ∃ m1, (mapGetFirst (some m) faults).2.1 = some m1 ∧ m1.size = m.size ∧
      m1.first_node = m.first_node ∧ SameCallbacks m m1 ∧
      ((m.first_node = [] ∧ m1.iterator = m.iterator) ∨
       (m.first_node ≠ [] ∧ m1.iterator = Cursor.node 0)) := by
  obtain ⟨size, chain, it, cd, ck, fd, fk, cmp⟩ := m
  rcases chain with _ | ⟨first, rest⟩
  · exact ⟨_, rfl, rfl, rfl, ⟨rfl, rfl, rfl, rfl, rfl⟩, Or.inl ⟨rfl, rfl⟩⟩
  · exact ⟨Map.mk size (first :: rest) (Cursor.node 0) cd ck fd fk cmp, rfl, rfl, rfl,
      ⟨rfl, rfl, rfl, rfl, rfl⟩, Or.inr ⟨by simp, rfl⟩⟩

/-- What a `mapGetNext` that has a result does to a non-NULL map: only the cursor moves,
and it is NULL or on a node of the chain afterwards. -/
theorem mapGetNext_frame (m : Map K V) (faults : List Bool) (r : Option K)
    (mo : Option (Map K V)) (f : List Bool) (h : mapGetNext (some m) faults = some (r, mo, f)) :
    ∃ m1, mo = some m1 ∧ m1.size = m.size ∧ m1.first_node = m.first_node ∧
      SameCallbacks m m1 ∧ CursorOk m1 := by
  obtain ⟨size, chain, it, cd, ck, fd, fk, cmp⟩ := m
  unfold mapGetNext at h
  cases it with
  | null =>
    simp only [Option.some.injEq, Prod.mk.injEq] at h
    obtain ⟨_, rfl, _⟩ := h
    exact ⟨_, rfl, rfl, rfl, ⟨rfl, rfl, rfl, rfl, rfl⟩, trivial⟩
  | stale => simp at h
  | node i =>
    simp only at h
    rcases h0 : chain[i]? with _ | x
    · simp [h0] at h
    rcases h1 : chain[i + 1]? with _ | nxt
    · simp only [h0, h1, Option.some.injEq, Prod.mk.injEq] at h
      obtain ⟨_, rfl, _⟩ := h
      exact ⟨_, rfl, rfl, rfl, ⟨rfl, rfl, rfl, rfl, rfl⟩, trivial⟩
    · have hi : i + 1 < chain.length := (List.getElem?_eq_some.1 h1).1
      simp only [h0, h1, Option.some.injEq, Prod.mk.injEq] at h
      obtain ⟨_, rfl, _⟩ := h
      exact ⟨_, rfl, rfl, rfl, ⟨rfl, rfl, rfl, rfl, rfl⟩, hi⟩

end IterationLemmas

/-! ## Sequences of calls -/

section Helpers
variable {K V : Type}

/-- The sample chain 1, 3, 5 of size 3 is well formed. -/
theorem intMap_wellFormed :
    WellFormed (intMap 3 [⟨1, "a"⟩, ⟨3, "c"⟩, ⟨5, "e"⟩]) := by
  refine ⟨?_, rfl⟩
  simp [Ascending, intMap]

theorem mapPut_result {m : Map K V} {k : K} {d : V} {faults : List Bool} {r : MapResult}
    {m1 : Map K V} {f1 : List Bool} (hwf : WellFormed m) (hc : Contract m.compareKeys m.copyKey)
    (hput : mapPut (some m) (some k) (some d) faults = some (r, some m1, f1)) :
    PutEffect m k d faults r m1 := by
  obtain ⟨r2, m2, f2, h2, heff⟩ := mapPut_wellFormed m k d faults hwf hc
  rw [hput] at h2
  simp only [Option.some.injEq, Prod.mk.injEq] at h2
  obtain ⟨rfl, rfl, rfl⟩ := h2
  exact heff

theorem mapGet_after_put {m : Map K V} {k : K} {d : V} {faults : List Bool}
    {m1 : Map K V} {f1 : List Bool} (hwf : WellFormed m) (hc : Contract m.compareKeys m.copyKey)
    (hput : mapPut (some m) (some k) (some d) faults = some (MapResult.MAP_SUCCESS, some m1, f1)) :
    mapGet (some m1) (some k) = some (m.copyData d) := by
  obtain ⟨pre, x, post, hch, hd, hx, hpre, _⟩ := (mapPut_result hwf hc hput).stored hc
  rw [mapGet_eq_getLoop, hch, getLoop_at _ k x post hx pre hpre, hd]

theorem mapPut_present (m : Map K V) (k : K) (d : V) (faults : List Bool)
    (hwf : WellFormed m) (hc : Contract m.compareKeys m.copyKey)
    (hpres : ∃ n ∈ m.first_node, m.compareKeys n.key k = 0) (hok : (malloc faults).1 = true) :
    ∃ m1 f1 pre nxt post,
      mapPut (some m) (some k) (some d) faults = some (MapResult.MAP_SUCCESS, some m1, f1) ∧
      m.first_node = pre ++ nxt :: post ∧ m.compareKeys nxt.key k = 0 ∧
      (∀ n ∈ pre ++ post, m.compareKeys n.key k ≠ 0) ∧
      m1.first_node = pre ++ { key := nxt.key, data := m.copyData d } :: post ∧
      m1.size = m.size := by
  obtain ⟨r, m1, f1, hput, hcb, pre, post, hsplit, hpre, hcase⟩ :=
    mapPut_wellFormed m k d faults hwf hc
  obtain ⟨n, hn, hnk⟩ := hpres
  rcases hcase with ⟨hpost, _, _⟩ | ⟨nxt, rest, rfl, hx, hrest, hres⟩
  · rw [hsplit] at hn
    rcases List.mem_append.1 hn with h | h
    · have := hpre n h; omega
    · have := hpost n h; omega
  · rcases hres with ⟨_, _, _, h0⟩ | ⟨rfl, h1, h2, _⟩
    · rw [hok] at h0; cases h0
    · refine ⟨m1, f1, pre, nxt, rest, hput, hsplit, hx, ?_, h1, h2⟩
      intro n hn
      rcases List.mem_append.1 hn with h | h
      · have := hpre n h; omega
      · have := hrest n h; omega

theorem mapCreate_eq {cd : V → V} {ck : K → K} {fd : V → Unit} {fk : K → Unit}
    {cmp : K → K → Int} {faults : List Bool} {m0 : Map K V}
    (h : (mapCreate (some cd) (some ck) (some fd) (some fk) (some cmp) faults).1 = some m0) :
    m0 = Map.mk 0 [] Cursor.null cd ck fd fk cmp := by
  unfold mapCreate at h
  rcases hm : malloc faults with ⟨b, rest⟩
  rw [hm] at h
  cases b
  · simp at h
  · simp only [Option.some.injEq] at h
    exact h.symm

theorem applyOp_preserves (m : Map K V) (op : MapOp K V) (m1 : Map K V)
    (hc : Contract m.compareKeys m.copyKey) (hs : Ascending m.compareKeys m.first_node)
    (hlen : (m.first_node.length : Int) ≤ m.size) (h : applyOp m op = some m1) :
    SameCallbacks m m1 ∧ Ascending m1.compareKeys m1.first_node ∧
      (m1.first_node.length : Int) ≤ m1.size := by
  have hsame : ∀ m2 : Map K V, m2.size = m.size → m2.first_node = m.first_node →
      SameCallbacks m m2 → SameCallbacks m m2 ∧ Ascending m2.compareKeys m2.first_node ∧
        (m2.first_node.length : Int) ≤ m2.size := by
    intro m2 h1 h2 h3
    refine ⟨h3, ?_, ?_⟩
    · rw [h3.2.2.2.2, h2]; exact hs
    · rw [h1, h2]; exact hlen
  cases op with
  | put key data faults =>
    rcases key with _ | k
    · simp only [applyOp, mapPut, Option.some.injEq] at h
      subst h
      exact ⟨⟨rfl, rfl, rfl, rfl, rfl⟩, hs, hlen⟩
    rcases data with _ | d
    · simp only [applyOp, mapPut, Option.some.injEq] at h
      subst h
      exact ⟨⟨rfl, rfl, rfl, rfl, rfl⟩, hs, hlen⟩
    rcases hp : mapPut (some m) (some k) (some d) faults with _ | ⟨r, mo, f⟩
    · simp [applyOp, hp] at h
    obtain ⟨m2, rfl⟩ := mapPut_some m k d faults r mo f hp
    simp only [applyOp, hp, Option.some.injEq] at h
    subst h
    exact mapPut_preserves m k d faults r m2 f hc hs hlen hp
  | remove key =>
    obtain ⟨m2, h2, hcb, hsub, hsize⟩ := mapRemove_effect m key
    simp only [applyOp, h2, Option.some.injEq] at h
    subst h
    refine ⟨hcb, ?_, ?_⟩
    · rw [hcb.2.2.2.2]
      exact List.Pairwise.sublist hsub hs
    · rcases hsize with ⟨h3, h4⟩ | ⟨h3, h4⟩
      · rw [h3, h4]; exact hlen
      · omega
  | clear =>
    rcases hm : m.first_node with _ | ⟨first, rest⟩
    · simp only [applyOp, mapClear, hm, Option.some.injEq] at h
      subst h
      exact ⟨⟨rfl, rfl, rfl, rfl, rfl⟩, hs, hlen⟩
    · simp only [applyOp, mapClear, hm, Option.some.injEq] at h
      subst h
      exact ⟨⟨rfl, rfl, rfl, rfl, rfl⟩, List.Pairwise.nil, by simp⟩
  | getFirst faults =>
    obtain ⟨m2, h2, g1, g2, g3, _⟩ := mapGetFirst_frame m faults
    simp only [applyOp, h2, Option.some.injEq] at h
    subst h
    exact hsame _ g1 g2 g3
  | getNext faults =>
    rcases hn : mapGetNext (some m) faults with _ | ⟨r, mo, f⟩
    · simp [applyOp, hn] at h
    obtain ⟨m2, rfl, g1, g2, g3, _⟩ := mapGetNext_frame m faults r mo f hn
    simp only [applyOp, hn, Option.some.injEq] at h
    subst h
    exact hsame _ g1 g2 g3
  | copySource faults =>
    rcases hcp : mapCopy (some m) faults with _ | ⟨res, src, f⟩
    · simp [applyOp, hcp] at h
    obtain ⟨_, m2, rfl, g1, g2, g3, _⟩ := mapCopy_frame m faults res src f hcp
    simp only [applyOp, hcp, Option.some.injEq] at h
    subst h
    exact hsame _ g1 g2 g3
  | copyResult faults =>
    rcases hcp : mapCopy (some m) faults with _ | ⟨res, src, f⟩
    · simp [applyOp, hcp] at h
    rcases res with _ | c
    · simp [applyOp, hcp] at h
    simp only [applyOp, hcp, Option.some.injEq] at h
    subst h
    obtain ⟨_, m2, _, _, _, _, hcase⟩ := mapCopy_frame m faults (some c) src f hcp
    rcases hcase with ⟨h0, _⟩ | ⟨c2, h0, _, _, hcb, _, hl, hz, hnz⟩
    · cases h0
    · simp only [Option.some.injEq] at h0
      subst h0
      refine ⟨hcb, mapCopy_ascending m faults c src f hc hcp, ?_⟩
      by_cases hm : m.first_node = []
      · rw [hz hm]
        rw [hm] at hl
        simp only [List.length_nil, Nat.le_zero_eq] at hl
        rw [hl]
        simp
      · rw [hnz hm]
        omega

theorem runOps_preserves : ∀ (ops : List (MapOp K V)) (m m1 : Map K V),
    Contract m.compareKeys m.copyKey → Ascending m.compareKeys m.first_node →
    (m.first_node.length : Int) ≤ m.size → runOps m ops = some m1 →
    SameCallbacks m m1 ∧ Ascending m1.compareKeys m1.first_node ∧
      (m1.first_node.length : Int) ≤ m1.size := by
  intro ops
  induction ops with
  | nil =>
    intro m m1 _ hs hlen h
    simp only [runOps, Option.some.injEq] at h
    subst h
    exact ⟨⟨rfl, rfl, rfl, rfl, rfl⟩, hs, hlen⟩
  | cons op ops ih =>
    intro m m1 hc hs hlen h
    rcases hop : applyOp m op with _ | m2
    · simp [runOps, hop] at h
    · simp only [runOps, hop] at h
      obtain ⟨hcb, hs2, hlen2⟩ := applyOp_preserves m op m2 hc hs hlen hop
      have hc2 : Contract m2.compareKeys m2.copyKey := by
        rw [hcb.2.2.2.2, hcb.2.1]; exact hc
      obtain ⟨hcb3, hs3, hlen3⟩ := ih m2 m1 hc2 hs2 hlen2 h
      refine ⟨?_, hs3, hlen3⟩
      obtain ⟨a1, a2, a3, a4, a5⟩ := hcb
      obtain ⟨b1, b2, b3, b4, b5⟩ := hcb3
      exact ⟨b1.trans a1, b2.trans a2, b3.trans a3, b4.trans a4, b5.trans a5⟩

end Helpers

/-! ## Invariants of call sequences, whatever the comparator -/

section RunLemmas
variable {K V : Type}

theorem removeScan_le (cmp : K → K → Int) (k : K) :
    ∀ (l : List (KeyData K V)) (it : KeyData K V) (i : Nat),
      (removeScan cmp k it l i).2 ≤ i + l.length := by
  intro l
  induction l with
  | nil => intro it i; simp [removeScan]
  | cons a as ih =>
    intro it i
    by_cases h1 : cmp a.key k = 0
    · simp [removeScan, h1]
    · by_cases h2 : cmp it.key k > 0
      · simp [removeScan, h1, h2]
      · simp only [removeScan, h1, h2, if_false]
        have := ih a (i + 1)
        simp only [List.length_cons]
        omega

/-- A `mapRemove` leaves the cursor NULL or on a node of the chain, unless it deletes the
head node while the cursor stands on it. -/
theorem mapRemove_cursor (m : Map K V) (key : Option K) (m1 : Map K V)
    (h : (mapRemove (some m) key).2 = some m1) (hcur : CursorOk m)
    (hhit : hitsCursor m (MapOp.remove key) = false) : CursorOk m1 := by
  obtain ⟨size, chain, it, cd, ck, fd, fk, cmp⟩ := m
  rcases key with _ | k
  · simp only [mapRemove, Option.some.injEq] at h
    subst h
    exact hcur
  rcases chain with _ | ⟨first, rest⟩
  · simp only [mapRemove, Option.some.injEq] at h
    subst h
    exact hcur
  by_cases h1 : cmp first.key k = 0
  · simp only [mapRemove, h1, if_true, Option.some.injEq] at h
    subst h
    cases it with
    | null => trivial
    | stale => exact hcur
    | node i =>
      cases i with
      | zero => simp [hitsCursor, h1] at hhit
      | succ j =>
        simp only [CursorOk, List.length_cons] at hcur ⊢
        omega
  · have hle := removeScan_le cmp k rest first 0
    rcases hscan : removeScan cmp k first rest 0 with ⟨b, i⟩
    rw [hscan] at hle
    simp only at hle
    cases b
    · simp only [mapRemove, h1, if_false, hscan, Option.some.injEq] at h
      subst h
      simp only [CursorOk, List.length_cons]
      omega
    · simp only [mapRemove, h1, if_false, hscan, Option.some.injEq] at h
      subst h
      simp only [CursorOk, relink_eq_nil, List.append_nil, List.length_take, List.length_cons]
      omega

theorem mapCreate_init {cd : Option (V → V)} {ck : Option (K → K)} {fd : Option (V → Unit)}
    {fk : Option (K → Unit)} {cmp : Option (K → K → Int)} {faults : List Bool} {m0 : Map K V}
    (h : (mapCreate cd ck fd fk cmp faults).1 = some m0) :
    m0.size = 0 ∧ m0.first_node = [] ∧ m0.iterator = Cursor.null := by
  rcases cd with _ | cd <;> rcases ck with _ | ck <;> rcases fd with _ | fd <;>
    rcases fk with _ | fk <;> rcases cmp with _ | cmp <;>
    first
    | (simp [mapCreate] at h; done)
    | (rw [mapCreate_some] at h
       by_cases hm : (malloc faults).1 = true
       · simp only [hm, if_true, Option.some.injEq] at h
         subst h
         exact ⟨rfl, rfl, rfl⟩
       · simp [hm] at h)

/-- One call, whatever the comparator: `size` stays at or above the number of nodes, and the
cursor stays NULL or on a node of the chain unless the call is a `mapRemove` that deletes
the head node under the cursor. -/
theorem applyOp_frame (m : Map K V) (op : MapOp K V) (m1 : Map K V)
    (hlen : (m.first_node.length : Int) ≤ m.size) (h : applyOp m op = some m1) :
    (m1.first_node.length : Int) ≤ m1.size ∧
      (CursorOk m → hitsCursor m op = false → CursorOk m1) := by
  have hsame : ∀ m2 : Map K V, m2.size = m.size → m2.first_node = m.first_node →
      (m2.first_node.length : Int) ≤ m2.size := by
    intro m2 h1 h2
    rw [h1, h2]; exact hlen
  cases op with
  | put key data faults =>
    rcases key with _ | k
    · simp only [applyOp, mapPut, Option.some.injEq] at h
      subst h
      exact ⟨hlen, fun hc _ => hc⟩
    rcases data with _ | d
    · simp only [applyOp, mapPut, Option.some.injEq] at h
      subst h
      exact ⟨hlen, fun hc _ => hc⟩
    rcases hp : mapPut (some m) (some k) (some d) faults with _ | ⟨r, mo, f⟩
    · simp [applyOp, hp] at h
    obtain ⟨m2, rfl⟩ := mapPut_some m k d faults r mo f hp
    simp only [applyOp, hp, Option.some.injEq] at h
    subst h
    obtain ⟨_, hsize, _, hcur, _⟩ := mapPut_frame m k d faults r m2 f hp hlen
    exact ⟨by omega, fun hc _ => hcur hc⟩
  | remove key =>
    obtain ⟨m2, h2, _, _, hsize⟩ := mapRemove_effect m key
    simp only [applyOp, h2, Option.some.injEq] at h
    subst h
    refine ⟨?_, fun hc hh => mapRemove_cursor m key m2 h2 hc hh⟩
    rcases hsize with ⟨h3, h4⟩ | ⟨h3, h4⟩
    · rw [h3, h4]; exact hlen
    · omega
  | clear =>
    rcases hm : m.first_node with _ | ⟨first, rest⟩
    · simp only [applyOp, mapClear, hm, Option.some.injEq] at h
      subst h
      exact ⟨hlen, fun hc _ => hc⟩
    · simp only [applyOp, mapClear, hm, Option.some.injEq] at h
      subst h
      exact ⟨by simp, fun _ _ => trivial⟩
  | getFirst faults =>
    obtain ⟨m2, h2, g1, g2, _, g4⟩ := mapGetFirst_frame m faults
    simp only [applyOp, h2, Option.some.injEq] at h
    subst h
    refine ⟨hsame _ g1 g2, fun hc _ => ?_⟩
    rcases g4 with ⟨hnil, hit⟩ | ⟨hne, hit⟩
    · unfold CursorOk at hc ⊢
      rw [hit, g2]
      exact hc
    · unfold CursorOk
      rw [hit, g2]
      exact List.length_pos.2 hne
  | getNext faults =>
    rcases hn : mapGetNext (some m) faults with _ | ⟨r, mo, f⟩
    · simp [applyOp, hn] at h
    obtain ⟨m2, rfl, g1, g2, _, g4⟩ := mapGetNext_frame m faults r mo f hn
    simp only [applyOp, hn, Option.some.injEq] at h
    subst h
    exact ⟨hsame _ g1 g2, fun _ _ => g4⟩
  | copySource faults =>
    rcases hcp : mapCopy (some m) faults with _ | ⟨res, src, f⟩
    · simp [applyOp, hcp] at h
    obtain ⟨_, m2, rfl, g1, g2, _, hcase⟩ := mapCopy_frame m faults res src f hcp
    simp only [applyOp, hcp, Option.some.injEq] at h
    subst h
    refine ⟨hsame _ g1 g2, fun hc _ => ?_⟩
    rcases hcase with ⟨_, hit | ⟨j, hit, hj⟩⟩ | ⟨c, _, hit, _⟩
    · unfold CursorOk at hc ⊢
      rw [hit, g2]
      exact hc
    · unfold CursorOk
      rw [hit, g2]
      exact hj
    · unfold CursorOk
      rw [hit]
      trivial
  | copyResult faults =>
    rcases hcp : mapCopy (some m) faults with _ | ⟨res, src, f⟩
    · simp [applyOp, hcp] at h
    rcases res with _ | c
    · simp [applyOp, hcp] at h
    simp only [applyOp, hcp, Option.some.injEq] at h
    subst h
    obtain ⟨_, m2, _, _, _, _, hcase⟩ := mapCopy_frame m faults (some c) src f hcp
    rcases hcase with ⟨h0, _⟩ | ⟨c2, h0, _, hit, _, _, hl, hz, hnz⟩
    · cases h0
    · simp only [Option.some.injEq] at h0
      subst h0
      refine ⟨?_, fun _ _ => ?_⟩
      · by_cases hm : m.first_node = []
        · rw [hz hm]
          rw [hm] at hl
          simp only [List.length_nil, Nat.le_zero_eq] at hl
          rw [hl]
          simp
        · rw [hnz hm]
          omega
      · unfold CursorOk
        rw [hit]
        trivial

/-- A sequence of calls, whatever the comparator: `size` stays at or above the number of
nodes, and the cursor stays NULL or on a node of the chain as long as no `mapRemove` deletes
the head node under the cursor. -/
theorem runOps_frame : ∀ (ops : List (MapOp K V)) (m m1 : Map K V),
    (m.first_node.length : Int) ≤ m.size → runOps m ops = some m1 →
    (m1.first_node.length : Int) ≤ m1.size ∧
      (CursorOk m → sparesCursor m ops = true → CursorOk m1) := by
  intro ops
  induction ops with
  | nil =>
    intro m m1 hlen h
    simp only [runOps, Option.some.injEq] at h
    subst h
    exact ⟨hlen, fun hc _ => hc⟩
  | cons op ops ih =>
    intro m m1 hlen h
    rcases hop : applyOp m op with _ | m2
    · simp [runOps, hop] at h
    · simp only [runOps, hop] at h
      obtain ⟨hlen2, hcur2⟩ := applyOp_frame m op m2 hlen hop
      obtain ⟨hlen3, hcur3⟩ := ih m2 m1 hlen2 h
      refine ⟨hlen3, fun hc hsp => ?_⟩
      simp only [sparesCursor, hop, Bool.and_eq_true, Bool.not_eq_true'] at hsp
      exact hcur3 (hcur2 hc hsp.1) hsp.2

end RunLemmas

/-! ## Missing keys and traversal -/

section MoreLemmas
variable {K V : Type}

theorem removeScan_absent (cmp : K → K → Int) (k : K) :
    ∀ (l : List (KeyData K V)) (it : KeyData K V) (i : Nat),
      (∀ n ∈ l, cmp n.key k ≠ 0) → (removeScan cmp k it l i).1 = false := by
  intro l
  induction l with
  | nil => intro it i _; rfl
  | cons a as ih =>
    intro it i h
    have h1 : ¬ cmp a.key k = 0 := h a (List.mem_cons_self _ _)
    by_cases h2 : cmp it.key k > 0
    · simp [removeScan, h1, h2]
    · simp only [removeScan, h1, h2, if_false]
      exact ih a (i + 1) (fun n hn => h n (List.mem_cons_of_mem _ hn))

/-- Removal of a key that no node has: the result code, and the map but for its cursor. -/
theorem mapRemove_absent (m : Map K V) (k : K)
    (h : ∀ n ∈ m.first_node, m.compareKeys n.key k ≠ 0) :
    ∃ m1, mapRemove (some m) (some k) = (MapResult.MAP_ITEM_DOES_NOT_EXIST, some m1) ∧
      m1.size = m.size ∧ m1.first_node = m.first_node ∧ SameCallbacks m m1 := by
  obtain ⟨size, chain, it, cd, ck, fd, fk, cmp⟩ := m
  simp only at h
  rcases chain with _ | ⟨first, rest⟩
  · exact ⟨_, rfl, rfl, rfl, ⟨rfl, rfl, rfl, rfl, rfl⟩⟩
  · have h1 : ¬ cmp first.key k = 0 := h first (List.mem_cons_self _ _)
    have hscan := removeScan_absent cmp k rest first 0
      (fun n hn => h n (List.mem_cons_of_mem _ hn))
    rcases hs : removeScan cmp k first rest 0 with ⟨b, i⟩
    rw [hs] at hscan
    simp only at hscan
    subst hscan
    exact ⟨Map.mk size (first :: rest) (Cursor.node i) cd ck fd fk cmp,
      by simp [mapRemove, h1, hs], rfl, rfl, ⟨rfl, rfl, rfl, rfl, rfl⟩⟩

/-- Removal of a key that a node of an ascending chain has succeeds. -/
theorem mapRemove_found (m : Map K V) (k : K) (n : KeyData K V)
    (ho : TotalOrder m.compareKeys) (hs : Ascending m.compareKeys m.first_node)
    (hn : n ∈ m.first_node) (hk : m.compareKeys n.key k = 0) :
    (mapRemove (some m) (some k)).1 = MapResult.MAP_SUCCESS := by
  obtain ⟨pre, post, hsplit⟩ := List.append_of_mem hn
  rw [hsplit, Ascending] at hs
  have hs2 := (List.pairwise_append.1 hs).2.2
  have hpre : ∀ a ∈ pre, m.compareKeys a.key k < 0 := fun a ha =>
    ho.lt_of_lt_of_le (hs2 a ha n (List.mem_cons_self _ _)) (by omega)
  obtain ⟨m1, h1, _⟩ := mapRemove_present m k pre n post hsplit hpre hk
  rw [h1]

theorem nextKeys_spec (cd : V → V) (ck : K → K) (fd : V → Unit) (fk : K → Unit)
    (cmp : K → K → Int) (size : Int) :
    ∀ (post pre : List (KeyData K V)) (x : KeyData K V) (fuel : Nat) (faults : List Bool),
      NoFault faults → post.length < fuel →
      nextKeys fuel (Map.mk size (pre ++ x :: post) (Cursor.node pre.length) cd ck fd fk cmp)
        faults = some (post.map (fun n => ck n.key)) := by
  intro post
  induction post with
  | nil =>
    intro pre x fuel faults _ hfuel
    obtain ⟨fuel, rfl⟩ : ∃ g, fuel = g + 1 := ⟨fuel - 1, by simp at hfuel; omega⟩
    have h0 : (pre ++ [x])[pre.length]? = some x := getElem?_mid pre x []
    have h1 : (pre ++ [x])[pre.length + 1]? = none := by simp
    simp [nextKeys, mapGetNext, h0, h1]
  | cons y ys ih =>
    intro pre x fuel faults hnf hfuel
    obtain ⟨fuel, rfl⟩ : ∃ g, fuel = g + 1 := ⟨fuel - 1, by simp at hfuel; omega⟩
    have h0 : (pre ++ x :: y :: ys)[pre.length]? = some x := getElem?_mid pre x (y :: ys)
    have h1 : (pre ++ x :: y :: ys)[pre.length + 1]? = some y := by
      have := getElem?_mid (pre ++ [x]) y ys
      simpa using this
    obtain ⟨rest, hc, hnf1⟩ := callCopy_noFault ck y.key hnf
    have hrec := ih (pre ++ [x]) y fuel rest hnf1 (by simp at hfuel; omega)
    simp only [List.length_append, List.length_singleton, List.append_assoc,
      List.singleton_append] at hrec
    simp [nextKeys, mapGetNext, h0, h1, hc, hrec]

theorem iterateKeys_spec (m : Map K V) (faults : List Bool) (fuel : Nat)
    (hnf : NoFault faults) (hfuel : m.first_node.length ≤ fuel) :
    iterateKeys fuel m faults = some (m.first_node.map (fun n => m.copyKey n.key)) := by
  obtain ⟨size, chain, it, cd, ck, fd, fk, cmp⟩ := m
  rcases chain with _ | ⟨first, rest⟩
  · simp [iterateKeys, mapGetFirst]
  · obtain ⟨f1, hc, hnf1⟩ := callCopy_noFault ck first.key hnf
    have hrec := nextKeys_spec cd ck fd fk cmp size rest [] first fuel f1 hnf1
      (by simp at hfuel; omega)
    simp only [List.nil_append, List.length_nil] at hrec
    simp [iterateKeys, mapGetFirst, hc, hrec]

end MoreLemmas

/-! ## The consumer layer, and the order of insertions -/

section ConsumerLemmas

variable {K V : Type}

/-- The loop of `badLocationName` never ends on a character that passes its test: the body
leaves `i` as it is. -/
theorem badLocationLoop_stuck (location : List Char) (i : Nat) (c : Char)
    (hc : location[i]? = some c) (hv : ¬ ((c < SMALL_A ∨ c > SMALL_Z) ∧ c ≠ SPACE)) :
    ∀ fuel, badLocationLoop location i fuel = none := by
  intro fuel
  induction fuel with
  | zero => rfl
  | succ n ih =>
    unfold badLocationLoop
    rw [hc]
    simp only [hv, if_false]
    exact ih

/-- The loop of `playerWritten` run from position `i` for `rounds` rounds inside the array:
it finds the id exactly when one of the entries visited is the id. -/
theorem playerWrittenLoop_spec (taken_ids : List Int) (current_id : Int) :
    ∀ (rounds i : Nat), i + rounds ≤ taken_ids.length →
      playerWrittenLoop taken_ids current_id i rounds
        = some (decide (current_id ∈ (taken_ids.drop i).take rounds)) := by
  intro rounds
  induction rounds with
  | zero =>
    intro i _
    simp [playerWrittenLoop]
  | succ n ih =>
    intro i hi
    have hlt : i < taken_ids.length := by omega
    unfold playerWrittenLoop
    rw [List.getElem?_eq_getElem hlt]
    have hdrop : taken_ids.drop i = taken_ids[i] :: taken_ids.drop (i + 1) :=
      List.drop_eq_getElem_cons hlt
    rw [hdrop, List.take_succ_cons]
    by_cases heq : current_id = taken_ids[i]
    · simp [heq]
    · simp only [heq, if_false]
      rw [ih (i + 1) (by omega)]
      simp [heq]

theorem malloc_noFault {faults : List Bool} (h : NoFault faults) : (malloc faults).1 = true := by
  rcases faults with _ | ⟨b, f⟩
  · rfl
  · have hb := h b (List.mem_cons_self _ _)
    subst hb
    rfl

theorem putSpec_append (cmp : K → K → Int) (ck : K → K) (cd : V → V) (k : K) (d : V)
    (post : List (KeyData K V)) :
    ∀ pre : List (KeyData K V), (∀ n ∈ pre, cmp n.key k < 0) →
      putSpec cmp ck cd k d (pre ++ post) = pre ++ putSpec cmp ck cd k d post := by
  intro pre
  induction pre with
  | nil => intro _; rfl
  | cons a as ih =>
    intro h
    have ha := h a (List.mem_cons_self _ _)
    rw [List.cons_append, putSpec, if_pos ha, ih (fun n hn => h n (List.mem_cons_of_mem _ hn))]
    rfl

theorem putSpec_above (cmp : K → K → Int) (ck : K → K) (cd : V → V) (k : K) (d : V)
    (post : List (KeyData K V)) (h : ∀ n ∈ post, 0 < cmp n.key k) :
    putSpec cmp ck cd k d post = { key := ck k, data := cd d } :: post := by
  rcases post with _ | ⟨x, xs⟩
  · rfl
  · have hx := h x (List.mem_cons_self _ _)
    have h1 : ¬ cmp x.key k < 0 := by omega
    have h2 : ¬ cmp x.key k = 0 := by omega
    simp only [putSpec, h1, h2, if_false]

/-- A `mapPut` that returns `MAP_SUCCESS` on a well-formed map leaves the chain that
`putSpec` describes, and a well-formed map with the same callbacks. -/
theorem mapPut_putSpec {m : Map K V} {k : K} {d : V} {faults : List Bool}
    {m1 : Map K V} {f1 : List Bool} (hwf : WellFormed m) (hc : Contract m.compareKeys m.copyKey)
    (hput : mapPut (some m) (some k) (some d) faults = some (MapResult.MAP_SUCCESS, some m1, f1)) :
    m1.first_node = putSpec m.compareKeys m.copyKey m.copyData k d m.first_node ∧
      WellFormed m1 ∧ SameCallbacks m m1 := by
  have heff := mapPut_result hwf hc hput
  refine ⟨?_, heff.wellFormed hc hwf, heff.1⟩
  obtain ⟨_, pre, post, hsplit, hpre, hcase⟩ := heff
  rw [hsplit, putSpec_append _ _ _ _ _ _ pre hpre]
  rcases hcase with ⟨hpost, hres, _⟩ | ⟨nxt, rest, rfl, hx, _, hres⟩
  · rw [putSpec_above _ _ _ _ _ _ hpost]
    rcases hres with ⟨h0, _⟩ | ⟨_, h1, _⟩
    · cases h0
    · exact h1
  · rcases hres with ⟨h0, _⟩ | ⟨_, h1, _⟩
    · cases h0
    · rw [h1]
      have h2 : ¬ m.compareKeys nxt.key k < 0 := by omega
      rw [putSpec, if_neg h2, if_pos hx]

/-- With no allocation failing, `mapPut` on a well-formed map returns `MAP_SUCCESS`. -/
theorem mapPut_noFault (m : Map K V) (k : K) (d : V) (faults : List Bool)
    (hwf : WellFormed m) (hc : Contract m.compareKeys m.copyKey) (hnf : NoFault faults) :
    ∃ m1 f1, mapPut (some m) (some k) (some d) faults
      = some (MapResult.MAP_SUCCESS, some m1, f1) := by
  obtain ⟨r, m1, f1, hput, _, pre, post, _, _, hcase⟩ := mapPut_wellFormed m k d faults hwf hc
  rcases hcase with ⟨_, _, hsucc⟩ | ⟨nxt, rest, _, _, _, hres⟩
  · have hr := hsucc hnf
    subst hr
    exact ⟨m1, f1, hput⟩
  · rcases hres with ⟨_, _, _, hm⟩ | ⟨hr, _⟩
    · rw [malloc_noFault hnf] at hm
      cases hm
    · subst hr
      exact ⟨m1, f1, hput⟩

theorem putSpec_lt {cmp : K → K → Int} {ck : K → K} {cd : V → V} {k : K} {d : V}
    {x : KeyData K V} (xs : List (KeyData K V)) (h : cmp x.key k < 0) :
    putSpec cmp ck cd k d (x :: xs) = x :: putSpec cmp ck cd k d xs := by
  rw [putSpec, if_pos h]

theorem putSpec_eq {cmp : K → K → Int} {ck : K → K} {cd : V → V} {k : K} {d : V}
    {x : KeyData K V} (xs : List (KeyData K V)) (h : cmp x.key k = 0) :
    putSpec cmp ck cd k d (x :: xs) = { key := x.key, data := cd d } :: xs := by
  have h2 : ¬ cmp x.key k < 0 := by omega
  rw [putSpec, if_neg h2, if_pos h]

theorem putSpec_gt {cmp : K → K → Int} {ck : K → K} {cd : V → V} {k : K} {d : V}
    {x : KeyData K V} (xs : List (KeyData K V)) (h : 0 < cmp x.key k) :
    putSpec cmp ck cd k d (x :: xs) = { key := ck k, data := cd d } :: x :: xs := by
  have h2 : ¬ cmp x.key k < 0 := by omega
  have h3 : ¬ cmp x.key k = 0 := by omega
  rw [putSpec, if_neg h2, if_neg h3]

/-- Two insertions described by `putSpec` commute when the keys compare unequal. -/
theorem putSpec_comm {cmp : K → K → Int} {ck : K → K} (hc : Contract cmp ck) (cd : V → V)
    (k1 k2 : K) (d1 d2 : V) (hne : cmp k1 k2 ≠ 0) :
    ∀ l : List (KeyData K V),
      putSpec cmp ck cd k2 d2 (putSpec cmp ck cd k1 d1 l)
        = putSpec cmp ck cd k1 d1 (putSpec cmp ck cd k2 d2 l) := by
  have ho := hc.order
  have hne2 : cmp k2 k1 ≠ 0 := fun h => hne (ho.eq_symm h)
  have hanti := ho.antisymm k1 k2
  have hanti2 := ho.antisymm k2 k1
  intro l
  induction l with
  | nil =>
    rcases lt_trichotomy (cmp k1 k2) 0 with h | h | h
    · have h2 : 0 < cmp k2 k1 := hanti.1 h
      rw [putSpec, putSpec, putSpec_lt (x := { key := ck k1, data := cd d1 }) []
        (by rw [hc.copy_left]; exact h),
        putSpec_gt (x := { key := ck k2, data := cd d2 }) [] (by rw [hc.copy_left]; exact h2),
        putSpec]
    · exact absurd h hne
    · have h2 : cmp k2 k1 < 0 := hanti2.2 h
      rw [putSpec, putSpec, putSpec_gt (x := { key := ck k1, data := cd d1 }) []
        (by rw [hc.copy_left]; exact h),
        putSpec_lt (x := { key := ck k2, data := cd d2 }) [] (by rw [hc.copy_left]; exact h2),
        putSpec]
  | cons x xs ih =>
    have hx1 := ho.antisymm x.key k1
    have hx2 := ho.antisymm x.key k2
    have hk1 := ho.antisymm k1 x.key
    have hk2 := ho.antisymm k2 x.key
    have t1 := ho.trans k1 x.key k2
    have t2 := ho.trans k2 x.key k1
    have t3 := ho.trans x.key k1 k2
    have t4 := ho.trans x.key k2 k1
    have t5 := ho.trans k1 k2 x.key
    have t6 := ho.trans k2 k1 x.key
    rcases lt_trichotomy (cmp x.key k1) 0 with h1 | h1 | h1 <;>
    rcases lt_trichotomy (cmp x.key k2) 0 with h2 | h2 | h2
    · rw [putSpec_lt xs h1, putSpec_lt xs h2, putSpec_lt _ h1, putSpec_lt _ h2, ih]
    · rw [putSpec_lt xs h1, putSpec_eq xs h2, putSpec_eq _ h2,
        putSpec_lt (x := { key := x.key, data := cd d2 }) xs h1]
    · have h : cmp k2 k1 < 0 := by omega
      rw [putSpec_lt xs h1, putSpec_gt xs h2, putSpec_gt _ h2,
        putSpec_lt (x := { key := ck k2, data := cd d2 }) _ (by rw [hc.copy_left]; exact h),
        putSpec_lt xs h1]
    · rw [putSpec_eq xs h1, putSpec_lt xs h2,
        putSpec_lt (x := { key := x.key, data := cd d1 }) xs h2, putSpec_eq _ h1]
    · exfalso
      omega
    · have h : cmp k2 k1 < 0 := by omega
      rw [putSpec_eq xs h1, putSpec_gt xs h2,
        putSpec_gt (x := { key := x.key, data := cd d1 }) xs h2,
        putSpec_lt (x := { key := ck k2, data := cd d2 }) _ (by rw [hc.copy_left]; exact h),
        putSpec_eq xs h1]
    · have h : cmp k1 k2 < 0 := by omega
      rw [putSpec_gt xs h1, putSpec_lt xs h2, putSpec_gt _ h1,
        putSpec_lt (x := { key := ck k1, data := cd d1 }) _ (by rw [hc.copy_left]; exact h),
        putSpec_lt xs h2]
    · have h : cmp k1 k2 < 0 := by omega
      rw [putSpec_gt xs h1, putSpec_eq xs h2,
        putSpec_lt (x := { key := ck k1, data := cd d1 }) _ (by rw [hc.copy_left]; exact h),
        putSpec_eq xs h2,
        putSpec_gt (x := { key := x.key, data := cd d2 }) xs h1]
    · rcases lt_trichotomy (cmp k1 k2) 0 with h | h | h
      · have h3 : 0 < cmp k2 k1 := hanti.1 h
        rw [putSpec_gt xs h1, putSpec_gt xs h2,
          putSpec_lt (x := { key := ck k1, data := cd d1 }) _ (by rw [hc.copy_left]; exact h),
          putSpec_gt xs h2,
          putSpec_gt (x := { key := ck k2, data := cd d2 }) _ (by rw [hc.copy_left]; exact h3)]
      · exact absurd h hne
      · have h3 : cmp k2 k1 < 0 := hanti2.2 h
        rw [putSpec_gt xs h1, putSpec_gt xs h2,
          putSpec_gt (x := { key := ck k1, data := cd d1 }) _ (by rw [hc.copy_left]; exact h),
          putSpec_lt (x := { key := ck k2, data := cd d2 }) _ (by rw [hc.copy_left]; exact h3),
          putSpec_gt xs h1]

end ConsumerLemmas

/-! ## Failure of `mapCopy`, and runs of the query bodies -/

section QueryLemmas

variable {K V : Type}

/-- A loop of `mapCopy` that ends without a new map copied some nodes and failed on the next
one, on which it leaves the cursor. -/
theorem copyLoop_fails (map : Map K V) : ∀ (nodes : List (KeyData K V)) (nm : Map K V) (i : Nat)
    (faults : List Bool) (cur : Cursor) (f : List Bool),
    copyLoop map nm nodes i faults = some (none, cur, f) →
    ∃ pre node post nm2 f2, nodes = pre ++ node :: post ∧
      copyLoop map nm pre i faults = some (some nm2, Cursor.null, f2) ∧
      cur = Cursor.node (i + pre.length) ∧ CopyFails map nm2 node f2 := by
  intro nodes
  induction nodes with
  | nil =>
    intro nm i faults cur f h
    simp [copyLoop] at h
  | cons node next ih =>
    intro nm i faults cur f h
    rw [copyLoop_cons] at h
    rcases hk : callCopy map.copyKey node.key faults with ⟨key, f1⟩
    rw [hk] at h
    rcases key with _ | key
    · simp only [Option.some.injEq, Prod.mk.injEq] at h
      obtain ⟨_, rfl, rfl⟩ := h
      exact ⟨[], node, next, nm, faults, rfl, rfl, rfl, Or.inl (by rw [hk])⟩
    simp only at h
    rcases hd : callCopy map.copyData node.data f1 with ⟨data, f2⟩
    rw [hd] at h
    rcases data with _ | data
    · simp only [Option.some.injEq, Prod.mk.injEq] at h
      obtain ⟨_, rfl, rfl⟩ := h
      exact ⟨[], node, next, nm, faults, rfl, rfl, rfl,
        Or.inr ⟨key, f1, hk, Or.inl (by rw [hd])⟩⟩
    simp only at h
    rcases hput : mapPut (some nm) (some key) (some data) f2 with _ | ⟨result, nm1, f3⟩
    · rw [hput] at h
      simp at h
    rw [hput] at h
    simp only at h
    by_cases hr : result = MapResult.MAP_OUT_OF_MEMORY
    · rw [if_pos hr] at h
      simp only [Option.some.injEq, Prod.mk.injEq] at h
      obtain ⟨_, rfl, rfl⟩ := h
      subst hr
      exact ⟨[], node, next, nm, faults, rfl, rfl, rfl,
        Or.inr ⟨key, f1, hk, Or.inr ⟨data, f2, hd, nm1, f3, hput⟩⟩⟩
    · rw [if_neg hr] at h
      rcases nm1 with _ | nm1
      · simp at h
      simp only at h
      obtain ⟨pre, n2, post, nm2, fj, hsplit, hpre, hcur, hfail⟩ := ih nm1 (i + 1) f3 cur f h
      refine ⟨node :: pre, n2, post, nm2, fj, by rw [hsplit]; rfl, ?_, ?_, hfail⟩
      · rw [copyLoop_cons, hk]
        simp only [hd, hput, if_neg hr]
        exact hpre
      · rw [hcur]
        simp only [List.length_cons]
        congr 1
        omega

/-- A `mapCopy` of a non-NULL map that returns NULL: either the new map could not be
allocated, and the source is as it was; or the nodes in front of some node were copied, the
copy of that node failed, and the cursor of the source is left on it. -/
theorem mapCopy_fails (m : Map K V) (faults : List Bool) (src : Option (Map K V))
    (f : List Bool) (h : mapCopy (some m) faults = some (none, src, f)) :
    ((mapCreate (some m.copyData) (some m.copyKey) (some m.freeData) (some m.freeKey)
        (some m.compareKeys) faults).1 = none ∧ src = some m) ∨
    ∃ new_map f0 pre node post nm fj,
      mapCreate (some m.copyData) (some m.copyKey) (some m.freeData) (some m.freeKey)
        (some m.compareKeys) faults = (some new_map, f0) ∧
      m.first_node = pre ++ node :: post ∧
      src = some { m with iterator := Cursor.node pre.length } ∧
      copyLoop m new_map pre 0 f0 = some (some nm, Cursor.null, fj) ∧
      CopyFails m nm node fj := by
  rcases hc : mapCreate (some m.copyData) (some m.copyKey) (some m.freeData) (some m.freeKey)
      (some m.compareKeys) faults with ⟨nmo, f0⟩
  simp only [mapCopy, hc] at h
  rcases nmo with _ | new_map
  · simp only [Option.some.injEq, Prod.mk.injEq, true_and] at h
    exact Or.inl ⟨rfl, h.1.symm⟩
  · right
    simp only at h
    rcases hch : m.first_node with _ | ⟨first, rest⟩
    · rw [hch] at h
      simp at h
    · rw [hch] at h
      simp only at h
      rcases hl : copyLoop m new_map (first :: rest) 0 f0 with _ | ⟨r, cur, f1⟩
      · rw [hl] at h
        simp at h
      rw [hl] at h
      rcases r with _ | nm1
      · simp only [Option.some.injEq, Prod.mk.injEq, true_and] at h
        obtain ⟨pre, node, post, nm, fj, hsplit, hpre, hcur, hfail⟩ :=
          copyLoop_fails m (first :: rest) new_map 0 f0 cur f1 hl
        refine ⟨new_map, f0, pre, node, post, nm, fj, rfl, hsplit, ?_, hpre, hfail⟩
        rw [← h.1, hcur]
        simp
      · simp at h

/-- A program that stores nothing leaves the map and the key argument as they were: the
rounds of a loop. -/
theorem runLoop_frame (c : Env K V → Option Bool)
    (body : Env K V → Option (Option (QueryValue V) × Env K V))
    (hbody : ∀ env r env1, body env = some (r, env1) → env1.map = env.map ∧ env1.key = env.key) :
    ∀ (fuel : Nat) (env : Env K V) (r : Option (QueryValue V)) (env1 : Env K V),
      runLoop c body fuel env = some (r, env1) → env1.map = env.map ∧ env1.key = env.key := by
  intro fuel
  induction fuel with
  | zero =>
    intro env r env1 h
    simp [runLoop] at h
  | succ n ih =>
    intro env r env1 h
    unfold runLoop at h
    rcases hc : c env with _ | b
    · rw [hc] at h
      simp at h
    rw [hc] at h
    cases b
    · simp only [Option.some.injEq, Prod.mk.injEq] at h
      rw [← h.2]
      exact ⟨rfl, rfl⟩
    · simp only at h
      rcases hb : body env with _ | ⟨v, env2⟩
      · rw [hb] at h
        simp at h
      rw [hb] at h
      have h2 := hbody env v env2 hb
      rcases v with _ | v
      · simp only at h
        have h3 := ih env2 r env1 h
        exact ⟨h3.1.trans h2.1, h3.2.trans h2.2⟩
      · simp only [Option.some.injEq, Prod.mk.injEq] at h
        rw [← h.2]
        exact h2

/-- A program that stores nothing leaves the map and the key argument as they were. -/
theorem exec_frame (fuel : Nat) : ∀ (s : Stmt K V), s.storesNothing = true →
    ∀ (env : Env K V) (r : Option (QueryValue V)) (env1 : Env K V),
      exec fuel s env = some (r, env1) → env1.map = env.map ∧ env1.key = env.key := by
  intro s
  induction s with
  | ptrAssign e =>
    intro _ env r env1 h
    unfold exec at h
    rcases he : e env with _ | p
    · rw [he] at h
      simp at h
    · rw [he] at h
      simp only [Option.some.injEq, Prod.mk.injEq] at h
      rw [← h.2]
      exact ⟨rfl, rfl⟩
  | mapStore e =>
    intro hs
    simp [Stmt.storesNothing] at hs
  | ret e =>
    intro _ env r env1 h
    unfold exec at h
    rcases he : e env with _ | v
    · rw [he] at h
      simp at h
    · rw [he] at h
      simp only [Option.some.injEq, Prod.mk.injEq] at h
      rw [← h.2]
      exact ⟨rfl, rfl⟩
  | ifThen c s ih =>
    intro hs env r env1 h
    unfold exec at h
    rcases hc : c env with _ | b
    · rw [hc] at h
      simp at h
    rw [hc] at h
    cases b
    · simp only [Option.some.injEq, Prod.mk.injEq] at h
      rw [← h.2]
      exact ⟨rfl, rfl⟩
    · exact ih hs env r env1 h
  | whileLoop c body ih =>
    intro hs env r env1 h
    unfold exec at h
    exact runLoop_frame c (exec fuel body) (ih hs) fuel env r env1 h
  | seq s t ihs iht =>
    intro hs env r env1 h
    simp only [Stmt.storesNothing, Bool.and_eq_true] at hs
    unfold exec at h
    rcases h1 : exec fuel s env with _ | ⟨v, env2⟩
    · rw [h1] at h
      simp at h
    rw [h1] at h
    have h2 := ihs hs.1 env v env2 h1
    rcases v with _ | v
    · simp only at h
      have h3 := iht hs.2 env2 r env1 h
      exact ⟨h3.1.trans h2.1, h3.2.trans h2.2⟩
    · simp only [Option.some.injEq, Prod.mk.injEq] at h
      rw [← h.2]
      exact h2

/-- The loop of `mapGet`, given more tests than nodes: it falls off the end of the chain
when `getLoop` finds nothing, or it returns what `getLoop` returns. -/
theorem mapGet_rounds (m : Map K V) (k : K) (fuelB : Nat) :
    ∀ (ptr : List (KeyData K V)) (fuel : Nat), ptr.length < fuel →
      (runLoop ptrNotNull (exec fuelB mapGetRound) fuel ⟨some m, some k, ptr⟩
          = some (none, ⟨some m, some k, []⟩) ∧ getLoop m.compareKeys k ptr = none) ∨
      ∃ p, runLoop ptrNotNull (exec fuelB mapGetRound) fuel ⟨some m, some k, ptr⟩
          = some (some (QueryValue.data (getLoop m.compareKeys k ptr)), ⟨some m, some k, p⟩) := by
  intro ptr
  induction ptr with
  | nil =>
    intro fuel hf
    obtain ⟨n, rfl⟩ : ∃ n, fuel = n + 1 := ⟨fuel - 1, by omega⟩
    left
    exact ⟨rfl, rfl⟩
  | cons node next ih =>
    intro fuel hf
    obtain ⟨n, rfl⟩ : ∃ n, fuel = n + 1 := ⟨fuel - 1, by omega⟩
    have hn : next.length < n := by simpa using hf
    by_cases h0 : m.compareKeys node.key k = 0
    · right
      refine ⟨node :: next, ?_⟩
      simp [runLoop, ptrNotNull, mapGetRound, exec, compareAtPtr, getLoop, h0]
    · by_cases h1 : m.compareKeys node.key k > 0
      · right
        refine ⟨node :: next, ?_⟩
        simp [runLoop, ptrNotNull, mapGetRound, exec, compareAtPtr, getLoop, h0, h1]
      · have hstep : runLoop ptrNotNull (exec fuelB mapGetRound) (n + 1)
            ⟨some m, some k, node :: next⟩
            = runLoop ptrNotNull (exec fuelB mapGetRound) n ⟨some m, some k, next⟩ := by
          simp [runLoop, ptrNotNull, mapGetRound, exec, compareAtPtr, h0, h1]
        have hg : getLoop m.compareKeys k (node :: next) = getLoop m.compareKeys k next := by
          simp [getLoop, h0, h1]
        rw [hstep, hg]
        exact ih n hn

/-- The loop of `mapContains`, given more tests than nodes. -/
theorem mapContains_rounds (m : Map K V) (k : K) (fuelB : Nat) :
    ∀ (ptr : List (KeyData K V)) (fuel : Nat), ptr.length < fuel →
      (runLoop ptrNotNull (exec fuelB mapContainsRound) fuel ⟨some m, some k, ptr⟩
          = some (none, ⟨some m, some k, []⟩) ∧ containsLoop m.compareKeys k ptr = false) ∨
      ∃ p, runLoop ptrNotNull (exec fuelB mapContainsRound) fuel ⟨some m, some k, ptr⟩
          = some (some (QueryValue.bool true), ⟨some m, some k, p⟩) ∧
        containsLoop m.compareKeys k ptr = true := by
  intro ptr
  induction ptr with
  | nil =>
    intro fuel hf
    obtain ⟨n, rfl⟩ : ∃ n, fuel = n + 1 := ⟨fuel - 1, by omega⟩
    left
    exact ⟨rfl, rfl⟩
  | cons node next ih =>
    intro fuel hf
    obtain ⟨n, rfl⟩ : ∃ n, fuel = n + 1 := ⟨fuel - 1, by omega⟩
    have hn : next.length < n := by simpa using hf
    by_cases h0 : m.compareKeys node.key k = 0
    · right
      refine ⟨node :: next, ?_, ?_⟩
      · simp [runLoop, ptrNotNull, mapContainsRound, exec, compareAtPtr, h0]
      · simp [containsLoop, h0]
    · have hstep : runLoop ptrNotNull (exec fuelB mapContainsRound) (n + 1)
          ⟨some m, some k, node :: next⟩
          = runLoop ptrNotNull (exec fuelB mapContainsRound) n ⟨some m, some k, next⟩ := by
        simp [runLoop, ptrNotNull, mapContainsRound, exec, compareAtPtr, h0]
      have hg : containsLoop m.compareKeys k (node :: next)
          = containsLoop m.compareKeys k next := by
        simp [containsLoop, h0]
      rw [hstep, hg]
      exact ih n hn

/-- Run of the body of `mapGet` on a non-NULL map, given more tests than nodes: it returns
what `mapGet` returns. -/
theorem mapGetCode_run (m : Map K V) (key : Option K) (p0 : List (KeyData K V)) (fuel : Nat)
    (hf : m.first_node.length < fuel) :
    ∃ env1, exec fuel mapGetCode ⟨some m, key, p0⟩
      = some (some (QueryValue.data (mapGet (some m) key)), env1) := by
  rcases key with _ | k
  · exact ⟨_, rfl⟩
  obtain ⟨size, chain, it, cd, ck, fd, fk, cmp⟩ := m
  rcases chain with _ | ⟨first, rest⟩
  · exact ⟨_, rfl⟩
  · have hrun : exec fuel mapGetCode ⟨some (Map.mk size (first :: rest) it cd ck fd fk cmp),
          some k, p0⟩
        = match runLoop ptrNotNull (exec fuel mapGetRound) fuel
            ⟨some (Map.mk size (first :: rest) it cd ck fd fk cmp), some k, first :: rest⟩ with
          | none => none
          | some (some v, env1) => some (some v, env1)
          | some (none, env1) => some (some (QueryValue.data none), env1) := rfl
    have hget : mapGet (some (Map.mk size (first :: rest) it cd ck fd fk cmp)) (some k)
        = getLoop cmp k (first :: rest) := rfl
    rw [hrun, hget]
    rcases mapGet_rounds (Map.mk size (first :: rest) it cd ck fd fk cmp) k fuel (first :: rest)
        fuel hf with ⟨h1, h2⟩ | ⟨p, h1⟩
    · rw [h1]
      exact ⟨_, by rw [show getLoop cmp k (first :: rest) = none from h2]⟩
    · rw [h1]
      exact ⟨_, rfl⟩

/-- Run of the body of `mapContains` on a non-NULL map, given more tests than nodes: it
returns what `mapContains` returns. -/
theorem mapContainsCode_run (m : Map K V) (key : Option K) (p0 : List (KeyData K V))
    (fuel : Nat) (hf : m.first_node.length < fuel) :
    ∃ env1, exec fuel mapContainsCode ⟨some m, key, p0⟩
      = some (some (QueryValue.bool (mapContains (some m) key)), env1) := by
  rcases key with _ | k
  · exact ⟨_, rfl⟩
  obtain ⟨size, chain, it, cd, ck, fd, fk, cmp⟩ := m
  rcases chain with _ | ⟨first, rest⟩
  · exact ⟨_, rfl⟩
  · have hrun : exec fuel mapContainsCode
          ⟨some (Map.mk size (first :: rest) it cd ck fd fk cmp), some k, p0⟩
        = match runLoop ptrNotNull (exec fuel mapContainsRound) fuel
            ⟨some (Map.mk size (first :: rest) it cd ck fd fk cmp), some k, first :: rest⟩ with
          | none => none
          | some (some v, env1) => some (some v, env1)
          | some (none, env1) => some (some (QueryValue.bool false), env1) := rfl
    have hget : mapContains (some (Map.mk size (first :: rest) it cd ck fd fk cmp)) (some k)
        = containsLoop cmp k (first :: rest) := rfl
    rw [hrun, hget]
    rcases mapContains_rounds (Map.mk size (first :: rest) it cd ck fd fk cmp) k fuel
        (first :: rest) fuel hf with ⟨h1, h2⟩ | ⟨p, h1, h2⟩
    · rw [h1]
      exact ⟨_, by rw [show containsLoop cmp k (first :: rest) = false from h2]⟩
    · rw [h1]
      exact ⟨_, by rw [show containsLoop cmp k (first :: rest) = true from h2]⟩

end QueryLemmas

/-! ## The claims -/

section Claims
variable {K V : Type}

/-- C1, on the code: removing key 2 from the well-formed chain 1, 2, 3 returns `MAP_SUCCESS`
with size 2, but the chain left holds key 1 only. Line 256 of `map.c` stores NULL in
`iterator->next` whatever follows the removed node, so node 3 is cut off with it. -/
theorem mapRemove_cuts_followers :
    (mapRemove (some (intMap 3 [⟨1, "a"⟩, ⟨2, "b"⟩, ⟨3, "c"⟩])) (some 2)).1
        = MapResult.MAP_SUCCESS ∧
      (mapRemove (some (intMap 3 [⟨1, "a"⟩, ⟨2, "b"⟩, ⟨3, "c"⟩])) (some 2)).2.map Map.view
        = some (2, [⟨1, "a"⟩], Cursor.node 0) := by
  decide

/-- C2, on the code: the state reached from `mapCreate` by `put(1)`, `put(3)`, `put(2)`,
`remove(2)` has `size` 2 and a chain of one node, so `size` is not the number of nodes
reachable from `first_node`. -/
theorem size_exceeds_node_count :
    ∃ m : Map Int String, Reachable m ∧ m.size = 2 ∧ m.first_node.length = 1 :=
  ⟨{ intMap 2 [⟨1, "a"⟩] with iterator := Cursor.node 0 },
    ⟨some (fun d => d), some (fun k => k), some (fun _ => ()), some (fun _ => ()),
      some (fun a b => a - b), [],
      [MapOp.put (some 1) (some "a") [], MapOp.put (some 3) (some "c") [],
        MapOp.put (some 2) (some "b") [], MapOp.remove (some 2)],
      intMap 0 [], rfl, rfl⟩, rfl, rfl⟩

/-- C3, on the code: `mapPut(2, "b")` on the chain holding key 1, with the three allocations
of `addNode` succeeding and the following `copyData` failing, returns `MAP_OUT_OF_MEMORY` and
leaves the new node in the chain with size 2. The insertion at line 189 falls through to the
update block of lines 197-206, which copies the data once more. -/
theorem mapPut_out_of_memory_keeps_node :
    (mapPut (some (intMap 1 [⟨1, "a"⟩])) (some 2) (some "b") [false, false, false, true]).map
        (fun r => (r.1, r.2.1.map Map.view))
      = some (MapResult.MAP_OUT_OF_MEMORY, some (2, [⟨1, "a"⟩, ⟨2, "b"⟩], Cursor.node 1)) := by
  rfl

/-- C4: in every state that `mapCreate` followed by any finite sequence of `mapPut` and
`mapRemove` calls (and of the other calls of `MapOp` as well) produces, with a total-order
comparator and a `copyKey` that preserves comparisons, the keys along the chain are strictly ascending under the
comparator given to `mapCreate`, and no two nodes have keys that compare equal. -/
theorem order_invariant (cd : V → V) (ck : K → K) (fd : V → Unit) (fk : K → Unit)
    (cmp : K → K → Int) (faults : List Bool) (ops : List (MapOp K V)) (m0 m : Map K V)
    (hc : Contract cmp ck)
    (hcreate : (mapCreate (some cd) (some ck) (some fd) (some fk) (some cmp) faults).1 = some m0)
    (hrun : runOps m0 ops = some m) :
    m.compareKeys = cmp ∧ Ascending cmp m.first_node ∧
      m.first_node.Pairwise (fun a b => cmp a.key b.key ≠ 0) := by
  have h0 := mapCreate_eq hcreate
  subst h0
  obtain ⟨hcb, hs, _⟩ := runOps_preserves ops (Map.mk 0 [] Cursor.null cd ck fd fk cmp) m hc
    List.Pairwise.nil (by simp) hrun
  have hcmp : m.compareKeys = cmp := hcb.2.2.2.2
  rw [hcmp] at hs
  exact ⟨hcmp, hs, List.Pairwise.imp (fun h => by omega) hs⟩

/-- The order invariant on the scenario of the spec, before its removal. -/
theorem order_invariant_witness :
    Ascending (fun a b : Int => a - b) [(⟨1, "a"⟩ : KeyData Int String), ⟨2, "b"⟩, ⟨3, "c"⟩] :=
  (order_invariant (fun d => d) (fun k => k) (fun _ => ()) (fun _ => ()) (fun a b => a - b) []
    [MapOp.put (some 1) (some "a") [], MapOp.put (some 3) (some "c") [],
      MapOp.put (some 2) (some "b") []]
    (intMap 0 []) { intMap 3 [⟨1, "a"⟩, ⟨2, "b"⟩, ⟨3, "c"⟩] with iterator := Cursor.node 1 }
    intContract rfl rfl).2.1

/-- C5: on a well-formed map whose callbacks meet the contract, a `mapPut` of a key that
compares equal to no stored key, with no allocation failing, returns `MAP_SUCCESS`, adds one
to `size` and splices the pair `(copyKey(K), copyData(V))` between the nodes with smaller keys
and the nodes with larger keys, all of them unchanged and in their order; the new node is the
head when every stored key is larger, and the only node when the map was empty. -/
theorem mapPut_new_key (m : Map K V) (k : K) (d : V) (faults : List Bool)
    (hwf : WellFormed m) (hc : Contract m.compareKeys m.copyKey)
    (habs : ∀ n ∈ m.first_node, m.compareKeys n.key k ≠ 0) (hnf : NoFault faults) :
    ∃ m1 f1 pre post,
      mapPut (some m) (some k) (some d) faults = some (MapResult.MAP_SUCCESS, some m1, f1) ∧
      m.first_node = pre ++ post ∧ (∀ n ∈ pre, m.compareKeys n.key k < 0) ∧
      (∀ n ∈ post, 0 < m.compareKeys n.key k) ∧
      m1.first_node = pre ++ { key := m.copyKey k, data := m.copyData d } :: post ∧
      m1.size = m.size + 1 ∧
      ((∀ n ∈ m.first_node, 0 < m.compareKeys n.key k) → pre = []) ∧
      (m.first_node = [] → m1.first_node = [{ key := m.copyKey k, data := m.copyData d }]) := by
  obtain ⟨r, m1, f1, hput, hcb, pre, post, hsplit, hpre, hcase⟩ :=
    mapPut_wellFormed m k d faults hwf hc
  rcases hcase with ⟨hpost, hres, hsucc⟩ | ⟨nxt, rest, rfl, hx, _, _⟩
  · have hr := hsucc hnf
    subst hr
    rcases hres with ⟨h0, _⟩ | ⟨_, h1, h2⟩
    · cases h0
    · refine ⟨m1, f1, pre, post, hput, hsplit, hpre, hpost, h1, h2, ?_, ?_⟩
      · intro hall
        rcases pre with _ | ⟨a, as⟩
        · rfl
        · have h3 := hpre a (List.mem_cons_self _ _)
          have h4 := hall a (by rw [hsplit]; simp)
          omega
      · intro hnil
        rw [hnil] at hsplit
        obtain ⟨rfl, rfl⟩ := List.append_eq_nil.1 hsplit.symm
        simpa using h1
  · exact absurd hx (habs nxt (by rw [hsplit]; simp))

/-- Insertion of key 4 into the sample chain 1, 3, 5. -/
theorem mapPut_new_key_witness :
    ∃ m1 f1 pre post,
      mapPut (some (intMap 3 [⟨1, "a"⟩, ⟨3, "c"⟩, ⟨5, "e"⟩])) (some 4) (some "d") []
        = some (MapResult.MAP_SUCCESS, some m1, f1) ∧
      [(⟨1, "a"⟩ : KeyData Int String), ⟨3, "c"⟩, ⟨5, "e"⟩] = pre ++ post ∧
      m1.first_node = pre ++ ⟨4, "d"⟩ :: post ∧ m1.size = 3 + 1 := by
  obtain ⟨m1, f1, pre, post, h1, h2, _, _, h5, h6, _⟩ :=
    mapPut_new_key (intMap 3 [⟨1, "a"⟩, ⟨3, "c"⟩, ⟨5, "e"⟩]) 4 "d" [] intMap_wellFormed
      intContract (by decide) (fun b hb => by cases hb)
  exact ⟨m1, f1, pre, post, h1, h2, h5, h6⟩

/-- C6: on a well-formed map whose callbacks meet the contract, a `mapPut(K, V2)` whose
`copyData` succeeds, when a node has a key comparing equal to `K`, returns `MAP_SUCCESS`,
keeps `size`, keeps that node's key and position, replaces its data by `copyData(V2)` and
leaves every other node as it was (no other node has an equal key). Hence, after a successful
`put(K, V1)`, such a `put(K, V2)` succeeds, leaves `size` as after the first put, and
`mapGet(K)` returns the copy of `V2`. -/
theorem mapPut_existing_key (m : Map K V) (k : K) (d : V) (faults : List Bool)
    (hwf : WellFormed m) (hc : Contract m.compareKeys m.copyKey)
    (hok : (malloc faults).1 = true) :
    ((∃ n ∈ m.first_node, m.compareKeys n.key k = 0) →
      ∃ m1 f1 pre nxt post,
        mapPut (some m) (some k) (some d) faults = some (MapResult.MAP_SUCCESS, some m1, f1) ∧
        m.first_node = pre ++ nxt :: post ∧ m.compareKeys nxt.key k = 0 ∧
        (∀ n ∈ pre ++ post, m.compareKeys n.key k ≠ 0) ∧
        m1.first_node = pre ++ { key := nxt.key, data := m.copyData d } :: post ∧
        m1.size = m.size) ∧
    (∀ (v1 : V) (faults1 : List Bool) (ma : Map K V) (fa : List Bool),
      mapPut (some m) (some k) (some v1) faults1 = some (MapResult.MAP_SUCCESS, some ma, fa) →
      ∃ mb fb,
        mapPut (some ma) (some k) (some d) faults = some (MapResult.MAP_SUCCESS, some mb, fb) ∧
        mb.size = ma.size ∧ mapGet (some mb) (some k) = some (m.copyData d)) := by
  refine ⟨fun hpres => mapPut_present m k d faults hwf hc hpres hok, ?_⟩
  intro v1 faults1 ma fa hput
  have heff := mapPut_result hwf hc hput
  have hwfa : WellFormed ma := heff.wellFormed hc hwf
  have hca : Contract ma.compareKeys ma.copyKey := by
    rw [heff.1.2.2.2.2, heff.1.2.1]; exact hc
  obtain ⟨pre, x, post, hch, _, hx, _, _⟩ := heff.stored hc
  obtain ⟨mb, fb, _, _, _, hputb, _, _, _, _, hsize⟩ :=
    mapPut_present ma k d faults hwfa hca ⟨x, by rw [hch]; simp, hx⟩ hok
  refine ⟨mb, fb, hputb, hsize, ?_⟩
  rw [mapGet_after_put hwfa hca hputb, heff.1.1]

/-- Update of key 3 in the sample chain 1, 3, 5. -/
theorem mapPut_existing_key_witness :
    ∃ m1 f1 pre nxt post,
      mapPut (some (intMap 3 [⟨1, "a"⟩, ⟨3, "c"⟩, ⟨5, "e"⟩])) (some 3) (some "z") []
        = some (MapResult.MAP_SUCCESS, some m1, f1) ∧
      [(⟨1, "a"⟩ : KeyData Int String), ⟨3, "c"⟩, ⟨5, "e"⟩] = pre ++ nxt :: post ∧
      m1.first_node = pre ++ ⟨nxt.key, "z"⟩ :: post ∧ m1.size = 3 := by
  obtain ⟨m1, f1, pre, nxt, post, h1, h2, _, _, h5, h6⟩ :=
    (mapPut_existing_key (intMap 3 [⟨1, "a"⟩, ⟨3, "c"⟩, ⟨5, "e"⟩]) 3 "z" [] intMap_wellFormed
      intContract rfl).1 ⟨⟨3, "c"⟩, by decide, by decide⟩
  exact ⟨m1, f1, pre, nxt, post, h1, h2, h5, h6⟩

/-- C7: on a well-formed map whose callbacks meet the contract, if `mapPut(map, K, V)` returns
`MAP_SUCCESS` then `mapGet(map, K)` on the resulting map returns `copyData(V)`, whether the
key was new or present and wherever it falls in the order. -/
theorem mapPut_then_mapGet (m : Map K V) (k : K) (d : V) (faults : List Bool) (m1 : Map K V)
    (f1 : List Bool) (hwf : WellFormed m) (hc : Contract m.compareKeys m.copyKey)
    (hput : mapPut (some m) (some k) (some d) faults
      = some (MapResult.MAP_SUCCESS, some m1, f1)) :
    mapGet (some m1) (some k) = some (m.copyData d) :=
  mapGet_after_put hwf hc hput

/-- Lookup of key 4 after its insertion into the sample chain 1, 3, 5. -/
theorem mapPut_then_mapGet_witness :
    mapGet (some { intMap 4 [⟨1, "a"⟩, ⟨3, "c"⟩, ⟨4, "d"⟩, ⟨5, "e"⟩] with
        iterator := Cursor.node 2 }) (some 4) = some "d" :=
  mapPut_then_mapGet (intMap 3 [⟨1, "a"⟩, ⟨3, "c"⟩, ⟨5, "e"⟩]) 4 "d" []
    { intMap 4 [⟨1, "a"⟩, ⟨3, "c"⟩, ⟨4, "d"⟩, ⟨5, "e"⟩] with iterator := Cursor.node 2 } []
    intMap_wellFormed intContract rfl

/-- C8: on a chain that is strictly ascending under a total-order comparator, `mapGet` with a
non-NULL key returns the data of the node whose key compares equal when there is one and NULL
when there is none, so it is non-NULL exactly when `mapContains` is true; with a NULL map or
a NULL key `mapGet` returns NULL. -/
theorem mapGet_sound (m : Map K V) (k : K) (ho : TotalOrder m.compareKeys)
    (hs : Ascending m.compareKeys m.first_node) :
    (∀ n ∈ m.first_node, m.compareKeys n.key k = 0 → mapGet (some m) (some k) = some n.data) ∧
    ((∀ n ∈ m.first_node, m.compareKeys n.key k ≠ 0) → mapGet (some m) (some k) = none) ∧
    ((mapGet (some m) (some k)).isSome = mapContains (some m) (some k)) ∧
    (∀ key : Option K, mapGet (none : Option (Map K V)) key = none) ∧
    (∀ map : Option (Map K V), mapGet map none = none) := by
  have h1 : ∀ n ∈ m.first_node, m.compareKeys n.key k = 0 →
      mapGet (some m) (some k) = some n.data := by
    intro n hn hk
    rw [mapGet_eq_getLoop]
    exact getLoop_found ho k m.first_node hs n hn hk
  have h2 : (∀ n ∈ m.first_node, m.compareKeys n.key k ≠ 0) →
      mapGet (some m) (some k) = none := by
    intro h
    rw [mapGet_eq_getLoop]
    exact getLoop_absent m.compareKeys k m.first_node h
  refine ⟨h1, h2, ?_, fun key => by cases key <;> rfl, fun map => by cases map <;> rfl⟩
  by_cases hex : ∃ n ∈ m.first_node, m.compareKeys n.key k = 0
  · obtain ⟨n, hn, hk⟩ := hex
    rw [h1 n hn hk, mapContains_eq_containsLoop]
    exact ((containsLoop_iff m.compareKeys k m.first_node).2 ⟨n, hn, hk⟩).symm
  · have hall : ∀ n ∈ m.first_node, m.compareKeys n.key k ≠ 0 :=
      fun n hn hk => hex ⟨n, hn, hk⟩
    rw [h2 hall, mapContains_eq_containsLoop]
    cases hcl : containsLoop m.compareKeys k m.first_node
    · rfl
    · exact absurd ((containsLoop_iff m.compareKeys k m.first_node).1 hcl) hex

/-- Lookup of key 3 in the sample chain 1, 3, 5. -/
theorem mapGet_sound_witness :
    mapGet (some (intMap 3 [⟨1, "a"⟩, ⟨3, "c"⟩, ⟨5, "e"⟩])) (some 3) = some "c" :=
  (mapGet_sound (intMap 3 [⟨1, "a"⟩, ⟨3, "c"⟩, ⟨5, "e"⟩]) 3 intOrder intMap_wellFormed.1).1
    ⟨3, "c"⟩ (by decide) (by decide)

/-- C9: `mapContains(map, K)` is true exactly when the map and the key are non-NULL and some
node reachable from `first_node` has a key with `compareKeys(node.key, K) == 0`; it is false
for a NULL map, for a NULL key and for an empty map. -/
theorem mapContains_iff (map : Option (Map K V)) (element : Option K) (m : Map K V) :
    (mapContains map element = true ↔
      ∃ m0 e, map = some m0 ∧ element = some e ∧
        ∃ n ∈ m0.first_node, m0.compareKeys n.key e = 0) ∧
    mapContains (none : Option (Map K V)) element = false ∧
    mapContains map none = false ∧
    mapContains (some { m with first_node := [] }) element = false := by
  refine ⟨?_, by cases element <;> rfl, by cases map <;> rfl, by cases element <;> rfl⟩
  rcases map with _ | m0
  · simp [mapContains]
  rcases element with _ | e
  · simp [mapContains]
  rw [mapContains_eq_containsLoop, containsLoop_iff]
  simp

/-- C10: on a well-formed map whose callbacks meet the contract, if `mapPut(map, K, V)`
returns `MAP_SUCCESS` then the following `mapRemove(map, K)` returns `MAP_SUCCESS`, the size
after it is one less than the size after the put, and afterwards `mapGet(map, K)` returns NULL
and `mapContains(map, K)` returns false. -/
theorem mapRemove_after_mapPut (m : Map K V) (k : K) (d : V) (faults : List Bool)
    (m1 : Map K V) (f1 : List Bool) (hwf : WellFormed m)
    (hc : Contract m.compareKeys m.copyKey)
    (hput : mapPut (some m) (some k) (some d) faults
      = some (MapResult.MAP_SUCCESS, some m1, f1)) :
    ∃ m2, mapRemove (some m1) (some k) = (MapResult.MAP_SUCCESS, some m2) ∧
      mapGetSize (some m2) = mapGetSize (some m1) - 1 ∧
      mapGet (some m2) (some k) = none ∧ mapContains (some m2) (some k) = false := by
  obtain ⟨pre, x, post, hch, _, hx, hpre, hpost⟩ := (mapPut_result hwf hc hput).stored hc
  obtain ⟨m2, hrem, hcb, hsize, hchain⟩ := mapRemove_present m1 k pre x post hch hpre hx
  have hne : ∀ n ∈ m2.first_node, m2.compareKeys n.key k ≠ 0 := by
    intro n hn
    rw [hcb.2.2.2.2]
    rcases hchain with h | h
    · rw [h] at hn
      have := hpost n hn
      omega
    · rw [h] at hn
      have := hpre n hn
      omega
  refine ⟨m2, hrem, hsize, ?_, ?_⟩
  · rw [mapGet_eq_getLoop]
    exact getLoop_absent m2.compareKeys k m2.first_node hne
  · rw [mapContains_eq_containsLoop]
    cases hcl : containsLoop m2.compareKeys k m2.first_node
    · rfl
    · obtain ⟨n, hn, hk⟩ := (containsLoop_iff m2.compareKeys k m2.first_node).1 hcl
      exact absurd hk (hne n hn)

/-- Removal of key 4 after its insertion into the sample chain 1, 3, 5. -/
theorem mapRemove_after_mapPut_witness :
    ∃ m2, mapRemove (some { intMap 4 [⟨1, "a"⟩, ⟨3, "c"⟩, ⟨4, "d"⟩, ⟨5, "e"⟩] with
        iterator := Cursor.node 2 }) (some 4) = (MapResult.MAP_SUCCESS, some m2) ∧
      mapGetSize (some m2) = 4 - 1 ∧
      mapGet (some m2) (some 4) = none ∧ mapContains (some m2) (some 4) = false :=
  mapRemove_after_mapPut (intMap 3 [⟨1, "a"⟩, ⟨3, "c"⟩, ⟨5, "e"⟩]) 4 "d" []
    { intMap 4 [⟨1, "a"⟩, ⟨3, "c"⟩, ⟨4, "d"⟩, ⟨5, "e"⟩] with iterator := Cursor.node 2 } []
    intMap_wellFormed intContract rfl

/-- C11: on a well-formed map with a total-order comparator and a non-NULL key, `mapRemove`
returns `MAP_ITEM_DOES_NOT_EXIST` exactly when no node has a key comparing equal (so also on
the empty map, and never for a key that is present: the early break does not hide it), and
then `size` and the chain are as before the call. -/
theorem mapRemove_missing_iff (m : Map K V) (k : K) (hwf : WellFormed m)
    (ho : TotalOrder m.compareKeys) :
    ((mapRemove (some m) (some k)).1 = MapResult.MAP_ITEM_DOES_NOT_EXIST ↔
        ∀ n ∈ m.first_node, m.compareKeys n.key k ≠ 0) ∧
    ((mapRemove (some m) (some k)).1 = MapResult.MAP_ITEM_DOES_NOT_EXIST →
        ∃ m1, (mapRemove (some m) (some k)).2 = some m1 ∧ m1.size = m.size ∧
          m1.first_node = m.first_node) ∧
    (m.first_node = [] →
        (mapRemove (some m) (some k)).1 = MapResult.MAP_ITEM_DOES_NOT_EXIST) := by
  have hiff : (mapRemove (some m) (some k)).1 = MapResult.MAP_ITEM_DOES_NOT_EXIST ↔
      ∀ n ∈ m.first_node, m.compareKeys n.key k ≠ 0 := by
    constructor
    · intro h n hn hk
      rw [mapRemove_found m k n ho hwf.1 hn hk] at h
      cases h
    · intro h
      obtain ⟨m1, h1, _⟩ := mapRemove_absent m k h
      rw [h1]
  refine ⟨hiff, ?_, ?_⟩
  · intro h
    obtain ⟨m1, h1, h2, h3, _⟩ := mapRemove_absent m k (hiff.1 h)
    exact ⟨m1, by rw [h1], h2, h3⟩
  · intro hnil
    exact hiff.2 (by rw [hnil]; simp)

/-- Removal of the missing key 4 from the sample chain 1, 3, 5. -/
theorem mapRemove_missing_iff_witness :
    (mapRemove (some (intMap 3 [⟨1, "a"⟩, ⟨3, "c"⟩, ⟨5, "e"⟩])) (some 4)).1
      = MapResult.MAP_ITEM_DOES_NOT_EXIST :=
  (mapRemove_missing_iff (intMap 3 [⟨1, "a"⟩, ⟨3, "c"⟩, ⟨5, "e"⟩]) 4 intMap_wellFormed
    intOrder).1.2 (by decide)

/-- C12: on a well-formed map with `n` nodes and no `copyKey` failing, `mapGetFirst` followed
by `mapGetNext` calls returns `copyKey` of the key of the 1st, 2nd, ..., `n`-th node in chain
order, `n = size` keys in all, and the call after the `n`-th key returns NULL (any number
`fuel >= n` of `mapGetNext` calls is enough to reach it); `mapGetFirst` returns NULL on a NULL
map and on an empty map. -/
theorem iteration_enumerates (m : Map K V) (faults : List Bool) (fuel : Nat)
    (hwf : WellFormed m) (hnf : NoFault faults) (hfuel : m.first_node.length ≤ fuel) :
    iterateKeys fuel m faults = some (m.first_node.map (fun n => m.copyKey n.key)) ∧
    ((m.first_node.map (fun n => m.copyKey n.key)).length : Int) = m.size ∧
    (mapGetFirst (none : Option (Map K V)) faults).1 = none ∧
    (mapGetFirst (some { m with first_node := [] }) faults).1 = none := by
  refine ⟨iterateKeys_spec m faults fuel hnf hfuel, ?_, rfl, rfl⟩
  rw [hwf.2]
  simp

/-- Traversal of the sample chain 1, 3, 5. -/
theorem iteration_enumerates_witness :
    iterateKeys 3 (intMap 3 [⟨1, "a"⟩, ⟨3, "c"⟩, ⟨5, "e"⟩]) [] = some [1, 3, 5] :=
  (iteration_enumerates (intMap 3 [⟨1, "a"⟩, ⟨3, "c"⟩, ⟨5, "e"⟩]) [] 3 intMap_wellFormed
    (fun _ hb => by cases hb) (by decide)).1

/-- C13, on the code: `put(1)`, `put(1)` (which leaves the cursor on the head), `remove(1)`
reaches a state whose chain is empty while the cursor still points to the deleted node:
the head branch of `mapRemove` (map.c 237-249) frees the head and does not touch the cursor,
where the other branch, `mapClear` and `mapCopy` leave it NULL or on a node of the chain. -/
theorem cursor_left_on_removed_node :
    ∃ m : Map Int String, Reachable m ∧ m.first_node = [] ∧ m.iterator = Cursor.stale :=
  ⟨{ intMap 0 [] with iterator := Cursor.stale },
    ⟨some (fun d => d), some (fun k => k), some (fun _ => ()), some (fun _ => ()),
      some (fun a b => a - b), [],
      [MapOp.put (some 1) (some "a") [], MapOp.put (some 1) (some "b") [],
        MapOp.remove (some 1)],
      intMap 0 [], rfl, rfl⟩, rfl, rfl⟩

/-- Where the cursor stays sound: in every state that `mapCreate` followed by a finite sequence
of `mapPut`, `mapRemove`, `mapClear`, `mapGetFirst`, `mapGetNext` (and `mapCopy`) calls
produces, in which no `mapRemove` deletes the head node while the cursor stands on it, the
cursor is NULL or stands on a node of the chain. The head branch of `mapRemove` is the only
code that leaves it on a deleted node. -/
theorem cursor_invariant (cd : Option (V → V)) (ck : Option (K → K)) (fd : Option (V → Unit))
    (fk : Option (K → Unit)) (cmp : Option (K → K → Int)) (faults : List Bool)
    (ops : List (MapOp K V)) (m0 m : Map K V)
    (hcreate : (mapCreate cd ck fd fk cmp faults).1 = some m0)
    (hrun : runOps m0 ops = some m) (hspare : sparesCursor m0 ops = true) :
    CursorOk m := by
  obtain ⟨h1, h2, h3⟩ := mapCreate_init hcreate
  have hc0 : CursorOk m0 := by
    unfold CursorOk
    rw [h3]
    trivial
  exact (runOps_frame ops m0 m (by rw [h1, h2]; simp) hrun).2 hc0 hspare

/-- The cursor after `put(1)`, `put(3)`, `mapGetFirst`, `mapGetNext`, `remove(3)`. -/
theorem cursor_invariant_witness :
    CursorOk ({ intMap 1 [⟨1, "a"⟩] with iterator := Cursor.node 0 } : Map Int String) :=
  cursor_invariant (some (fun d => d)) (some (fun k => k)) (some (fun _ => ()))
    (some (fun _ => ())) (some (fun a b => a - b)) []
    [MapOp.put (some 1) (some "a") [], MapOp.put (some 3) (some "c") [], MapOp.getFirst [],
      MapOp.getNext [], MapOp.remove (some 3)]
    (intMap 0 []) { intMap 1 [⟨1, "a"⟩] with iterator := Cursor.node 0 } rfl rfl rfl

/-- C14: a `mapCopy` of a well-formed map whose callbacks meet the contract, with no allocation
failing, returns a map with the same five callbacks, the same `size` and a chain of the same
length and order whose `i`-th node holds copies of the key and data of the `i`-th source node
(copied twice: by `mapCopy`, then by the inner `mapPut`); the size and chain of the source are
unchanged. The copy of an empty map is empty with size 0. -/
theorem mapCopy_copies (m : Map K V) (faults : List Bool) (hwf : WellFormed m)
    (hc : Contract m.compareKeys m.copyKey) (hnf : NoFault faults) :
    ∃ c src f, mapCopy (some m) faults = some (some c, some src, f) ∧ SameCallbacks m c ∧
      c.size = m.size ∧ c.first_node.length = m.first_node.length ∧
      c.first_node = m.first_node.map (fun n =>
        { key := m.copyKey (m.copyKey n.key), data := m.copyData (m.copyData n.data) }) ∧
      src.size = m.size ∧ src.first_node = m.first_node ∧
      (m.first_node = [] → c.size = 0 ∧ c.first_node = []) := by
  obtain ⟨c, src, f, h1, h2, h3, h4, h5, h6, _⟩ := mapCopy_exact m faults hwf hc hnf
  refine ⟨c, src, f, h1, h2, h3, by rw [h4]; simp, h4, h5, h6, ?_⟩
  intro hnil
  refine ⟨?_, by rw [h4, hnil]; rfl⟩
  rw [h3, hwf.2, hnil]
  rfl

/-- Copy of the sample chain 1, 3, 5. -/
theorem mapCopy_copies_witness :
    ∃ c src f, mapCopy (some (intMap 3 [⟨1, "a"⟩, ⟨3, "c"⟩, ⟨5, "e"⟩])) [] =
        some (some c, some src, f) ∧
      c.size = 3 ∧ c.first_node = [⟨1, "a"⟩, ⟨3, "c"⟩, ⟨5, "e"⟩] ∧
      src.first_node = [⟨1, "a"⟩, ⟨3, "c"⟩, ⟨5, "e"⟩] := by
  obtain ⟨c, src, f, h1, _, h3, _, h5, _, h7, _⟩ :=
    mapCopy_copies (intMap 3 [⟨1, "a"⟩, ⟨3, "c"⟩, ⟨5, "e"⟩]) [] intMap_wellFormed intContract
      (fun _ hb => by cases hb)
  exact ⟨c, src, f, h1, h3, h5, h7⟩

/-- C15, on the code: a `mapCopy` of the one-node map with a NULL cursor in which the first
`copyKey` fails returns NULL and leaves the cursor of the source on its head node: the loop
of `mapCopy` runs on `map->iterator`. -/
theorem failed_mapCopy_moves_cursor :
    (intMap 1 [⟨1, "a"⟩]).iterator = Cursor.null ∧
    (mapCopy (some (intMap 1 [⟨1, "a"⟩])) [false, true]).map
        (fun r => (r.1.isNone, r.2.1.map Map.view))
      = some (true, some (1, [⟨1, "a"⟩], Cursor.node 0)) := by
  constructor <;> rfl

/-- C15 as amended: `mapCopy` returns NULL for a NULL map, and it returns a map only if every
allocation attempt it made (the new map, each `copyKey` and `copyData`, the inner `mapPut`
calls) succeeded. Whenever it returns NULL for a non-NULL map, either the new map could not
be allocated and the source is as before the call, cursor included; or the nodes in front of
some node of the chain were copied, the copy of that node failed, and the source is as before
the call except for its cursor, which stands on that node. -/
theorem mapCopy_failure (m : Map K V) (faults : List Bool) (res src : Option (Map K V))
    (f : List Bool) (h : mapCopy (some m) faults = some (res, src, f)) :
    mapCopy (none : Option (Map K V)) faults = some (none, none, faults) ∧
    (res ≠ none → SpentOk faults f) ∧
    (res = none →
      ((mapCreate (some m.copyData) (some m.copyKey) (some m.freeData) (some m.freeKey)
          (some m.compareKeys) faults).1 = none ∧ src = some m) ∨
      ∃ new_map f0 pre node post nm fj,
        mapCreate (some m.copyData) (some m.copyKey) (some m.freeData) (some m.freeKey)
          (some m.compareKeys) faults = (some new_map, f0) ∧
        m.first_node = pre ++ node :: post ∧
        src = some { m with iterator := Cursor.node pre.length } ∧
        copyLoop m new_map pre 0 f0 = some (some nm, Cursor.null, fj) ∧
        CopyFails m nm node fj) := by
  refine ⟨rfl, ?_, ?_⟩
  · intro hne
    obtain ⟨_, m1, _, _, _, _, hcase⟩ := mapCopy_frame m faults res src f h
    rcases hcase with ⟨h0, _⟩ | ⟨c, _, _, _, _, hok, _⟩
    · exact absurd h0 hne
    · exact hok
  · intro hnone
    subst hnone
    exact mapCopy_fails m faults src f h

/-- A copy of the sample chain 1, 3, 5 in which the `copyData` of the second node fails: the
first node was copied, and the cursor is left on the second. -/
theorem mapCopy_failure_witness :
    ∃ (pre : List (KeyData Int String)) (node : KeyData Int String)
        (post : List (KeyData Int String)) (nm : Map Int String) (fj : List Bool),
      [(⟨1, "a"⟩ : KeyData Int String), ⟨3, "c"⟩, ⟨5, "e"⟩] = pre ++ node :: post ∧
      pre.length = 1 ∧ nm.first_node = [⟨1, "a"⟩] ∧
      CopyFails (intMap 3 [⟨1, "a"⟩, ⟨3, "c"⟩, ⟨5, "e"⟩]) nm node fj := by
  have h := (mapCopy_failure (intMap 3 [⟨1, "a"⟩, ⟨3, "c"⟩, ⟨5, "e"⟩])
      [false, false, false, false, false, false, false, true] none
      (some { intMap 3 [⟨1, "a"⟩, ⟨3, "c"⟩, ⟨5, "e"⟩] with iterator := Cursor.node 1 }) []
      rfl).2.2 rfl
  rcases h with ⟨h0, _⟩ | ⟨new_map, f0, pre, node, post, nm, fj, hcreate, hsplit, hsrc, hpre, hfail⟩
  · cases h0
  · have hlen : pre.length = 1 := by
      have h1 := congrArg (fun o : Option (Map Int String) => o.map (fun x => x.iterator)) hsrc
      simp only [Option.map_some', Option.some.injEq, Cursor.node.injEq] at h1
      exact h1.symm
    have hnew : new_map = intMap 0 [] ∧ f0 = [false, false, false, false, false, false, true] := by
      have h1 : (some (intMap 0 []), [false, false, false, false, false, false, true])
          = (some new_map, f0) := hcreate
      simp only [Prod.mk.injEq, Option.some.injEq] at h1
      exact ⟨h1.1.symm, h1.2.symm⟩
    obtain ⟨rfl, rfl⟩ := hnew
    obtain ⟨a, rfl⟩ : ∃ a, pre = [a] := by
      rcases pre with _ | ⟨a, _ | ⟨b, l⟩⟩
      · cases hlen
      · exact ⟨a, rfl⟩
      · simp at hlen
    simp only [List.singleton_append, List.cons.injEq] at hsplit
    obtain ⟨rfl, rfl, rfl⟩ := hsplit
    have hnm : some (some (intMap 1 [⟨1, "a"⟩]), Cursor.null, [false, true])
        = some (some nm, Cursor.null, fj) := hpre
    simp only [Option.some.injEq, Prod.mk.injEq, true_and] at hnm
    exact ⟨[⟨1, "a"⟩], ⟨3, "c"⟩, [⟨5, "e"⟩], nm, fj, rfl, rfl, by rw [← hnm.1]; rfl, hfail⟩

/-- C17, on the code: in the state reached by `put(1)`, `put(1)`, `remove(1)` the chain is
empty and the cursor points to the deleted node; `mapClear` returns `MAP_SUCCESS` at once
(map.c 307-308) and the cursor is not NULL afterwards, so a following `mapGetNext` reads
through it. In the state reached by `put(1)`, `put(3)`, `put(2)`, `remove(2)`, `mapGetFirst`,
`mapGetNext`, `remove(1)` the chain is empty, the cursor is NULL and `size` is 1; `mapClear`
returns `MAP_SUCCESS` at once and `size` is still 1 afterwards. -/
theorem mapClear_keeps_stale_cursor :
    (∃ m : Map Int String, Reachable m ∧
      (mapClear (some m)).1 = MapResult.MAP_SUCCESS ∧
      (mapClear (some m)).2.map Map.view = some (0, [], Cursor.stale) ∧
      mapGetNext (mapClear (some m)).2 [] = none) ∧
    (∃ m : Map Int String, Reachable m ∧
      (mapClear (some m)).1 = MapResult.MAP_SUCCESS ∧
      (mapClear (some m)).2.map Map.view = some (1, [], Cursor.null) ∧
      mapGetSize (mapClear (some m)).2 = 1) :=
  ⟨⟨{ intMap 0 [] with iterator := Cursor.stale },
    ⟨some (fun d => d), some (fun k => k), some (fun _ => ()), some (fun _ => ()),
      some (fun a b => a - b), [],
      [MapOp.put (some 1) (some "a") [], MapOp.put (some 1) (some "b") [],
        MapOp.remove (some 1)],
      intMap 0 [], rfl, rfl⟩, rfl, rfl, rfl⟩,
   ⟨intMap 1 [],
    ⟨some (fun d => d), some (fun k => k), some (fun _ => ()), some (fun _ => ()),
      some (fun a b => a - b), [],
      [MapOp.put (some 1) (some "a") [], MapOp.put (some 3) (some "c") [],
        MapOp.put (some 2) (some "b") [], MapOp.remove (some 2), MapOp.getFirst [],
        MapOp.getNext [], MapOp.remove (some 1)],
      intMap 0 [], rfl, rfl⟩, rfl, rfl, rfl⟩⟩

/-- What `mapClear` does when `size` is the number of nodes: for every such non-NULL map it
returns `MAP_SUCCESS` and leaves `size` 0 and `first_node` NULL with the five callbacks
unchanged; the cursor is NULL afterwards when the chain was not empty, and is left as it was
when the chain was already empty. Afterwards `mapGetSize` is 0, `mapGetFirst` returns NULL,
`mapContains` is false for every key, and `mapGetNext` returns NULL whenever the cursor is
NULL. -/
theorem mapClear_empties (m : Map K V) (faults : List Bool) (key : Option K)
    (hsize : m.size = m.first_node.length) :
    ∃ m1, mapClear (some m) = (MapResult.MAP_SUCCESS, some m1) ∧ SameCallbacks m m1 ∧
      m1.size = 0 ∧ m1.first_node = [] ∧
      (m.first_node ≠ [] → m1.iterator = Cursor.null) ∧
      (m.first_node = [] → m1.iterator = m.iterator) ∧
      mapGetSize (some m1) = 0 ∧ (mapGetFirst (some m1) faults).1 = none ∧
      mapContains (some m1) key = false ∧
      (m1.iterator = Cursor.null → mapGetNext (some m1) faults = some (none, some m1, faults)) := by
  obtain ⟨size, chain, it, cd, ck, fd, fk, cmp⟩ := m
  simp only at hsize
  have hq : ∀ m1 : Map K V, m1.first_node = [] → m1.size = 0 →
      mapGetSize (some m1) = 0 ∧ (mapGetFirst (some m1) faults).1 = none ∧
      mapContains (some m1) key = false ∧
      (m1.iterator = Cursor.null → mapGetNext (some m1) faults = some (none, some m1, faults)) := by
    intro m1 h1 h2
    refine ⟨h2, by simp [mapGetFirst, h1], ?_, ?_⟩
    · cases key <;> simp [mapContains, h1]
    · intro h3
      simp [mapGetNext, h3]
  rcases chain with _ | ⟨first, rest⟩
  · simp only [List.length_nil, Nat.cast_zero] at hsize
    subst hsize
    exact ⟨Map.mk 0 [] it cd ck fd fk cmp, rfl, ⟨rfl, rfl, rfl, rfl, rfl⟩, rfl, rfl,
      fun h => absurd rfl h, fun _ => rfl, hq _ rfl rfl⟩
  · exact ⟨Map.mk 0 [] Cursor.null cd ck fd fk cmp, rfl, ⟨rfl, rfl, rfl, rfl, rfl⟩, rfl, rfl,
      fun _ => rfl, (fun h => by cases h), hq _ rfl rfl⟩

/-- Clearing the sample chain 1, 3, 5. -/
theorem mapClear_empties_witness :
    ∃ m1, mapClear (some (intMap 3 [⟨1, "a"⟩, ⟨3, "c"⟩, ⟨5, "e"⟩]))
        = (MapResult.MAP_SUCCESS, some m1) ∧
      m1.size = 0 ∧ m1.first_node = [] ∧ mapContains (some m1) (some 3) = false := by
  obtain ⟨m1, h1, _, h3, h4, _, _, _, _, h9, _⟩ :=
    mapClear_empties (intMap 3 [⟨1, "a"⟩, ⟨3, "c"⟩, ⟨5, "e"⟩]) [] (some 3) rfl
  exact ⟨m1, h1, h3, h4, h9⟩

/-- C18: `mapCreate` returns NULL when any of the five callbacks is NULL; with five callbacks
and the allocation succeeding it returns a map with size 0, `first_node` NULL, cursor NULL
and the callbacks given, each in its field. -/
theorem mapCreate_result (cd : Option (V → V)) (ck : Option (K → K)) (fd : Option (V → Unit))
    (fk : Option (K → Unit)) (cmp : Option (K → K → Int)) (cd1 : V → V) (ck1 : K → K)
    (fd1 : V → Unit) (fk1 : K → Unit) (cmp1 : K → K → Int) (faults : List Bool) :
    (mapCreate none ck fd fk cmp faults).1 = none ∧
    (mapCreate cd none fd fk cmp faults).1 = none ∧
    (mapCreate cd ck none fk cmp faults).1 = none ∧
    (mapCreate cd ck fd none cmp faults).1 = none ∧
    (mapCreate cd ck fd fk none faults).1 = none ∧
    (mapCreate (some cd1) (some ck1) (some fd1) (some fk1) (some cmp1) faults).1 =
      (if (malloc faults).1 = true then
        some { size := 0, first_node := [], iterator := Cursor.null, copyData := cd1,
               copyKey := ck1, freeData := fd1, freeKey := fk1, compareKeys := cmp1 }
       else none) := by
  refine ⟨?_, ?_, ?_, ?_, ?_, by rw [mapCreate_some]⟩
  · cases ck <;> cases fd <;> cases fk <;> cases cmp <;> rfl
  · cases cd <;> cases fd <;> cases fk <;> cases cmp <;> rfl
  · cases cd <;> cases ck <;> cases fk <;> cases cmp <;> rfl
  · cases cd <;> cases ck <;> cases fd <;> cases cmp <;> rfl
  · cases cd <;> cases ck <;> cases fd <;> cases fk <;> rfl

/-- C19: `mapPut` with a NULL map, key or data, `mapRemove` with a NULL map or key and
`mapClear` with a NULL map return `MAP_NULL_ARGUMENT`, and a non-NULL map argument is left as
it was, cursor included. -/
theorem null_arguments (map : Option (Map K V)) (key : Option K) (data : Option V)
    (faults : List Bool) :
    mapPut none key data faults = some (MapResult.MAP_NULL_ARGUMENT, none, faults) ∧
    mapPut map none data faults = some (MapResult.MAP_NULL_ARGUMENT, map, faults) ∧
    mapPut map key none faults = some (MapResult.MAP_NULL_ARGUMENT, map, faults) ∧
    mapRemove (none : Option (Map K V)) key = (MapResult.MAP_NULL_ARGUMENT, none) ∧
    mapRemove map none = (MapResult.MAP_NULL_ARGUMENT, map) ∧
    mapClear (none : Option (Map K V)) = (MapResult.MAP_NULL_ARGUMENT, none) := by
  refine ⟨rfl, ?_, ?_, rfl, ?_, rfl⟩
  · cases map <;> rfl
  · cases map <;> cases key <;> rfl
  · cases map <;> rfl

/-- C20: `mapGetSize` returns -1 for a NULL map and the `size` field otherwise; it returns 0
on a map that `mapCreate` has just produced, and it is not negative on any map state that
`mapCreate` followed by public calls produces. -/
theorem mapGetSize_nonneg (m : Map K V) (hreach : Reachable m) :
    mapGetSize (none : Option (Map K V)) = -1 ∧ mapGetSize (some m) = m.size ∧
    0 ≤ mapGetSize (some m) ∧
    (∀ (cd : Option (V → V)) (ck : Option (K → K)) (fd : Option (V → Unit))
        (fk : Option (K → Unit)) (cmp : Option (K → K → Int)) (faults : List Bool)
        (m0 : Map K V),
      (mapCreate cd ck fd fk cmp faults).1 = some m0 → mapGetSize (some m0) = 0) := by
  refine ⟨rfl, rfl, ?_, ?_⟩
  · obtain ⟨cd, ck, fd, fk, cmp, faults, ops, m0, hcreate, hrun⟩ := hreach
    obtain ⟨h1, h2, _⟩ := mapCreate_init hcreate
    have := (runOps_frame ops m0 m (by rw [h1, h2]; simp) hrun).1
    show 0 ≤ m.size
    omega
  · intro cd ck fd fk cmp faults m0 h
    exact (mapCreate_init h).1

/-- The size after `put(1)`, `put(3)`, `put(2)`, `remove(2)`, `remove(1)`. -/
theorem mapGetSize_nonneg_witness :
    0 ≤ mapGetSize (some ({ intMap 1 [] with iterator := Cursor.stale } : Map Int String)) :=
  (mapGetSize_nonneg { intMap 1 [] with iterator := Cursor.stale }
    ⟨some (fun d => d), some (fun k => k), some (fun _ => ()), some (fun _ => ()),
      some (fun a b => a - b), [],
      [MapOp.put (some 1) (some "a") [], MapOp.put (some 3) (some "c") [],
        MapOp.put (some 2) (some "b") [], MapOp.remove (some 2), MapOp.remove (some 1)],
      intMap 0 [], rfl, rfl⟩).2.2.1

end Claims
/-! ## The claims on the consumer layer, and on sequences of calls -/

section ConsumerClaims
variable {K V : Type}

/-- C22, on the code: `chessAddTournament` with `tournament_id` 0 on an empty chess system,
with the location "L" and one game per player, returns `CHESS_SUCCESS` and stores the
tournament under id 0: line 222 tests `tournament_id < 0`. Every negative id is refused with
`CHESS_INVALID_ID`, whatever the other arguments. -/
theorem chessAddTournament_accepts_zero :
    (∀ fuel : Nat,
      (chessAddTournament (fun loc _ => some loc) (fuel + 1) (some (sampleChess [])) 0 1
          (some ['L']) []).map (fun r => (r.1, r.2.map (fun c => c.tournaments.view)))
        = some (ChessResult.CHESS_SUCCESS, some (1, [⟨0, ['L']⟩], Cursor.null))) ∧
    (∀ (T P : Type) (tournamentCreate : List Char → Int → Option T) (fuel : Nat)
        (c : ChessSystem T P) (n : Nat) (max_games : Int) (location : List Char)
        (faults : List Bool),
      chessAddTournament tournamentCreate fuel (some c) (-(n + 1 : Int)) max_games
          (some location) faults = some (ChessResult.CHESS_INVALID_ID, some c)) := by
  refine ⟨fun fuel => rfl, ?_⟩
  intro T P create fuel c n max_games location faults
  have h : (-(n + 1 : Int)) < 0 := by omega
  simp only [chessAddTournament, h, if_true]

/-- C23, on the code: with one tournament of id 1 that has not ended and holds no game of
players 1 and 2, `checkErrorsAddGame` with `play_time` 0 returns `CHESS_INVALID_PLAY_TIME`:
line 371 tests `play_time <= 0`. On these arguments the play time is refused exactly when
it is not positive. -/
theorem checkErrorsAddGame_rejects_zero :
    checkErrorsAddGame (fun _ => false) (fun _ _ _ => false) 0 2
        (some (sampleChess [⟨1, ['L']⟩])) 1 1 2 0 0 = ChessResult.CHESS_INVALID_PLAY_TIME ∧
    (∀ play_time : Int,
      checkErrorsAddGame (fun _ => false) (fun _ _ _ => false) 0 2
          (some (sampleChess [⟨1, ['L']⟩])) 1 1 2 0 play_time
        = if play_time ≤ 0 then ChessResult.CHESS_INVALID_PLAY_TIME
          else ChessResult.CHESS_SUCCESS) := by
  refine ⟨by decide, ?_⟩
  intro play_time
  have hget : mapGet (some (sampleChess [⟨1, ['L']⟩]).tournaments) (some 1) = some ['L'] := by
    decide
  have hid : ¬ ((1 : Int) ≤ 0 ∨ (1 : Int) ≤ 0 ∨ (2 : Int) ≤ 0 ∨ (1 : Int) = 2
      ∨ (0 : Int) > 2 ∨ (0 : Int) < 0) := by decide
  simp only [checkErrorsAddGame, hid, hget, if_false, Bool.false_eq_true]

/-- C24, on the code: on the valid name "London" the loop of `badLocationName` stays on the
second character for ever, since its body never advances `i`, so the call never returns. The
function answers only for the names it can settle without a second round of the loop. -/
theorem badLocationName_hangs_on_London :
    (∀ fuel : Nat, badLocationName fuel ['L', 'o', 'n', 'd', 'o', 'n'] = none) ∧
    (∀ fuel : Nat, badLocationName fuel [] = some true) ∧
    (∀ fuel : Nat, badLocationName fuel ['l', 'o'] = some true) ∧
    (∀ fuel : Nat, badLocationName (fuel + 1) ['L', '1'] = some true) ∧
    (∀ fuel : Nat, badLocationName (fuel + 1) ['L'] = some false) :=
  ⟨fun fuel => badLocationLoop_stuck ['L', 'o', 'n', 'd', 'o', 'n'] 1 'o' rfl (by decide) fuel,
    fun _ => rfl, fun _ => rfl, fun _ => rfl, fun _ => rfl⟩

/-- C25, on the code: the state reached from `mapCreate` by `put(1)`, `put(3)`, `put(2)`,
`remove(2)`, `remove(1)` has an empty chain and `size` 1; on it `mapPut(5, "e")` enters
`addNode`, which takes the branch for a non-empty map and reads `map->first_node->key`
through the NULL `first_node`, so the call has no result. -/
theorem mapPut_reads_null_head :
    ∃ m : Map Int String, Reachable m ∧ m.first_node = [] ∧ m.size = 1 ∧
      mapPut (some m) (some 5) (some "e") [] = none :=
  ⟨{ intMap 1 [] with iterator := Cursor.stale },
    ⟨some (fun d => d), some (fun k => k), some (fun _ => ()), some (fun _ => ()),
      some (fun a b => a - b), [],
      [MapOp.put (some 1) (some "a") [], MapOp.put (some 3) (some "c") [],
        MapOp.put (some 2) (some "b") [], MapOp.remove (some 2), MapOp.remove (some 1)],
      intMap 0 [], rfl, rfl⟩, rfl, rfl, rfl⟩

/-- C26: on a well-formed map whose callbacks meet the contract, for keys `k1`, `k2` that
compare unequal: with no allocation failing, `mapPut(k1, d1)` then `mapPut(k2, d2)` both return
`MAP_SUCCESS`, and so do `mapPut(k2, d2)` then `mapPut(k1, d1)`; and whenever the four calls
return `MAP_SUCCESS`, the two final maps have the same size and the same chain of pairs. -/
theorem mapPut_order_irrelevant (m : Map K V) (k1 k2 : K) (d1 d2 : V)
    (hwf : WellFormed m) (hc : Contract m.compareKeys m.copyKey)
    (hne : m.compareKeys k1 k2 ≠ 0) :
    (∀ fa fb fc fd : List Bool, NoFault fa → NoFault fb → NoFault fc → NoFault fd →
      ∃ m1 f1 m12 f12 m2 f2 m21 f21,
        mapPut (some m) (some k1) (some d1) fa = some (MapResult.MAP_SUCCESS, some m1, f1) ∧
        mapPut (some m1) (some k2) (some d2) fb = some (MapResult.MAP_SUCCESS, some m12, f12) ∧
        mapPut (some m) (some k2) (some d2) fc = some (MapResult.MAP_SUCCESS, some m2, f2) ∧
        mapPut (some m2) (some k1) (some d1) fd = some (MapResult.MAP_SUCCESS, some m21, f21) ∧
        m12.size = m21.size ∧ m12.first_node = m21.first_node) ∧
    (∀ (fa fb fc fd : List Bool) (m1 m12 m2 m21 : Map K V) (f1 f12 f2 f21 : List Bool),
      mapPut (some m) (some k1) (some d1) fa = some (MapResult.MAP_SUCCESS, some m1, f1) →
      mapPut (some m1) (some k2) (some d2) fb = some (MapResult.MAP_SUCCESS, some m12, f12) →
      mapPut (some m) (some k2) (some d2) fc = some (MapResult.MAP_SUCCESS, some m2, f2) →
      mapPut (some m2) (some k1) (some d1) fd = some (MapResult.MAP_SUCCESS, some m21, f21) →
      m12.size = m21.size ∧ m12.first_node = m21.first_node) := by
  have hagree : ∀ (fa fb fc fd : List Bool) (m1 m12 m2 m21 : Map K V)
      (f1 f12 f2 f21 : List Bool),
      mapPut (some m) (some k1) (some d1) fa = some (MapResult.MAP_SUCCESS, some m1, f1) →
      mapPut (some m1) (some k2) (some d2) fb = some (MapResult.MAP_SUCCESS, some m12, f12) →
      mapPut (some m) (some k2) (some d2) fc = some (MapResult.MAP_SUCCESS, some m2, f2) →
      mapPut (some m2) (some k1) (some d1) fd = some (MapResult.MAP_SUCCESS, some m21, f21) →
      m12.size = m21.size ∧ m12.first_node = m21.first_node := by
    intro fa fb fc fd m1 m12 m2 m21 f1 f12 f2 f21 h1 h12 h2 h21
    obtain ⟨e1, w1, s1⟩ := mapPut_putSpec hwf hc h1
    obtain ⟨e2, w2, s2⟩ := mapPut_putSpec hwf hc h2
    have hc1 : Contract m1.compareKeys m1.copyKey := by
      rw [s1.2.2.2.2, s1.2.1]; exact hc
    have hc2 : Contract m2.compareKeys m2.copyKey := by
      rw [s2.2.2.2.2, s2.2.1]; exact hc
    obtain ⟨e12, w12, _⟩ := mapPut_putSpec w1 hc1 h12
    obtain ⟨e21, w21, _⟩ := mapPut_putSpec w2 hc2 h21
    have hchain : m12.first_node = m21.first_node := by
      rw [e12, e21, e1, e2, s1.2.2.2.2, s1.2.1, s1.1, s2.2.2.2.2, s2.2.1, s2.1]
      exact putSpec_comm hc m.copyData k1 k2 d1 d2 hne m.first_node
    refine ⟨?_, hchain⟩
    rw [w12.2, w21.2, hchain]
  refine ⟨?_, hagree⟩
  intro fa fb fc fd ha hb hfc hfd
  obtain ⟨m1, f1, h1⟩ := mapPut_noFault m k1 d1 fa hwf hc ha
  obtain ⟨m2, f2, h2⟩ := mapPut_noFault m k2 d2 fc hwf hc hfc
  obtain ⟨_, w1, s1⟩ := mapPut_putSpec hwf hc h1
  obtain ⟨_, w2, s2⟩ := mapPut_putSpec hwf hc h2
  have hc1 : Contract m1.compareKeys m1.copyKey := by
    rw [s1.2.2.2.2, s1.2.1]; exact hc
  have hc2 : Contract m2.compareKeys m2.copyKey := by
    rw [s2.2.2.2.2, s2.2.1]; exact hc
  obtain ⟨m12, f12, h12⟩ := mapPut_noFault m1 k2 d2 fb w1 hc1 hb
  obtain ⟨m21, f21, h21⟩ := mapPut_noFault m2 k1 d1 fd w2 hc2 hfd
  exact ⟨m1, f1, m12, f12, m2, f2, m21, f21, h1, h12, h2, h21,
    hagree fa fb fc fd m1 m12 m2 m21 f1 f12 f2 f21 h1 h12 h2 h21⟩

/-- Keys 4 and 2 put into the sample chain 1, 3, 5 in both orders. -/
theorem mapPut_order_irrelevant_witness :
    ∃ m1 f1 m12 f12 m2 f2 m21 f21,
      mapPut (some (intMap 3 [⟨1, "a"⟩, ⟨3, "c"⟩, ⟨5, "e"⟩])) (some 4) (some "d") []
        = some (MapResult.MAP_SUCCESS, some m1, f1) ∧
      mapPut (some m1) (some 2) (some "b") [] = some (MapResult.MAP_SUCCESS, some m12, f12) ∧
      mapPut (some (intMap 3 [⟨1, "a"⟩, ⟨3, "c"⟩, ⟨5, "e"⟩])) (some 2) (some "b") []
        = some (MapResult.MAP_SUCCESS, some m2, f2) ∧
      mapPut (some m2) (some 4) (some "d") [] = some (MapResult.MAP_SUCCESS, some m21, f21) ∧
      m12.size = m21.size ∧ m12.first_node = m21.first_node :=
  (mapPut_order_irrelevant (intMap 3 [⟨1, "a"⟩, ⟨3, "c"⟩, ⟨5, "e"⟩]) 4 2 "d" "b"
    intMap_wellFormed intContract (by decide)).1 [] [] [] []
    (fun _ hb => by cases hb) (fun _ hb => by cases hb) (fun _ hb => by cases hb)
    (fun _ hb => by cases hb)

/-- C27: the bodies of `mapGet`, `mapContains` and `mapGetSize` hold no store through `map`;
run on any map with any key they return what the functions return and leave the map as it
was, every field of it, so a `mapGetNext` made after any of them returns what it returns
without them. A NULL map stays NULL. -/
theorem queries_read_only (m : Map K V) (key : Option K) (ptr : List (KeyData K V))
    (extra : Nat) (faults : List Bool) :
    ((mapGetCode : Stmt K V).storesNothing = true ∧
      (mapContainsCode : Stmt K V).storesNothing = true ∧
      (mapGetSizeCode : Stmt K V).storesNothing = true) ∧
    (∃ env1, exec (m.first_node.length + 1 + extra) mapGetCode ⟨some m, key, ptr⟩
        = some (some (QueryValue.data (mapGet (some m) key)), env1) ∧
      env1.map = some m ∧ mapGetNext env1.map faults = mapGetNext (some m) faults) ∧
    (∃ env1, exec (m.first_node.length + 1 + extra) mapContainsCode ⟨some m, key, ptr⟩
        = some (some (QueryValue.bool (mapContains (some m) key)), env1) ∧
      env1.map = some m ∧ mapGetNext env1.map faults = mapGetNext (some m) faults) ∧
    (∃ env1, exec extra mapGetSizeCode ⟨some m, key, ptr⟩
        = some (some (QueryValue.int (mapGetSize (some m))), env1) ∧
      env1.map = some m ∧ mapGetNext env1.map faults = mapGetNext (some m) faults) ∧
    (∃ env1, exec extra mapGetCode ⟨none, key, ptr⟩
        = some (some (QueryValue.data (mapGet (none : Option (Map K V)) key)), env1) ∧ env1.map = none) ∧
    (∃ env1, exec extra mapContainsCode ⟨none, key, ptr⟩
        = some (some (QueryValue.bool (mapContains (none : Option (Map K V)) key)), env1) ∧ env1.map = none) ∧
    (∃ env1, exec extra mapGetSizeCode ⟨none, key, ptr⟩
        = some (some (QueryValue.int (mapGetSize (none : Option (Map K V)))), env1) ∧ env1.map = none) := by
  have hs1 : (mapGetCode : Stmt K V).storesNothing = true := rfl
  have hs2 : (mapContainsCode : Stmt K V).storesNothing = true := rfl
  have hs3 : (mapGetSizeCode : Stmt K V).storesNothing = true := rfl
  have hframe : ∀ (fuel : Nat) (s : Stmt K V) (map : Option (Map K V)) (v : QueryValue V),
      s.storesNothing = true →
      (∃ env1, exec fuel s ⟨map, key, ptr⟩ = some (some v, env1)) →
      ∃ env1, exec fuel s ⟨map, key, ptr⟩ = some (some v, env1) ∧ env1.map = map := by
    intro fuel s map v hs hrun
    obtain ⟨env1, h⟩ := hrun
    exact ⟨env1, h, (exec_frame fuel s hs _ _ _ h).1⟩
  have hnext : ∀ (fuel : Nat) (s : Stmt K V) (v : QueryValue V),
      (∃ env1, exec fuel s ⟨some m, key, ptr⟩ = some (some v, env1) ∧ env1.map = some m) →
      ∃ env1, exec fuel s ⟨some m, key, ptr⟩ = some (some v, env1) ∧ env1.map = some m ∧
        mapGetNext env1.map faults = mapGetNext (some m) faults := by
    intro fuel s v hrun
    obtain ⟨env1, h1, h2⟩ := hrun
    exact ⟨env1, h1, h2, by rw [h2]⟩
  refine ⟨⟨hs1, hs2, hs3⟩, ?_, ?_, ?_, ?_, ?_, ?_⟩
  · exact hnext _ _ _ (hframe _ _ _ _ hs1 (mapGetCode_run m key ptr _ (by omega)))
  · exact hnext _ _ _ (hframe _ _ _ _ hs2 (mapContainsCode_run m key ptr _ (by omega)))
  · exact hnext _ _ _ (hframe _ _ _ _ hs3 ⟨⟨some m, key, ptr⟩, rfl⟩)
  · exact hframe _ _ _ _ hs1 ⟨⟨none, key, ptr⟩, rfl⟩
  · exact hframe _ _ _ _ hs2 ⟨⟨none, key, ptr⟩, rfl⟩
  · exact hframe _ _ _ _ hs3 ⟨⟨none, key, ptr⟩, rfl⟩

/-- C28: after a `mapCopy` that returns a map, the cursor of the source is NULL and so is the
cursor of the copy, and the next `mapGetNext` on the source returns NULL and changes
nothing, wherever the cursor of the source stood before the copy. -/
theorem mapCopy_consumes_cursor (m : Map K V) (faults : List Bool) (c : Map K V)
    (src : Option (Map K V)) (f : List Bool)
    (h : mapCopy (some m) faults = some (some c, src, f)) :
    ∃ m1, src = some m1 ∧ m1.iterator = Cursor.null ∧ c.iterator = Cursor.null ∧
      ∀ faults2, mapGetNext (some m1) faults2 = some (none, some m1, faults2) := by
  obtain ⟨_, m1, hsrc, _, _, _, hcase⟩ := mapCopy_frame m faults (some c) src f h
  rcases hcase with ⟨hres, _⟩ | ⟨c2, hres, h1, h2, _⟩
  · cases hres
  · cases hres
    refine ⟨m1, hsrc, h1, h2, ?_⟩
    intro faults2
    simp only [mapGetNext, h1]

/-- Copy of the sample chain 1, 3, 5 made while the cursor stands on its second node. -/
theorem mapCopy_consumes_cursor_witness :
    ∃ c m1, mapCopy (some { intMap 3 [⟨1, "a"⟩, ⟨3, "c"⟩, ⟨5, "e"⟩] with
        iterator := Cursor.node 1 }) [] = some (some c, some m1, []) ∧
      m1.iterator = Cursor.null ∧ c.iterator = Cursor.null ∧
      mapGetNext (some m1) [] = some (none, some m1, []) := by
  have hcopy : mapCopy (some { intMap 3 [⟨1, "a"⟩, ⟨3, "c"⟩, ⟨5, "e"⟩] with
        iterator := Cursor.node 1 }) []
      = some (some (intMap 3 [⟨1, "a"⟩, ⟨3, "c"⟩, ⟨5, "e"⟩]),
          some (intMap 3 [⟨1, "a"⟩, ⟨3, "c"⟩, ⟨5, "e"⟩]), []) := rfl
  obtain ⟨m1, hsrc, h1, h2, h3⟩ := mapCopy_consumes_cursor _ _ _ _ _ hcopy
  cases hsrc
  exact ⟨_, _, hcopy, h1, h2, h3 []⟩

/-- C29, on the code: on the valid name "Ab" neither the loop of `badLocationName`, started
on the second character, nor the function returns, however many rounds the loop is given:
the body of the loop never advances `i`. -/
theorem badLocationName_no_progress :
    ∀ fuel : Nat, badLocationLoop ['A', 'b'] 1 fuel = none ∧
      badLocationName fuel ['A', 'b'] = none :=
  fun fuel => ⟨badLocationLoop_stuck ['A', 'b'] 1 'b' rfl (by decide) fuel,
    badLocationLoop_stuck ['A', 'b'] 1 'b' rfl (by decide) fuel⟩

/-- C30, on the code: for an id that occurs among the ids written down `playerWritten`
returns true, and for one that does not it returns false. -/
theorem playerWritten_true_when_written :
    playerWritten [5] 5 1 = some true ∧ playerWritten [5] 7 1 = some false := by
  decide

/-- C30, amended: when the array holds at least `size` entries, `playerWritten` returns true if
`current_id` is not `NOT_TAKEN` and occurs among `taken_ids[0..size-1]`, and false
otherwise. -/
theorem playerWritten_spec (taken_ids : List Int) (current_id : Int) (size : Int)
    (hsize : size ≤ taken_ids.length) :
    playerWritten taken_ids current_id size
      = some (decide (current_id ≠ NOT_TAKEN ∧ current_id ∈ taken_ids.take size.toNat)) := by
  unfold playerWritten
  by_cases hnt : current_id = NOT_TAKEN
  · simp [hnt]
  · rw [if_neg hnt, playerWrittenLoop_spec taken_ids current_id size.toNat 0 (by omega)]
    simp [hnt]

/-- The ids 5 and 7 written down, the id 7 asked for. -/
theorem playerWritten_spec_witness :
    playerWritten [5, 7] 7 2 = some true :=
  playerWritten_spec [5, 7] 7 2 (by decide)

end ConsumerClaims

end Matam
